import Mathlib

/-!
# Tic-tac-toe multiplayer: game logic

Shallow embedding of `server/nakama/modules/game_logic/tic_tac_toe.js`
(class `TicTacToeGame`, with the leaderboard writes of `updateLeaderboard`) and
of the web client `public/game.js` (the local evaluator `checkWinner`, the
message handler `handleMatchData`, the rematch votes and the local
leaderboard), followed by the properties proved about them.

Conventions of the embedding

* the numeric constants `GAME_STATE`, `MARKS`, `RESULT` stay numbers (`Nat`);
* a `position` is an integer (`Int`), so that negative positions exist;
* an array read `arr[i]` is `arr[i]?`: `none` is JavaScript's `undefined`;
* `throw new Error(msg)` is `Except.error (JsError.error msg)`, and reading a
  property of `undefined` is `Except.error JsError.typeError`;
* `Date.now()` is an explicit argument `now`;
* a call of the asynchronous `updateLeaderboard` is recorded, with its
  arguments, in the outcome of `makeMove`.
-/

namespace TicTacToe

/-! ## Constants -/

/-- Game state constant `GAME_STATE.WAITING_FOR_PLAYERS`. -/
def GAME_STATE.WAITING_FOR_PLAYERS : Nat := 0
/-- Game state constant `GAME_STATE.IN_PROGRESS`. -/
def GAME_STATE.IN_PROGRESS : Nat := 1
/-- Game state constant `GAME_STATE.FINISHED`. -/
def GAME_STATE.FINISHED : Nat := 2

/-- Player mark `MARKS.NONE`. -/
def MARKS.NONE : Nat := 0
/-- Player mark `MARKS.X`. -/
def MARKS.X : Nat := 1
/-- Player mark `MARKS.O`. -/
def MARKS.O : Nat := 2

/-- Result type `RESULT.NONE`. -/
def RESULT.NONE : Nat := 0
/-- Result type `RESULT.WIN`. -/
def RESULT.WIN : Nat := 1
/-- Result type `RESULT.DRAW`. -/
def RESULT.DRAW : Nat := 2

/-! ## Data model -/

/-- The player object built by `addPlayer`: `{ id, username, mark }`. -/
structure Player where
  id : String
  username : String
  mark : Nat
  deriving DecidableEq, Repr

/-- The fields of a `TicTacToeGame` instance. `winner = none` is `null`. -/
structure TicTacToeGame where
  state : Nat
  board : List Nat
  players : List Player
  currentPlayerIndex : Nat
  result : Nat
  winner : Option Player
  winningLine : List Nat
  createdAt : Nat
  updatedAt : Nat
  deriving DecidableEq, Repr

/-- What JavaScript throws: an `Error` with a message, or the `TypeError` of a
property read on `undefined`. -/
inductive JsError where
  | error (message : String)
  | typeError
  deriving DecidableEq, Repr

/-- One invocation `updateLeaderboard(winnerId, loserId, isDraw)`; `none` is a
`null` or `undefined` argument. -/
structure LeaderboardCall where
  winnerId : Option String
  loserId : Option String
  isDraw : Bool
  deriving DecidableEq, Repr

/-- The object returned by a successful `makeMove`. -/
structure MoveResult where
  board : List Nat
  currentPlayer : Option Player
  state : Nat
  result : Nat
  winner : Option Player
  winningLine : List Nat
  deriving DecidableEq, Repr

/-- Everything a successful `makeMove` produces: the mutated game, the returned
object and the `updateLeaderboard` calls it started. -/
structure MoveOutcome where
  game : TicTacToeGame
  returned : MoveResult
  leaderboardCalls : List LeaderboardCall
  deriving DecidableEq, Repr

/-! ## Operations of `TicTacToeGame` -/

/-- The constructor: `new TicTacToeGame()` at time `now`. -/
def TicTacToeGame.new (now : Nat) : TicTacToeGame :=
  { state := GAME_STATE.WAITING_FOR_PLAYERS
    board := List.replicate 9 MARKS.NONE
    players := []
    currentPlayerIndex := 0
    result := RESULT.NONE
    winner := none
    winningLine := []
    createdAt := now
    updatedAt := now }

/-- Method `addPlayer(userId, username)`: the mutated game and the returned player. -/
def addPlayer (g : TicTacToeGame) (userId username : String) :
    Except JsError (TicTacToeGame × Player) :=
  if g.players.length ≥ 2 then
    .error (.error "Game is full")
  else
    let player : Player :=
      { id := userId
        username := username
        mark := if g.players.length = 0 then MARKS.X else MARKS.O }
    let g1 := { g with players := g.players ++ [player] }
    let g2 := if g1.players.length = 2 then { g1 with state := GAME_STATE.IN_PROGRESS } else g1
    .ok (g2, player)

/-- The table `winPatterns` (the same in `checkWin`, `checkWinner` and
`getWinningLine`). -/
def winPatterns : List (List Nat) :=
  [[0, 1, 2], [3, 4, 5], [6, 7, 8],
   [0, 3, 6], [1, 4, 7], [2, 5, 8],
   [0, 4, 8], [2, 4, 6]]

/-- The condition of the loop of `checkWin` for one pattern:
`pattern.includes(position) && board[pattern[0]] === mark && ...`. -/
def checkWinTest (board : List Nat) (mark : Nat) (position : Int) (pattern : List Nat) : Bool :=
  pattern.any (fun i => (i : Int) == position) &&
  pattern[0]?.bind (board[·]?) == some mark &&
  pattern[1]?.bind (board[·]?) == some mark &&
  pattern[2]?.bind (board[·]?) == some mark

/-- Method `checkWin(mark, position)`: the returned boolean and the game, whose
`winningLine` is overwritten when a pattern is found. -/
def checkWin (g : TicTacToeGame) (mark : Nat) (position : Int) : Bool × TicTacToeGame :=
  match winPatterns.find? (checkWinTest g.board mark position) with
  | some pattern => (true, { g with winningLine := pattern })
  | none => (false, g)

/-- Method `isBoardFull()`. -/
def isBoardFull (g : TicTacToeGame) : Bool :=
  g.board.all (fun cell => cell != MARKS.NONE)

/-- The object literal returned at the end of `makeMove` (also `getState`'s view). -/
def moveResult (g : TicTacToeGame) : MoveResult :=
  { board := g.board
    currentPlayer := g.players[g.currentPlayerIndex]?
    state := g.state
    result := g.result
    winner := g.winner
    winningLine := g.winningLine }

/-- Method `makeMove(playerId, position)` at time `now`. -/
def makeMove (g : TicTacToeGame) (now : Nat) (playerId : String) (position : Int) :
    Except JsError MoveOutcome :=
  if g.state ≠ GAME_STATE.IN_PROGRESS then
    .error (.error "Game is not in progress")
  else if position < 0 ∨ position ≥ 9 then
    .error (.error "Invalid position")
  else if g.board[position.toNat]? ≠ some MARKS.NONE then
    .error (.error "Position already taken")
  else
    match g.players[g.currentPlayerIndex]? with
    | none => .error .typeError
    | some currentPlayer =>
      if currentPlayer.id ≠ playerId then
        .error (.error "Not your turn")
      else
        let g1 := { g with board := g.board.set position.toNat currentPlayer.mark, updatedAt := now }
        let (won, g2) := checkWin g1 currentPlayer.mark position
        if won then
          let g3 := { g2 with
            state := GAME_STATE.FINISHED, result := RESULT.WIN, winner := some currentPlayer }
          let loser := (g3.players.find? (fun p => p.id != currentPlayer.id)).map (fun p => p.id)
          .ok { game := g3, returned := moveResult g3,
                leaderboardCalls := [⟨some currentPlayer.id, loser, false⟩] }
        else if isBoardFull g2 then
          let g3 := { g2 with state := GAME_STATE.FINISHED, result := RESULT.DRAW }
          .ok { game := g3, returned := moveResult g3,
                leaderboardCalls := [⟨none, none, true⟩] }
        else
          let g3 := { g2 with currentPlayerIndex := (g2.currentPlayerIndex + 1) % 2 }
          .ok { game := g3, returned := moveResult g3, leaderboardCalls := [] }

deriving instance DecidableEq for Except

/-! ## Sequences of calls on one game object -/

/-- A method call made on a game object; `makeMove` carries the clock value it reads. -/
inductive Call where
  | addPlayer (userId username : String)
  | makeMove (now : Nat) (playerId : String) (position : Int)
  deriving DecidableEq, Repr

/-- The game object after a call. Both methods throw before their first
assignment, so a call that throws leaves the object as it was. -/
def Call.apply (g : TicTacToeGame) : Call → TicTacToeGame
  | .addPlayer userId username =>
    match TicTacToe.addPlayer g userId username with
    | .ok (g1, _) => g1
    | .error _ => g
  | .makeMove now playerId position =>
    match TicTacToe.makeMove g now playerId position with
    | .ok out => out.game
    | .error _ => g

/-- Whether the call is a `makeMove` that returns (an accepted move). -/
def Call.acceptedMove (g : TicTacToeGame) : Call → Bool
  | .addPlayer _ _ => false
  | .makeMove now playerId position =>
    match TicTacToe.makeMove g now playerId position with
    | .ok _ => true
    | .error _ => false

/-- The game object after a sequence of calls, made in order. -/
def runCalls (g : TicTacToeGame) (calls : List Call) : TicTacToeGame :=
  calls.foldl Call.apply g

/-- How many `makeMove` calls of the sequence are accepted. -/
def acceptedMoves (g : TicTacToeGame) : List Call → Nat
  | [] => 0
  | c :: cs => (if c.acceptedMove g then 1 else 0) + acceptedMoves (c.apply g) cs

/-- The game objects that exist: those a fresh game becomes under some sequence
of `addPlayer` and `makeMove` calls. -/
def Reachable (g : TicTacToeGame) : Prop :=
  ∃ (now : Nat) (calls : List Call), g = runCalls (TicTacToeGame.new now) calls

/-- The shape every reachable game object has (see `wellFormed_of_reachable`). -/
structure WellFormed (g : TicTacToeGame) : Prop where
  board_length : g.board.length = 9
  cells : ∀ c ∈ g.board, c = MARKS.NONE ∨ c = MARKS.X ∨ c = MARKS.O
  mark_zero : ∀ p, g.players[0]? = some p → p.mark = MARKS.X
  mark_one : ∀ p, g.players[1]? = some p → p.mark = MARKS.O
  index : g.currentPlayerIndex ≤ 1
  states : g.state = GAME_STATE.WAITING_FOR_PLAYERS ∨ g.state = GAME_STATE.IN_PROGRESS ∨
    g.state = GAME_STATE.FINISHED
  waiting : g.state = GAME_STATE.WAITING_FOR_PLAYERS → g.players.length < 2
  started : g.state ≠ GAME_STATE.WAITING_FOR_PLAYERS → g.players.length = 2
  unfinished : g.state ≠ GAME_STATE.FINISHED →
    g.result = RESULT.NONE ∧ g.winner = none ∧ g.winningLine = []
  draw : g.result = RESULT.DRAW → ∀ c ∈ g.board, c ≠ MARKS.NONE

/-- The number of non-empty cells of a board. -/
def markCount (board : List Nat) : Nat :=
  board.countP (fun cell => cell != MARKS.NONE)

/-- All cells of the triple `pattern` hold the mark `mark` on `board`. -/
def lineOf (board : List Nat) (pattern : List Nat) (mark : Nat) : Prop :=
  ∀ i ∈ pattern, board[i]? = some mark

instance (board pattern : List Nat) (mark : Nat) : Decidable (lineOf board pattern mark) := by
  unfold lineOf; infer_instance

/-- Going from board `before` to board `after` completes a triple of `mark`: one
of the 8 triples holds three `mark`s afterwards and did not before. -/
def completesLine (before after : List Nat) (mark : Nat) : Prop :=
  ∃ p ∈ winPatterns, lineOf after p mark ∧ ¬ lineOf before p mark

/-- The part of `makeMove` below its four guards, for the player `currentPlayer`
whose turn it is: the move is made and scored. Used to state what an accepted
move does. -/
def acceptedOutcome (g : TicTacToeGame) (now : Nat) (currentPlayer : Player) (position : Int) :
    MoveOutcome :=
  let g1 := { g with board := g.board.set position.toNat currentPlayer.mark, updatedAt := now }
  match winPatterns.find? (checkWinTest g1.board currentPlayer.mark position) with
  | some pattern =>
    let g3 := { g1 with
      winningLine := pattern,
      state := GAME_STATE.FINISHED, result := RESULT.WIN, winner := some currentPlayer }
    { game := g3, returned := moveResult g3,
      leaderboardCalls :=
        [⟨some currentPlayer.id,
          (g.players.find? (fun p => p.id != currentPlayer.id)).map (fun p => p.id), false⟩] }
  | none =>
    if g1.board.all (fun cell => cell != MARKS.NONE) then
      let g3 := { g1 with state := GAME_STATE.FINISHED, result := RESULT.DRAW }
      { game := g3, returned := moveResult g3, leaderboardCalls := [⟨none, none, true⟩] }
    else
      let g3 := { g1 with currentPlayerIndex := (g.currentPlayerIndex + 1) % 2 }
      { game := g3, returned := moveResult g3, leaderboardCalls := [] }

instance (before after : List Nat) (mark : Nat) : Decidable (completesLine before after mark) := by
  unfold completesLine; infer_instance

/-! ## The leaderboard store and `updateLeaderboard` -/

/-- Modelled from the spec: the leaderboards held by the runtime object `nk`
(`require('nakama-runtime')`, which is not among the sources). A store maps a
leaderboard id ('wins', 'losses', 'draws', 'elo') and an owner id to the score
of the owner's record, `none` when the owner has no record there. -/
def Leaderboards : Type := String → String → Option Int

/-- Modelled from the spec: `nk.leaderboardRecordWrite(id, owner, operator, score)`
as `updateLeaderboard` uses it: operator 'set' makes `score` the owner's score,
'increment' adds `score` to it, a missing record counting as 0. -/
def leaderboardRecordWrite (nk : Leaderboards) (id owner operator : String) (score : Int) :
    Leaderboards :=
  fun i o =>
    if i = id ∧ o = owner then
      some (if operator = "set" then score else (nk id owner).getD 0 + score)
    else nk i o

/-- Modelled from the spec: `nk.leaderboardRecordsList(id, [owner], 1)`, the
`records` array of the answer: the owner's record if there is one. -/
def leaderboardRecordsList (nk : Leaderboards) (id owner : String) : List Int :=
  (nk id owner).toList

/-- Method `getPlayerScore(userId)`: the score of the first record, or 1000. -/
def getPlayerScore (nk : Leaderboards) (userId : String) : Int :=
  match leaderboardRecordsList nk "elo" userId with
  | score :: _ => score
  | [] => 1000

/-- Method `updateLeaderboard(winnerId, loserId, isDraw)` on the game `g`: the
store after its writes, made in the order of the source. A `null` or `undefined`
id is `none`; `none` and the empty string are falsy. -/
def updateLeaderboard (g : TicTacToeGame) (nk : Leaderboards) (winnerId loserId : Option String)
    (isDraw : Bool) : Leaderboards :=
  let nk1 :=
    match winnerId with
    | some w =>
      if w ≠ "" ∧ isDraw = false then
        let a := leaderboardRecordWrite nk "wins" w "increment" 1
        leaderboardRecordWrite a "elo" w "set" (getPlayerScore a w + 10)
      else nk
    | none => nk
  let nk2 :=
    match loserId with
    | some l =>
      if l ≠ "" ∧ isDraw = false then
        let a := leaderboardRecordWrite nk1 "losses" l "increment" 1
        leaderboardRecordWrite a "elo" l "set" (max 0 (getPlayerScore a l - 5))
      else nk1
    | none => nk1
  if isDraw = true ∧ g.players.length = 2 then
    g.players.foldl (fun acc player =>
      let a := leaderboardRecordWrite acc "draws" player.id "increment" 1
      leaderboardRecordWrite a "elo" player.id "set" (getPlayerScore a player.id + 2)) nk2
  else nk2

/-- The `updateLeaderboard` calls a method call starts on the game `g`. -/
def Call.leaderboardCalls (g : TicTacToeGame) : Call → List LeaderboardCall
  | .addPlayer _ _ => []
  | .makeMove now playerId position =>
    match TicTacToe.makeMove g now playerId position with
    | .ok out => out.leaderboardCalls
    | .error _ => []

/-- All `updateLeaderboard` calls started along a sequence of calls, in order. -/
def leaderboardCalls (g : TicTacToeGame) : List Call → List LeaderboardCall
  | [] => []
  | c :: cs => c.leaderboardCalls g ++ leaderboardCalls (c.apply g) cs

/-- The `updateLeaderboard` calls a game in its present state accounts for: none
before it is finished, one for its win or its draw afterwards. -/
def recordedCalls (g : TicTacToeGame) : List LeaderboardCall :=
  if g.state ≠ GAME_STATE.FINISHED then []
  else if g.result = RESULT.WIN then
    [⟨g.winner.map (fun w => w.id),
      (g.winner.bind (fun w => g.players.find? (fun p => p.id != w.id))).map (fun p => p.id),
      false⟩]
  else [⟨none, none, true⟩]

/-- An empty store: nobody has a record on any leaderboard. -/
def emptyLeaderboards : Leaderboards := fun _ _ => none

/-- Following the claim: the leaderboard read as a map from user id to rating,
the score of the user's 'elo' record, and 1000 for a user without a record. -/
def rating (nk : Leaderboards) (userId : String) : Int :=
  match nk "elo" userId with
  | some score => score
  | none => 1000

/-! ## The local evaluator of the web client (`public/game.js`) -/

/-- JavaScript truthiness of a board cell: `undefined` and `""` are falsy. -/
def truthy : Option String → Bool
  | some s => s != ""
  | none => false

/-- The condition of the loop of `checkWinner` (and of `getWinningLine`):
`board[a] && board[a] === board[b] && board[a] === board[c]`, with `[a, b, c] = pattern`. -/
def checkWinnerTest (board : List String) (pattern : List Nat) : Bool :=
  truthy (pattern[0]?.bind (board[·]?)) &&
  pattern[0]?.bind (board[·]?) == pattern[1]?.bind (board[·]?) &&
  pattern[0]?.bind (board[·]?) == pattern[2]?.bind (board[·]?)

/-- Function `checkWinner(board)`: `none` is `null`, and the string is the
winning cell's content or `'draw'`. -/
def checkWinner (board : List String) : Option String :=
  match winPatterns.find? (checkWinnerTest board) with
  | some pattern => pattern[0]?.bind (board[·]?)
  | none => if board.all (fun cell => cell != "") then some "draw" else none

/-- All cells of the triple `pattern` hold the same non-empty string on `board`. -/
def cellsWin (board : List String) (pattern : List Nat) : Prop :=
  ∃ m, m ≠ "" ∧ ∀ i ∈ pattern, board[i]? = some m

/-- Function `getWinningLine(board)`. -/
def getWinningLine (board : List String) : List Nat :=
  match winPatterns.find? (checkWinnerTest board) with
  | some pattern => pattern
  | none => []

/-! ## The state of the web client

The object `gameState`, the module variables next to it, and the handlers that
change them. Calls that only touch the page (`renderBoard`, `updateStatus`,
`updatePlayerInfo`, `updateTimerDisplay`, `showResult`, `hideResult`,
`localStorage`) are left out. A session exists (the handlers are installed after
login), the board has 9 cells, as every assignment to it by these handlers
gives, and a decoded message is the input of `handleMatchData`; its branches
for 'match_start' and 'game_state' are not modelled. -/

/-- The object `gameState.opponent`. -/
structure Opponent where
  id : String
  username : String
  deriving DecidableEq, Repr

/-- The object `gameState.timers`; `remaining` is an object keyed by user id. -/
structure Timers where
  perMoveMs : Int
  remaining : List (String × Int)
  deriving DecidableEq, Repr

/-- An entry of `gameState.leaderboard`. -/
structure LeaderboardEntry where
  username : String
  wins : Int
  losses : Int
  score : Int
  deriving DecidableEq, Repr

/-- The object `gameState`; `session` is `gameState.session.user_id`. -/
structure GameState where
  board : List String
  currentPlayer : String
  mySymbol : String
  opponent : Opponent
  isGameOver : Bool
  winningLine : List Nat
  myTurn : Bool
  matchId : Option String
  session : String
  winner : Option String
  gameMode : String
  timers : Option Timers
  leaderboard : List LeaderboardEntry
  rematchRequested : List (Option String)
  deriving DecidableEq, Repr

/-- The module variable `timerInterval`: unset, the id of a running interval, or
the stale id of an interval that was cleared. -/
inductive TimerHandle where
  | unset
  | running
  | cleared
  deriving DecidableEq, Repr

/-- The `data` of a message handed to `socket.sendMatchState`. -/
inductive Payload where
  | rematchRequest (userId : String)
  | move (position : Int) (player : String)
  deriving DecidableEq, Repr

/-- One call `socket.sendMatchState(matchId, opCode, data)`. -/
structure SentMessage where
  matchId : String
  opCode : Nat
  data : Payload
  deriving DecidableEq, Repr

/-- The web client: `gameState`, the value of the username field (trimmed), the
module variables `socket` (is there one) and `timerInterval`, the messages sent
so far (oldest first), and how many times `restartGame` has run. -/
structure Client where
  gameState : GameState
  username : String
  socket : Bool
  timerInterval : TimerHandle
  sent : List SentMessage
  restarts : Nat
  deriving DecidableEq, Repr

/-- A decoded message, by its `type`: 'move', 'move_made', 'game_over',
'rematch_request', or a type the handler has no branch for. An absent field
is `none`. -/
inductive Message where
  | move (position : Option Int) (player : String)
  | moveMade (position : Option Int) (player : String)
  | gameOver (winner : Option String) (winningLine : Option (List Nat))
  | rematchRequest (userId : Option String)
  | other (kind : String)
  deriving DecidableEq, Repr

/-- The assignment `object[key] = value` on an object held as a list of entries. -/
def setKey (entries : List (String × Int)) (key : String) (value : Int) : List (String × Int) :=
  if entries.any (fun e => e.1 == key) then
    entries.map (fun e => if e.1 == key then (key, value) else e)
  else entries ++ [(key, value)]

/-- The first element satisfying `p` is replaced by its image under `f`: what
assigning to the fields of the object returned by `find` does to the array. -/
def modifyFirst {α : Type} (p : α → Bool) (f : α → α) : List α → List α
  | [] => []
  | a :: as => if p a then f a :: as else a :: modifyFirst p f as

/-- Function `updateLeaderboardWithResult(youWon)`. The sort is the stable sort
by descending score. -/
def updateLeaderboardWithResult (c : Client) (youWon : Bool) : Client :=
  if c.username = "" then c
  else
    let leaderboard : List LeaderboardEntry :=
      match c.gameState.leaderboard.find? (fun p => p.username == c.username) with
      | some _ =>
        modifyFirst (fun (p : LeaderboardEntry) => p.username == c.username)
          (fun (p : LeaderboardEntry) =>
            let wins := p.wins + (if youWon then 1 else 0)
            let losses := p.losses + (if youWon then 0 else 1)
            { p with wins := wins, losses := losses, score := wins * 10 - losses * 5 })
          c.gameState.leaderboard
      | none =>
        c.gameState.leaderboard ++
          [{ username := c.username
             wins := if youWon then 1 else 0
             losses := if youWon then 0 else 1
             score := if youWon then 10 else -5 }]
    { c with gameState := { c.gameState with
        leaderboard := leaderboard.insertionSort (fun a b => b.score ≤ a.score) } }

/-- Function `updateGameStatus()`: once the game is over it works out `youWon`
and calls `updateLeaderboardWithResult`. -/
def updateGameStatus (c : Client) : Client :=
  if c.gameState.isGameOver then
    let youWon :=
      if c.gameState.winner = some "draw" then false
      else if c.gameState.winner = some c.gameState.mySymbol then true
      else false
    updateLeaderboardWithResult c youWon
  else c

/-- Function `startTimer()`. -/
def startTimer (c : Client) : Client :=
  let handle := match c.timerInterval with
    | .unset => TimerHandle.unset
    | _ => TimerHandle.cleared
  if c.gameState.gameMode ≠ "timed" ∨ c.gameState.timers = none then
    { c with timerInterval := handle }
  else { c with timerInterval := .running }

/-- Function `stopTimer()`. -/
def stopTimer (c : Client) : Client :=
  { c with timerInterval := .unset }

/-- Function `restartGame()`. -/
def restartGame (c : Client) : Client :=
  let gs := { c.gameState with
    board := List.replicate 9 ""
    isGameOver := false
    winningLine := []
    winner := none
    myTurn := c.gameState.mySymbol == "X"
    rematchRequested := [] }
  let c1 := { c with gameState := gs, restarts := c.restarts + 1 }
  let c2 :=
    match gs.timers with
    | some t =>
      if gs.gameMode = "timed" then
        let remaining := setKey (setKey t.remaining gs.session t.perMoveMs) gs.opponent.id
          t.perMoveMs
        startTimer { c1 with gameState := { gs with timers := some { t with remaining := remaining } } }
      else c1
    | none => c1
  updateGameStatus c2

/-- The block "Handle timer switching for timed mode" of the 'move' and
'move_made' branches: in timed mode the clock of the player who just moved is
set to the budget, and the timer is started when it is the turn of this client. -/
def switchTimers (c : Client) : Client :=
  match c.gameState.timers with
  | some t =>
    if c.gameState.gameMode = "timed" then
      let currentPlayerId :=
        if c.gameState.myTurn then c.gameState.session else c.gameState.opponent.id
      let previousPlayerId :=
        if currentPlayerId = c.gameState.session then c.gameState.opponent.id
        else c.gameState.session
      let c1 : Client := { c with gameState := { c.gameState with
        timers := some { t with remaining := setKey t.remaining previousPlayerId t.perMoveMs } } }
      if c.gameState.myTurn then startTimer c1 else c1
    else c
  | none => c

/-- The block "Check for game over conditions" of the 'move' and 'move_made'
branches. -/
def checkGameOver (c : Client) : Client :=
  let winner := checkWinner c.gameState.board
  if truthy winner then
    stopTimer { c with gameState := { c.gameState with
      isGameOver := true
      winner := winner
      winningLine := getWinningLine c.gameState.board } }
  else if c.gameState.board.all (fun cell => cell != "") then
    stopTimer { c with gameState := { c.gameState with
      isGameOver := true
      winner := some "draw" } }
  else c

/-- The body shared by the 'move' and 'move_made' branches of `handleMatchData`,
up to and including the check for the end of the game; `none` when the guard
on `position` fails. -/
def applyMoveMessage (c : Client) (position : Option Int) (player : String) : Option Client :=
  match position with
  | none => none
  | some pos =>
    if 1 ≤ pos ∧ pos ≤ 9 then
      let currentPlayer := if player = "X" then "O" else "X"
      let c1 : Client := { c with gameState := { c.gameState with
        board := c.gameState.board.set (pos - 1).toNat player
        currentPlayer := currentPlayer
        myTurn := currentPlayer == c.gameState.mySymbol } }
      some (checkGameOver (switchTimers c1))
    else none

/-- The vote list after `userId` is pushed unless it is included already: the
first statements of the 'rematch_request' branch. -/
def addVote (votes : List (Option String)) (userId : Option String) : List (Option String) :=
  if votes.contains userId then votes else votes ++ [userId]

/-- Function `handleMatchData(matchData)` on a decoded message: the branch of
the message type, then the two calls that end the function. -/
def handleMatchData (c : Client) (message : Message) : Client :=
  let c1 :=
    match message with
    | .move position player =>
      match applyMoveMessage c position player with
      | some c0 => updateGameStatus c0
      | none => c
    | .moveMade position player =>
      match applyMoveMessage c position player with
      | some c0 => c0
      | none => c
    | .gameOver winner winningLine =>
      { c with gameState := { c.gameState with
          isGameOver := true
          winner := if truthy winner then winner else none
          winningLine := winningLine.getD [] } }
    | .rematchRequest userId =>
      let votes :=
        if c.gameState.rematchRequested.contains userId then c.gameState.rematchRequested
        else c.gameState.rematchRequested ++ [userId]
      let c0 : Client := { c with gameState := { c.gameState with rematchRequested := votes } }
      if votes.length ≥ 2 then restartGame c0 else c0
    | .other _ => c
  updateGameStatus c1

/-- Function `requestRematch()`, the second of the two declarations of that
name, which is the one in effect. -/
def requestRematch (c : Client) : Client :=
  if ¬ truthy c.gameState.matchId ∨
      c.gameState.rematchRequested.contains (some c.gameState.session) then c
  else
    let c1 : Client := { c with gameState := { c.gameState with
      rematchRequested := c.gameState.rematchRequested ++ [some c.gameState.session] } }
    let c2 : Client :=
      if c1.socket then
        { c1 with sent := c1.sent ++
            [⟨c1.gameState.matchId.getD "", 1, .rematchRequest c1.gameState.session⟩] }
      else c1
    updateGameStatus c2

/-- What happens to the web client: the player asks for a rematch, or a message arrives. -/
inductive ClientEvent where
  | requestRematch
  | message (m : Message)
  deriving DecidableEq, Repr

/-- The web client after an event. -/
def ClientEvent.apply (c : Client) : ClientEvent → Client
  | .requestRematch => TicTacToe.requestRematch c
  | .message m => handleMatchData c m

/-- The web client after a sequence of events, in order. -/
def runEvents (c : Client) (events : List ClientEvent) : Client :=
  events.foldl ClientEvent.apply c

/-- The read `object[key]` on an object held as a list of entries; `none` is
`undefined`. -/
def getKey (entries : List (String × Int)) (key : String) : Option Int :=
  (entries.find? (fun e => e.1 == key)).map (fun e => e.2)

/-- The callback `startTimer` hands to `setInterval`: one tick of the running
timer. While the clock of the player to move is positive it is lowered by 100,
not below 0; otherwise the other player is recorded as winner. The call of the
undeclared `showGameOver` that ends the second branch throws after all
assignments and is left out. -/
def timerTick (c : Client) : Client :=
  if c.gameState.isGameOver then c
  else
    match c.gameState.timers with
    | none => c
    | some t =>
      let currentPlayerId :=
        if c.gameState.myTurn then c.gameState.session else c.gameState.opponent.id
      let expired : Client :=
        let winnerId :=
          if currentPlayerId = c.gameState.session then c.gameState.opponent.id
          else c.gameState.session
        updateGameStatus { c with
          gameState := { c.gameState with winner := some winnerId, isGameOver := true }
          timerInterval := match c.timerInterval with
            | .unset => TimerHandle.unset
            | _ => TimerHandle.cleared }
      match getKey t.remaining currentPlayerId with
      | some remainingTime =>
        if remainingTime > 0 then
          { c with gameState := { c.gameState with
              timers := some { t with
                remaining := setKey t.remaining currentPlayerId (max 0 (remainingTime - 100)) } } }
        else expired
      | none => expired

/-- Function `makeMove(cellIndex)` of the web client, up to the first `await`
and with the `catch` block for the two errors thrown before it. The bot's
answer, scheduled with `setTimeout`, is not part of the call. -/
def Client.makeMove (c : Client) (cellIndex : Nat) : Client :=
  if c.gameState.myTurn = false ∨ c.gameState.isGameOver = true then c
  else if c.gameState.board[cellIndex]? ≠ some "" then c
  else if c.gameState.matchId = some "bot-game" then
    let gs1 : GameState := { c.gameState with
      board := c.gameState.board.set cellIndex c.gameState.mySymbol
      currentPlayer := if c.gameState.mySymbol = "X" then "O" else "X"
      myTurn := false }
    let winner := checkWinner gs1.board
    let gs2 : GameState :=
      if truthy winner then
        { gs1 with isGameOver := true, winner := winner, winningLine := getWinningLine gs1.board }
      else if gs1.board.all (fun cell => cell != "") then
        { gs1 with isGameOver := true, winner := some "draw" }
      else gs1
    updateGameStatus { c with gameState := gs2 }
  else if c.socket = false ∨ truthy c.gameState.matchId = false then
    { c with gameState := { c.gameState with
        board := c.gameState.board.set cellIndex ""
        myTurn := true
        currentPlayer := c.gameState.mySymbol } }
  else
    { c with sent := c.sent ++
        [⟨c.gameState.matchId.getD "", 1, .move (cellIndex + 1) c.gameState.mySymbol⟩] }

/-! ## The mobile client: the dispatcher of `mobile/src/services/socket.js` -/

/-- The module variable `eventHandlers` of the socket service: the handler
registered under an event name, `none` when the property is missing. -/
def EventHandlers (H : Type) : Type := String → Option H

/-- The function `offAll()`: `eventHandlers = {}`, also the initial value. -/
def EventHandlers.offAll {H : Type} : EventHandlers H := fun _ => none

/-- The function `on(event, handler)`: `eventHandlers[event] = handler`. -/
def EventHandlers.on {H : Type} (eventHandlers : EventHandlers H) (event : String)
    (handler : H) : EventHandlers H :=
  fun e => if e = event then some handler else eventHandlers e

/-- The function `off(event)`: `delete eventHandlers[event]`. -/
def EventHandlers.off {H : Type} (eventHandlers : EventHandlers H) (event : String) :
    EventHandlers H :=
  fun e => if e = event then none else eventHandlers e

/-- A decoded match message of the mobile client: its `type` and the text of
its other fields. -/
structure MatchMessage where
  type : String
  fields : String
deriving DecidableEq, Repr

/-- What one call of `handleMatchMessage` does: the handlers it invokes, each
with its argument, and the types it reports by `console.warn`. -/
structure Dispatch (H : Type) where
  invoked : List (H × MatchMessage)
  warned : List String

/-- One case of the `switch` of `handleMatchMessage`:
`if (eventHandlers.event) { eventHandlers.event(data); }`. -/
def invokeHandler {H : Type} (eventHandlers : EventHandlers H) (event : String)
    (data : MatchMessage) : Dispatch H :=
  match eventHandlers event with
  | some handler => ⟨[(handler, data)], []⟩
  | none => ⟨[], []⟩

/-- The function `handleMatchMessage(data)` of the socket service: a `switch` on
`data.type` with five cases and a `default` that only warns. -/
def handleMatchMessage {H : Type} (eventHandlers : EventHandlers H) (data : MatchMessage) :
    Dispatch H :=
  if data.type = "match_joined" then invokeHandler eventHandlers "matchJoined" data
  else if data.type = "game_update" then invokeHandler eventHandlers "gameUpdate" data
  else if data.type = "game_over" then invokeHandler eventHandlers "gameOver" data
  else if data.type = "opponent_disconnected" then
    invokeHandler eventHandlers "opponentDisconnected" data
  else if data.type = "player_reconnected" then
    invokeHandler eventHandlers "playerReconnected" data
  else ⟨[], [data.type]⟩

/-! ## The mobile client: the screen `mobile/src/screens/GameScreen.js`

The state variables of the component, the handlers it registers, the press of
a board cell as `Board.js` passes it on, and the effect on `[gameState,
mySymbol]`, which runs after every change of the two. Alerts and console output
are left out; a scheduled `navigation.replace('Result', ...)` is recorded. -/

/-- The `state` object of a match as the server sends it to the mobile client;
a cell is `''`, `'X'` or `'O'`, and `none` stands for `null`. -/
structure MatchState where
  board : List (Option String)
  next_turn : String
  status : String
deriving DecidableEq, Repr

/-- The state of `GameScreen`: the route parameter `matchId`, the five state
variables, the calls `makeMove(matchId, cellIndex)` made so far and the
navigations to the result screen scheduled so far. -/
structure GameScreen where
  matchId : String
  gameState : Option MatchState
  mySymbol : Option String
  isMyTurn : Bool
  isLoading : Bool
  opponentDisconnected : Bool
  requests : List (String × Nat)
  results : List (Option MatchState)
deriving DecidableEq, Repr

/-- The effect on `[gameState, mySymbol]`: `if (gameState && mySymbol)
setIsMyTurn(gameState.next_turn === mySymbol && gameState.status === 'active')`. -/
def turnEffect (s : GameScreen) : GameScreen :=
  match s.gameState with
  | some gs =>
    if truthy s.mySymbol then
      { s with isMyTurn := decide (some gs.next_turn = s.mySymbol) && decide (gs.status = "active") }
    else s
  | none => s

/-- The function `handleCellPress(cellIndex)` up to the request: the guard, the
optimistic update of the board and of the turn, and the call of `makeMove`.
`cellIndex` is an index of the board, as it is for every press `Board` passes
on. -/
def handleCellPress (s : GameScreen) (cellIndex : Nat) : GameScreen :=
  match s.gameState with
  | none => s
  | some gs =>
    if s.isMyTurn = false then s
    else
      { s with
        gameState := some { gs with board := gs.board.set cellIndex s.mySymbol }
        isMyTurn := false
        requests := s.requests ++ [(s.matchId, cellIndex)] }

/-- The prop `disabled` of the cell `index` of the rendered board:
`disabled || cellValue !== ''` in `Board.js`, with `disabled = !isMyTurn ||
opponentDisconnected` and `board = gameState?.board || Array(9).fill('')` from
`GameScreen`. -/
def cellDisabled (s : GameScreen) (index : Nat) : Bool :=
  let board := match s.gameState with
    | some gs => gs.board
    | none => List.replicate 9 (some "")
  let disabled := !s.isMyTurn || s.opponentDisconnected
  disabled || decide (board[index]? ≠ some (some ""))

/-- A press on the cell `index`: nothing while the loading view is shown or the
cell is disabled, else `handleCellPress(index)` followed by the effect. -/
def pressCell (s : GameScreen) (index : Nat) : GameScreen :=
  if s.isLoading = true ∨ cellDisabled s index = true then s
  else turnEffect (handleCellPress s index)

/-- What happens to a `GameScreen`: the five socket events it listens to, a
press on a cell, and the failure of a move request with the state to revert
to. -/
inductive ScreenEvent where
  | matchJoined (state : Option MatchState) (your_symbol : Option String)
  | gameUpdate (state : Option MatchState) (game_status : String)
  | gameOver (state : Option MatchState)
  | opponentDisconnected
  | playerReconnected
  | press (cellIndex : Nat)
  | moveFailed (previous : MatchState)
deriving DecidableEq, Repr

/-- The handler of each event, as registered by `setupGameListeners`, followed
by the effect where the handler sets `gameState` or `mySymbol`. -/
def ScreenEvent.apply (s : GameScreen) : ScreenEvent → GameScreen
  | .matchJoined state your_symbol =>
    turnEffect { s with gameState := state, mySymbol := your_symbol, isLoading := false }
  | .gameUpdate state game_status =>
    turnEffect { s with
      gameState := state
      results := if game_status = "win" ∨ game_status = "draw" then s.results ++ [state]
        else s.results }
  | .gameOver state => turnEffect { s with gameState := state, results := s.results ++ [state] }
  | .opponentDisconnected => { s with opponentDisconnected := true }
  | .playerReconnected => { s with opponentDisconnected := false }
  | .press cellIndex => pressCell s cellIndex
  | .moveFailed previous => turnEffect { s with gameState := some previous, isMyTurn := true }

/-- The screen after a sequence of events. -/
def runScreen (s : GameScreen) (events : List ScreenEvent) : GameScreen :=
  events.foldl ScreenEvent.apply s

/-! ## The static file server (`server.js`)

Paths are strings; `path.join` and the string methods `startsWith` and
`endsWith` come with Node and JavaScript and are modelled here for POSIX
paths. The module variable `__dirname` is the parameter `dirname`. -/

/-- The pieces of a path between its separators `/`. -/
def splitSlash : List Char → List (List Char)
  | [] => [[]]
  | c :: cs =>
    if c = '/' then [] :: splitSlash cs
    else
      match splitSlash cs with
      | [] => [[c]]
      | segment :: rest => (c :: segment) :: rest

/-- The pieces of a path put together again with `/` between them. -/
def joinSlash : List (List Char) → List Char
  | [] => []
  | [segment] => segment
  | segment :: rest => segment ++ '/' :: joinSlash rest

/-- Modelled from the spec: the resolution of `.` and `..` by `path.normalize`
of Node, which is not among the sources. Empty pieces and `.` are dropped; `..`
removes the piece before it, is kept when there is none to remove and the path
is relative (`allowAboveRoot`), and is dropped at the root of an absolute
path. `kept` holds the pieces kept so far, last first. -/
def normalizeSegments (allowAboveRoot : Bool) :
    List (List Char) → List (List Char) → List (List Char)
  | kept, [] => kept.reverse
  | kept, segment :: rest =>
    if segment = [] ∨ segment = ['.'] then normalizeSegments allowAboveRoot kept rest
    else if segment = ['.', '.'] then
      match kept with
      | last :: before =>
        if last = ['.', '.'] then
          normalizeSegments allowAboveRoot (if allowAboveRoot then segment :: kept else kept) rest
        else normalizeSegments allowAboveRoot before rest
      | [] => normalizeSegments allowAboveRoot (if allowAboveRoot then [segment] else []) rest
    else normalizeSegments allowAboveRoot (segment :: kept) rest

/-- Modelled from the spec: `path.normalize(p)` of Node for POSIX paths. -/
def path.normalize (p : String) : String :=
  if p.data = [] then "."
  else
    let isAbsolute := decide (p.data.head? = some '/')
    let trailingSeparator := decide (p.data.getLast? = some '/')
    let body := joinSlash (normalizeSegments (!isAbsolute) [] (splitSlash p.data))
    if body = [] then
      if isAbsolute then "/" else if trailingSeparator then "./" else "."
    else
      String.mk ((if isAbsolute then ['/'] else []) ++ body ++
        (if trailingSeparator then ['/'] else []))

/-- Modelled from the spec: `path.join(a, b)` of Node for POSIX paths: the
non-empty arguments joined by `/`, then normalised. -/
def path.join (a b : String) : String :=
  if a.data = [] then (if b.data = [] then "." else path.normalize b)
  else if b.data = [] then path.normalize a
  else path.normalize (String.mk (a.data ++ '/' :: b.data))

/-- The string method `s.startsWith(searchString)`. -/
def startsWith (s searchString : String) : Bool :=
  searchString.data.isPrefixOf s.data

/-- The string method `s.endsWith(searchString)`. -/
def endsWith (s searchString : String) : Bool :=
  searchString.data.reverse.isPrefixOf s.data.reverse

/-- The constant `PUBLIC_DIR = path.join(__dirname, 'public')`. -/
def PUBLIC_DIR (dirname : String) : String := path.join dirname "public"

/-- What the request handler does with a request: the answer 403 'Forbidden',
or the call `fs.readFile(filePath, ...)`, whose callback answers 404, 500 or
the content of the file. -/
inductive Served where
  | forbidden
  | readFile (filePath : String)
deriving DecidableEq, Repr

/-- The request handler passed to `http.createServer`, for the request URL
`url`. -/
def requestHandler (dirname url : String) : Served :=
  let filePath :=
    if url = "/" then path.join (PUBLIC_DIR dirname) "index.html"
    else path.join (PUBLIC_DIR dirname) url
  if !startsWith filePath (PUBLIC_DIR dirname) then .forbidden
  else if endsWith filePath "/" then .readFile (path.join filePath "index.html")
  else .readFile filePath

/-- Following the claim: the file `file` lies in the directory tree of `dir`,
that is, the pieces of `dir` are the first pieces of `file`. -/
def insideDirectory (dir file : String) : Bool :=
  ((splitSlash dir.data).filter (fun segment => segment ≠ [])).isPrefixOf
    ((splitSlash file.data).filter (fun segment => segment ≠ []))

/-! ## The marks on the board of a reachable game -/

/-- What the marks of every reachable game object satisfy (see
`balanced_of_reachable`): an unfinished game has no complete triple and an empty
cell, and X has as many marks as O, one more when it is the turn of O; a
finished game has a full board or a complete triple. -/
structure Balanced (g : TicTacToeGame) : Prop where
  no_line : g.state ≠ GAME_STATE.FINISHED →
    ∀ p ∈ winPatterns, ∀ m, m ≠ MARKS.NONE → ¬ lineOf g.board p m
  not_full : g.state ≠ GAME_STATE.FINISHED → ¬ ∀ c ∈ g.board, c ≠ MARKS.NONE
  turn : g.state ≠ GAME_STATE.FINISHED →
    g.board.count MARKS.X = g.board.count MARKS.O + g.currentPlayerIndex
  balance : g.board.count MARKS.X = g.board.count MARKS.O ∨
    g.board.count MARKS.X = g.board.count MARKS.O + 1
  finished : g.state = GAME_STATE.FINISHED →
    (∀ c ∈ g.board, c ≠ MARKS.NONE) ∨
    ∃ p ∈ winPatterns, ∃ m, m ≠ MARKS.NONE ∧ lineOf g.board p m

/-- Following the claim: the cell of the web client for a mark of the server,
0 → `""`, 1 → `"X"`, 2 → `"O"`. -/
def markSymbol (mark : Nat) : String :=
  if mark = MARKS.X then "X" else if mark = MARKS.O then "O" else ""

/-! ## Example games -/

/-- A game in progress between `alice` (X, to move) and `bob` (O), empty board. -/
def exampleGame : TicTacToeGame :=
  { state := GAME_STATE.IN_PROGRESS
    board := [0, 0, 0, 0, 0, 0, 0, 0, 0]
    players := [⟨"alice", "Alice", MARKS.X⟩, ⟨"bob", "Bob", MARKS.O⟩]
    currentPlayerIndex := 0
    result := RESULT.NONE
    winner := none
    winningLine := []
    createdAt := 0
    updatedAt := 0 }

/-- A web client in a match as X against `bob-id`, X to move with two in the top
row, classic mode, with a leaderboard entry for the username `Alice`. -/
def exampleClient : Client :=
  { gameState :=
      { board := ["X", "X", "", "O", "O", "", "", "", ""]
        currentPlayer := "X"
        mySymbol := "X"
        opponent := ⟨"bob-id", "Bob"⟩
        isGameOver := false
        winningLine := []
        myTurn := true
        matchId := some "match-1"
        session := "alice-id"
        winner := none
        gameMode := "classic"
        timers := none
        leaderboard := [⟨"Alice", 0, 0, 0⟩]
        rematchRequested := [] }
    username := "Alice"
    socket := true
    timerInterval := .unset
    sent := []
    restarts := 0 }

/-- The client `exampleClient` after the message that X played cell 3 (1-based),
with which X wins. -/
def wonClient : Client := handleMatchData exampleClient (.moveMade (some 3) "X")

/-- The client `exampleClient` in timed mode on the turn of the opponent, whose
clock has run down to 0, with the timer running. -/
def timedClient : Client :=
  { exampleClient with
    gameState := { exampleClient.gameState with
      currentPlayer := "O"
      myTurn := false
      gameMode := "timed"
      timers := some ⟨30000, [("alice-id", 12000), ("bob-id", 0)]⟩ }
    timerInterval := .running }

/-- A mobile screen in the match `match-1` as X, on the turn of X, with X in
cell 0 and O in cell 4. -/
def exampleScreen : GameScreen :=
  { matchId := "match-1"
    gameState := some
      { board := [some "X", some "", some "", some "", some "O", some "", some "", some "",
          some ""]
        next_turn := "X"
        status := "active" }
    mySymbol := some "X"
    isMyTurn := true
    isLoading := false
    opponentDisconnected := false
    requests := []
    results := [] }

/-- A store in which `alice` is rated 1500 and `bob` 3, with one win of `alice`
recorded; nobody else has a record. -/
def exampleLeaderboards : Leaderboards :=
  fun id owner =>
    if id = "elo" ∧ owner = "alice" then some 1500
    else if id = "elo" ∧ owner = "bob" then some 3
    else if id = "wins" ∧ owner = "alice" then some 1
    else none

/-- The calls of a drawn game short of its last move: two players join, then
X0 O1 X2 O4 X3 O5 X7 O6, leaving `[X,O,X,X,O,O,O,X,_]` with X to move. -/
def drawCalls : List Call :=
  [.addPlayer "alice" "Alice", .addPlayer "bob" "Bob",
   .makeMove 1 "alice" 0, .makeMove 2 "bob" 1, .makeMove 3 "alice" 2, .makeMove 4 "bob" 4,
   .makeMove 5 "alice" 3, .makeMove 6 "bob" 5, .makeMove 7 "alice" 7, .makeMove 8 "bob" 6]

end TicTacToe

namespace TicTacToe

/-! ## What an accepted move does -/

/-- The body of `makeMove`, with the scoring of the move folded into `acceptedOutcome`. -/
theorem makeMove_eq (g : TicTacToeGame) (now : Nat) (playerId : String) (position : Int) :
    makeMove g now playerId position =
      if g.state ≠ GAME_STATE.IN_PROGRESS then .error (.error "Game is not in progress")
      else if position < 0 ∨ position ≥ 9 then .error (.error "Invalid position")
      else if g.board[position.toNat]? ≠ some MARKS.NONE then
        .error (.error "Position already taken")
      else match g.players[g.currentPlayerIndex]? with
        | none => .error .typeError
        | some currentPlayer =>
          if currentPlayer.id ≠ playerId then .error (.error "Not your turn")
          else .ok (acceptedOutcome g now currentPlayer position) := by
  unfold makeMove acceptedOutcome checkWin isBoardFull
  by_cases h1 : g.state ≠ GAME_STATE.IN_PROGRESS
  · rw [if_pos h1, if_pos h1]
  rw [if_neg h1, if_neg h1]
  by_cases h2 : position < 0 ∨ position ≥ 9
  · rw [if_pos h2, if_pos h2]
  rw [if_neg h2, if_neg h2]
  by_cases h3 : g.board[position.toNat]? ≠ some MARKS.NONE
  · rw [if_pos h3, if_pos h3]
  rw [if_neg h3, if_neg h3]
  cases hp : g.players[g.currentPlayerIndex]? with
  | none => rfl
  | some cur =>
    simp only []
    by_cases h4 : cur.id ≠ playerId
    · rw [if_pos h4, if_pos h4]
    rw [if_neg h4, if_neg h4]
    cases hf : List.find? (checkWinTest (g.board.set position.toNat cur.mark) cur.mark position)
        winPatterns with
    | none =>
      simp only [Bool.false_eq_true, if_false]
      by_cases h5 : ((g.board.set position.toNat cur.mark).all fun cell => cell != MARKS.NONE) = true
      · rw [if_pos h5, if_pos h5]
      · rw [if_neg h5, if_neg h5]
    | some pat =>
      simp only [if_true]

/-- A move is accepted exactly when the four guards of `makeMove` pass, and its
outcome is then `acceptedOutcome` for the player to move. -/
theorem makeMove_eq_ok (g : TicTacToeGame) (now : Nat) (playerId : String) (position : Int)
    (out : MoveOutcome) :
    makeMove g now playerId position = .ok out ↔
      g.state = GAME_STATE.IN_PROGRESS ∧ 0 ≤ position ∧ position < 9 ∧
      g.board[position.toNat]? = some MARKS.NONE ∧
      ∃ cur, g.players[g.currentPlayerIndex]? = some cur ∧ cur.id = playerId ∧
        out = acceptedOutcome g now cur position := by
  rw [makeMove_eq]
  split_ifs with h1 h2 h3
  · simp only [reduceCtorEq, false_iff]; intro h; exact h1 h.1
  · simp only [reduceCtorEq, false_iff]; intro h; omega
  · simp only [reduceCtorEq, false_iff]; intro h; exact h3 h.2.2.2.1
  · cases hp : g.players[g.currentPlayerIndex]? with
    | none => simp
    | some cur =>
      simp only []
      split_ifs with h4
      · simp only [reduceCtorEq, false_iff]
        rintro ⟨-, -, -, -, c, hc, hid, -⟩
        simp only [Option.some.injEq] at hc
        subst hc; exact h4 hid
      · simp only [Except.ok.injEq, Option.some.injEq, exists_eq_left']
        push_neg at h1 h2 h3 h4
        constructor
        · intro h; exact ⟨h1, h2.1, h2.2, h3, h4, h.symm⟩
        · intro h; exact h.2.2.2.2.2.symm

/-- Every entry of `winPatterns` is a triple of cell indices below 9. -/
theorem winPatterns_triple (p : List Nat) (hp : p ∈ winPatterns) :
    ∃ a b c, p = [a, b, c] ∧ a < 9 ∧ b < 9 ∧ c < 9 := by
  simp only [winPatterns, List.mem_cons, List.mem_singleton, List.not_mem_nil, or_false] at hp
  rcases hp with rfl | rfl | rfl | rfl | rfl | rfl | rfl | rfl <;> exact ⟨_, _, _, rfl, by decide⟩

/-- The loop condition of `checkWin` on a triple `[a, b, c]`: the position is
one of the three indices and the three cells hold `mark`. -/
theorem checkWinTest_triple (board : List Nat) (mark : Nat) (position : Int) (a b c : Nat) :
    checkWinTest board mark position [a, b, c] = true ↔
      ((a : Int) = position ∨ (b : Int) = position ∨ (c : Int) = position) ∧
      lineOf board [a, b, c] mark := by
  unfold checkWinTest lineOf
  simp only [List.any_cons, List.any_nil, Bool.or_false, List.getElem?_cons_zero,
    List.getElem?_cons_succ, Option.some_bind, Bool.and_eq_true, Bool.or_eq_true, beq_iff_eq,
    List.mem_cons, List.mem_singleton, List.not_mem_nil, or_false, forall_eq_or_imp, forall_eq]
  tauto

/-- Writing cell `k` does not change whether a triple that avoids `k` is complete. -/
theorem lineOf_set_of_not_mem (board : List Nat) (k v : Nat) (p : List Nat) (mark : Nat)
    (hk : k ∉ p) : lineOf (board.set k v) p mark ↔ lineOf board p mark := by
  unfold lineOf
  constructor
  · intro h i hi
    have hne : k ≠ i := fun e => hk (e ▸ hi)
    rw [← h i hi, List.getElem?_set_ne hne]
  · intro h i hi
    have hne : k ≠ i := fun e => hk (e ▸ hi)
    rw [List.getElem?_set_ne hne, h i hi]

/-- When the loop of `checkWin` stops at a pattern, the pattern is one of the 8
triples, it contains the played position and its three cells hold `mark`. -/
theorem checkWin_find_some (board : List Nat) (mark : Nat) (position : Int) (q : List Nat)
    (hpos : 0 ≤ position)
    (hf : winPatterns.find? (checkWinTest board mark position) = some q) :
    q ∈ winPatterns ∧ position.toNat ∈ q ∧ lineOf board q mark := by
  have hq : q ∈ winPatterns := List.mem_of_find?_eq_some hf
  have ht : checkWinTest board mark position q = true := List.find?_some hf
  obtain ⟨a, b, c, rfl, -⟩ := winPatterns_triple q hq
  obtain ⟨hmem, hline⟩ := (checkWinTest_triple board mark position a b c).1 ht
  refine ⟨hq, ?_, hline⟩
  simp only [List.mem_cons, List.mem_singleton, List.not_mem_nil, or_false]
  omega

/-- The loop of `checkWin` finds no pattern exactly when no triple through the
played position holds three `mark`s. -/
theorem checkWin_find_none (board : List Nat) (mark : Nat) (position : Int)
    (hpos : 0 ≤ position) :
    winPatterns.find? (checkWinTest board mark position) = none ↔
      ∀ p ∈ winPatterns, position.toNat ∈ p → ¬ lineOf board p mark := by
  rw [List.find?_eq_none]
  constructor
  · intro h p hp hmem hline
    apply h p hp
    obtain ⟨a, b, c, rfl, -⟩ := winPatterns_triple p hp
    rw [checkWinTest_triple]
    refine ⟨?_, hline⟩
    simp only [List.mem_cons, List.mem_singleton, List.not_mem_nil, or_false] at hmem
    omega
  · intro h p hp ht
    obtain ⟨a, b, c, rfl, -⟩ := winPatterns_triple p hp
    obtain ⟨hmem, hline⟩ := (checkWinTest_triple board mark position a b c).1 ht
    refine h _ hp ?_ hline
    simp only [List.mem_cons, List.mem_singleton, List.not_mem_nil, or_false]
    omega

/-- A triple completed by writing `mark` into cell `k` goes through `k`. -/
theorem mem_of_completes (board : List Nat) (k mark : Nat) (p : List Nat)
    (hafter : lineOf (board.set k mark) p mark) (hbefore : ¬ lineOf board p mark) : k ∈ p := by
  by_contra hk
  exact hbefore ((lineOf_set_of_not_mem board k mark p mark hk).1 hafter)

/-- The game after an accepted move that completes a triple of the mover's mark. -/
theorem acceptedOutcome_of_completes (g : TicTacToeGame) (now : Nat) (cur : Player)
    (position : Int) (hpos : 0 ≤ position)
    (hline : completesLine g.board (g.board.set position.toNat cur.mark) cur.mark) :
    ∃ q ∈ winPatterns, position.toNat ∈ q ∧
      lineOf (g.board.set position.toNat cur.mark) q cur.mark ∧
      (acceptedOutcome g now cur position).game =
        { g with
          board := g.board.set position.toNat cur.mark, updatedAt := now, winningLine := q,
          state := GAME_STATE.FINISHED, result := RESULT.WIN, winner := some cur } := by
  obtain ⟨p, hp, hafter, hbefore⟩ := hline
  have hmem := mem_of_completes g.board position.toNat cur.mark p hafter hbefore
  cases hf : winPatterns.find? (checkWinTest (g.board.set position.toNat cur.mark) cur.mark
      position) with
  | none =>
    exact absurd hafter ((checkWin_find_none _ _ _ hpos).1 hf p hp hmem)
  | some q =>
    obtain ⟨hq, hqmem, hqline⟩ := checkWin_find_some _ _ _ q hpos hf
    refine ⟨q, hq, hqmem, hqline, ?_⟩
    simp only [acceptedOutcome, hf]

/-- The game after an accepted move that completes no triple through the played cell. -/
theorem acceptedOutcome_of_no_line (g : TicTacToeGame) (now : Nat) (cur : Player)
    (position : Int) (hpos : 0 ≤ position)
    (hno : ∀ p ∈ winPatterns, position.toNat ∈ p →
      ¬ lineOf (g.board.set position.toNat cur.mark) p cur.mark) :
    (acceptedOutcome g now cur position).game =
      if (g.board.set position.toNat cur.mark).all (fun cell => cell != MARKS.NONE) then
        { g with
          board := g.board.set position.toNat cur.mark, updatedAt := now,
          state := GAME_STATE.FINISHED, result := RESULT.DRAW }
      else
        { g with
          board := g.board.set position.toNat cur.mark, updatedAt := now,
          currentPlayerIndex := (g.currentPlayerIndex + 1) % 2 } := by
  have hf := (checkWin_find_none _ _ _ hpos).2 hno
  simp only [acceptedOutcome, hf]
  split_ifs <;> rfl

/-- The returned object of an accepted move is the view of the game after it. -/
theorem acceptedOutcome_returned (g : TicTacToeGame) (now : Nat) (cur : Player) (position : Int) :
    (acceptedOutcome g now cur position).returned =
      moveResult (acceptedOutcome g now cur position).game := by
  unfold acceptedOutcome
  simp only []
  split
  · rfl
  · split_ifs <;> rfl

/-- The three ways an accepted move ends: a win, a draw, or the turn passes. -/
theorem acceptedOutcome_cases (g : TicTacToeGame) (now : Nat) (cur : Player) (position : Int)
    (hpos : 0 ≤ position) :
    (∃ q ∈ winPatterns, position.toNat ∈ q ∧
      lineOf (g.board.set position.toNat cur.mark) q cur.mark ∧
      (acceptedOutcome g now cur position).game =
        { g with
          board := g.board.set position.toNat cur.mark, updatedAt := now, winningLine := q,
          state := GAME_STATE.FINISHED, result := RESULT.WIN, winner := some cur }) ∨
    ((∀ p ∈ winPatterns, position.toNat ∈ p →
        ¬ lineOf (g.board.set position.toNat cur.mark) p cur.mark) ∧
      (∀ c ∈ g.board.set position.toNat cur.mark, c ≠ MARKS.NONE) ∧
      (acceptedOutcome g now cur position).game =
        { g with
          board := g.board.set position.toNat cur.mark, updatedAt := now,
          state := GAME_STATE.FINISHED, result := RESULT.DRAW }) ∨
    ((∀ p ∈ winPatterns, position.toNat ∈ p →
        ¬ lineOf (g.board.set position.toNat cur.mark) p cur.mark) ∧
      (¬ ∀ c ∈ g.board.set position.toNat cur.mark, c ≠ MARKS.NONE) ∧
      (acceptedOutcome g now cur position).game =
        { g with
          board := g.board.set position.toNat cur.mark, updatedAt := now,
          currentPlayerIndex := (g.currentPlayerIndex + 1) % 2 }) := by
  cases hf : winPatterns.find? (checkWinTest (g.board.set position.toNat cur.mark) cur.mark
      position) with
  | some q =>
    obtain ⟨hq, hqmem, hqline⟩ := checkWin_find_some _ _ _ q hpos hf
    exact Or.inl ⟨q, hq, hqmem, hqline, by simp only [acceptedOutcome, hf]⟩
  | none =>
    have hno := (checkWin_find_none _ _ _ hpos).1 hf
    have hgame := acceptedOutcome_of_no_line g now cur position hpos hno
    have hall : (g.board.set position.toNat cur.mark).all (fun cell => cell != MARKS.NONE) = true ↔
        ∀ c ∈ g.board.set position.toNat cur.mark, c ≠ MARKS.NONE := by
      simp [List.all_eq_true]
    by_cases hfull : (g.board.set position.toNat cur.mark).all (fun cell => cell != MARKS.NONE)
        = true
    · rw [if_pos hfull] at hgame
      exact Or.inr (Or.inl ⟨hno, hall.1 hfull, hgame⟩)
    · rw [if_neg hfull] at hgame
      exact Or.inr (Or.inr ⟨hno, fun h => hfull (hall.2 h), hgame⟩)

/-! ## Reachable games are well formed -/

/-- A fresh game is well formed. -/
theorem wellFormed_new (now : Nat) : WellFormed (TicTacToeGame.new now) where
  board_length := rfl
  cells := by intro c hc; left; simpa [TicTacToeGame.new] using hc
  mark_zero := by intro p hp; simp [TicTacToeGame.new] at hp
  mark_one := by intro p hp; simp [TicTacToeGame.new] at hp
  index := by simp [TicTacToeGame.new]
  states := Or.inl rfl
  waiting := by intro _; simp [TicTacToeGame.new]
  started := by intro h; exact absurd rfl h
  unfinished := by intro _; exact ⟨rfl, rfl, rfl⟩
  draw := by intro h; simp [TicTacToeGame.new, RESULT.NONE, RESULT.DRAW] at h

/-- In a well-formed game in progress the player to move holds X or O. -/
theorem WellFormed.mark_current {g : TicTacToeGame} (hw : WellFormed g) (cur : Player)
    (hcur : g.players[g.currentPlayerIndex]? = some cur) :
    (g.currentPlayerIndex = 0 ∧ cur.mark = MARKS.X) ∨
    (g.currentPlayerIndex = 1 ∧ cur.mark = MARKS.O) := by
  have hidx := hw.index
  rcases Nat.le_one_iff_eq_zero_or_eq_one.1 hidx with h | h
  · rw [h] at hcur; exact Or.inl ⟨h, hw.mark_zero cur hcur⟩
  · rw [h] at hcur; exact Or.inr ⟨h, hw.mark_one cur hcur⟩

/-- Method `addPlayer` keeps a game well formed. -/
theorem wellFormed_addPlayer (g g1 : TicTacToeGame) (userId username : String) (player : Player)
    (hw : WellFormed g) (hadd : addPlayer g userId username = .ok (g1, player)) :
    WellFormed g1 := by
  unfold addPlayer at hadd
  by_cases hfull : g.players.length ≥ 2
  · rw [if_pos hfull] at hadd; exact absurd hadd (by simp)
  rw [if_neg hfull] at hadd
  simp only [Except.ok.injEq, Prod.mk.injEq] at hadd
  obtain ⟨hg1, -⟩ := hadd
  have hlen : g.players.length < 2 := by omega
  have hwait : g.state = GAME_STATE.WAITING_FOR_PLAYERS := by
    by_contra h; have := hw.started h; omega
  obtain ⟨hres, hwin, hline⟩ := hw.unfinished (by rw [hwait]; decide)
  have hplayers : g1.players = g.players ++ [⟨userId, username,
      if g.players.length = 0 then MARKS.X else MARKS.O⟩] := by
    rw [← hg1]; split_ifs <;> rfl
  have hboard : g1.board = g.board := by rw [← hg1]; split_ifs <;> rfl
  have hindex : g1.currentPlayerIndex = g.currentPlayerIndex := by rw [← hg1]; split_ifs <;> rfl
  have hresult : g1.result = g.result := by rw [← hg1]; split_ifs <;> rfl
  have hwinner : g1.winner = g.winner := by rw [← hg1]; split_ifs <;> rfl
  have hwl : g1.winningLine = g.winningLine := by rw [← hg1]; split_ifs <;> rfl
  have hstate : g1.state =
      if g.players.length + 1 = 2 then GAME_STATE.IN_PROGRESS else g.state := by
    rw [← hg1]; simp only [List.length_append, List.length_singleton]; split_ifs <;> rfl
  refine ⟨?_, ?_, ?_, ?_, ?_, ?_, ?_, ?_, ?_, ?_⟩
  · rw [hboard]; exact hw.board_length
  · rw [hboard]; exact hw.cells
  · intro p hp
    rw [hplayers] at hp
    rcases Nat.eq_zero_or_pos g.players.length with h0 | h0
    · have hnil : g.players = [] := List.length_eq_zero.1 h0
      rw [hnil] at hp
      simp only [List.nil_append, List.length_nil, if_true, List.getElem?_cons_zero,
        Option.some.injEq] at hp
      rw [← hp]
    · rw [List.getElem?_append_left h0] at hp
      exact hw.mark_zero p hp
  · intro p hp
    rw [hplayers] at hp
    rcases Nat.eq_zero_or_pos g.players.length with h0 | h0
    · have hnil : g.players = [] := List.length_eq_zero.1 h0
      rw [hnil] at hp
      simp at hp
    · have h1 : g.players.length = 1 := by omega
      rw [List.getElem?_append_right (by omega)] at hp
      simp only [h1, Nat.sub_self, List.getElem?_cons_zero, Option.some.injEq] at hp
      rw [← hp]
      simp
  · rw [hindex]; exact hw.index
  · rw [hstate]; split_ifs
    · exact Or.inr (Or.inl rfl)
    · exact hw.states
  · intro h
    rw [hstate] at h
    split_ifs at h with h2
    · exact absurd h (by decide)
    · rw [hplayers]; simp only [List.length_append, List.length_singleton]; omega
  · intro h
    rw [hstate] at h
    split_ifs at h with h2
    · rw [hplayers]; simp only [List.length_append, List.length_singleton]; omega
    · exact absurd hwait h
  · intro _
    rw [hresult, hwinner, hwl]; exact ⟨hres, hwin, hline⟩
  · intro h
    rw [hresult, hres] at h
    exact absurd h (by decide)

/-- An accepted move keeps a game well formed. -/
theorem wellFormed_acceptedOutcome (g : TicTacToeGame) (now : Nat) (cur : Player)
    (position : Int) (hw : WellFormed g) (hstate : g.state = GAME_STATE.IN_PROGRESS)
    (hpos : 0 ≤ position) (hcur : g.players[g.currentPlayerIndex]? = some cur) :
    WellFormed (acceptedOutcome g now cur position).game := by
  have hmark : cur.mark = MARKS.X ∨ cur.mark = MARKS.O := by
    rcases hw.mark_current cur hcur with h | h
    · exact Or.inl h.2
    · exact Or.inr h.2
  have hcells : ∀ c ∈ g.board.set position.toNat cur.mark,
      c = MARKS.NONE ∨ c = MARKS.X ∨ c = MARKS.O := by
    intro c hc
    rcases List.mem_or_eq_of_mem_set hc with h | h
    · exact hw.cells c h
    · rw [h]; exact Or.inr hmark
  have hlen : (g.board.set position.toNat cur.mark).length = 9 := by
    rw [List.length_set]; exact hw.board_length
  have hstarted : g.players.length = 2 := hw.started (by rw [hstate]; decide)
  obtain ⟨hres, hwin, hwl⟩ := hw.unfinished (by rw [hstate]; decide)
  have hFW : GAME_STATE.FINISHED ≠ GAME_STATE.WAITING_FOR_PLAYERS := by decide
  have hWD : RESULT.WIN ≠ RESULT.DRAW := by decide
  rcases acceptedOutcome_cases g now cur position hpos with
    ⟨q, -, -, -, hgame⟩ | ⟨-, hfull, hgame⟩ | ⟨-, -, hgame⟩
  · rw [hgame]
    exact ⟨hlen, hcells, hw.mark_zero, hw.mark_one, hw.index, Or.inr (Or.inr rfl),
      fun h => absurd h hFW, fun _ => hstarted, fun h => absurd rfl h,
      fun h => absurd h hWD⟩
  · rw [hgame]
    exact ⟨hlen, hcells, hw.mark_zero, hw.mark_one, hw.index, Or.inr (Or.inr rfl),
      fun h => absurd h hFW, fun _ => hstarted, fun h => absurd rfl h,
      fun _ => hfull⟩
  · rw [hgame]
    refine ⟨hlen, hcells, hw.mark_zero, hw.mark_one, ?_, hw.states, hw.waiting, hw.started,
      fun _ => ⟨hres, hwin, hwl⟩, ?_⟩
    · have := Nat.mod_lt (g.currentPlayerIndex + 1) (by decide : 2 > 0)
      show (g.currentPlayerIndex + 1) % 2 ≤ 1
      omega
    · intro h
      have h2 : g.result = RESULT.DRAW := h
      rw [hres] at h2
      exact absurd h2 (by decide)

/-- Every call keeps a game well formed. -/
theorem wellFormed_apply (g : TicTacToeGame) (c : Call) (hw : WellFormed g) :
    WellFormed (c.apply g) := by
  cases c with
  | addPlayer userId username =>
    simp only [Call.apply]
    cases hadd : addPlayer g userId username with
    | error e => exact hw
    | ok r =>
      obtain ⟨g1, player⟩ := r
      exact wellFormed_addPlayer g g1 userId username player hw hadd
  | makeMove now playerId position =>
    simp only [Call.apply]
    cases hmove : makeMove g now playerId position with
    | error e => exact hw
    | ok out =>
      obtain ⟨hstate, hlo, -, -, cur, hcur, -, rfl⟩ :=
        (makeMove_eq_ok g now playerId position out).1 hmove
      exact wellFormed_acceptedOutcome g now cur position hw hstate hlo hcur

/-- Every sequence of calls keeps a game well formed. -/
theorem wellFormed_runCalls (calls : List Call) (g : TicTacToeGame) (hw : WellFormed g) :
    WellFormed (runCalls g calls) := by
  induction calls generalizing g with
  | nil => exact hw
  | cons c cs ih => exact ih (c.apply g) (wellFormed_apply g c hw)

/-- Every reachable game is well formed. -/
theorem wellFormed_of_reachable (g : TicTacToeGame) (hg : Reachable g) : WellFormed g := by
  obtain ⟨now, calls, rfl⟩ := hg
  exact wellFormed_runCalls calls _ (wellFormed_new now)

/-- Marking an empty cell with X or O raises the number of marks by one. -/
theorem markCount_set (board : List Nat) (k mark : Nat) (hk : board[k]? = some MARKS.NONE)
    (hm : mark ≠ MARKS.NONE) : markCount (board.set k mark) = markCount board + 1 := by
  induction board generalizing k with
  | nil => simp at hk
  | cons x xs ih =>
    cases k with
    | zero =>
      simp only [List.getElem?_cons_zero, Option.some.injEq] at hk
      subst hk
      simp [markCount, List.countP_cons, hm]
    | succ k =>
      simp only [List.getElem?_cons_succ] at hk
      have := ih k hk
      simp only [markCount, List.set_cons_succ, List.countP_cons] at this ⊢
      omega

/-! ## Rejected moves -/

/-- C1: on a game in progress, a move to a position in 0..8 whose cell is not
empty fails with 'Position already taken', whoever the player is, and the game
object is left as it was. -/
theorem makeMove_position_taken (g : TicTacToeGame) (now : Nat) (playerId : String)
    (position : Int) (hstate : g.state = GAME_STATE.IN_PROGRESS)
    (hlo : 0 ≤ position) (hhi : position < 9)
    (hcell : g.board[position.toNat]? ≠ some MARKS.NONE) :
    makeMove g now playerId position = .error (.error "Position already taken") ∧
    (Call.makeMove now playerId position).apply g = g := by
  have h : makeMove g now playerId position = .error (.error "Position already taken") := by
    unfold makeMove
    rw [if_neg (by simp [hstate]), if_neg (by omega), if_pos hcell]
  exact ⟨h, by simp [Call.apply, h]⟩

/-- Witness of C1: `alice` plays the marked cell 4 while it is the turn of `bob`. -/
theorem makeMove_position_taken_witness :
    makeMove { exampleGame with board := [0, 0, 0, 0, 1, 0, 0, 0, 0], currentPlayerIndex := 1 }
      7 "alice" 4 = .error (.error "Position already taken") ∧
    (Call.makeMove 7 "alice" 4).apply
      { exampleGame with board := [0, 0, 0, 0, 1, 0, 0, 0, 0], currentPlayerIndex := 1 } =
      { exampleGame with board := [0, 0, 0, 0, 1, 0, 0, 0, 0], currentPlayerIndex := 1 } :=
  makeMove_position_taken _ 7 "alice" 4 rfl (by decide) (by decide) (by decide)

/-- A rejected `makeMove` leaves the game object as it was. -/
theorem apply_of_error (g : TicTacToeGame) (now : Nat) (playerId : String) (position : Int)
    (e : JsError) (h : makeMove g now playerId position = .error e) :
    (Call.makeMove now playerId position).apply g = g := by
  simp [Call.apply, h]

/-- Counterexample to C2 as stated: it is the turn of `alice` on `exampleGame`,
yet the move of `bob` to position 9 is refused as 'Invalid position', not as
'Not your turn'; and the move of `alice` to a marked cell on the turn of `bob`
is refused as 'Position already taken'. -/
theorem makeMove_not_your_turn_counterexample :
    exampleGame.state = GAME_STATE.IN_PROGRESS ∧
    (exampleGame.players[exampleGame.currentPlayerIndex]?).map (fun p => p.id) = some "alice" ∧
    makeMove exampleGame 7 "bob" 9 = .error (.error "Invalid position") ∧
    makeMove exampleGame 7 "bob" 9 ≠ .error (.error "Not your turn") ∧
    makeMove { exampleGame with board := [1, 0, 0, 0, 0, 0, 0, 0, 0], currentPlayerIndex := 1 }
      7 "alice" 0 = .error (.error "Position already taken") := by
  decide

/-- C2 (amended): on a game in progress, a move to an empty cell in 0..8 by a
player id that is not the id of `players[currentPlayerIndex]` fails with 'Not
your turn'; for every position whatsoever the move of such a player fails, and
the game object is left as it was. -/
theorem makeMove_not_your_turn (g : TicTacToeGame) (now : Nat) (playerId : String)
    (position : Int) (current : Player) (hstate : g.state = GAME_STATE.IN_PROGRESS)
    (hcur : g.players[g.currentPlayerIndex]? = some current)
    (hid : current.id ≠ playerId) :
    (0 ≤ position → position < 9 → g.board[position.toNat]? = some MARKS.NONE →
      makeMove g now playerId position = .error (.error "Not your turn")) ∧
    (∃ e, makeMove g now playerId position = .error e) ∧
    (Call.makeMove now playerId position).apply g = g := by
  have key : ∃ e, makeMove g now playerId position = .error e := by
    unfold makeMove
    rw [if_neg (by simp [hstate])]
    split_ifs with h1 h2
    · exact ⟨_, rfl⟩
    · exact ⟨_, rfl⟩
    · simp only [hcur]; rw [if_pos hid]; exact ⟨_, rfl⟩
  refine ⟨?_, key, ?_⟩
  · intro hlo hhi hcell
    unfold makeMove
    rw [if_neg (by simp [hstate]), if_neg (by omega), if_neg (by simp [hcell])]
    simp only [hcur]; rw [if_pos hid]
  · obtain ⟨e, he⟩ := key
    exact apply_of_error g now playerId position e he

/-- Witness of C2 (amended): `bob` moving to cell 4 on `alice`'s turn. -/
theorem makeMove_not_your_turn_witness :
    makeMove exampleGame 7 "bob" 4 = .error (.error "Not your turn") ∧
    (Call.makeMove 7 "bob" 4).apply exampleGame = exampleGame :=
  ⟨(makeMove_not_your_turn exampleGame 7 "bob" 4 ⟨"alice", "Alice", MARKS.X⟩ rfl rfl
      (by decide)).1 (by decide) (by decide) rfl,
   (makeMove_not_your_turn exampleGame 7 "bob" 4 ⟨"alice", "Alice", MARKS.X⟩ rfl rfl
      (by decide)).2.2⟩

/-- The first guard of `makeMove`. -/
theorem makeMove_state_guard (g : TicTacToeGame) (now : Nat) (playerId : String)
    (position : Int) (hstate : g.state ≠ GAME_STATE.IN_PROGRESS) :
    makeMove g now playerId position = .error (.error "Game is not in progress") := by
  unfold makeMove
  rw [if_pos hstate]

/-- C3: on a game whose state is not `IN_PROGRESS`, every move fails with 'Game
is not in progress' and the game object is left as it was. -/
theorem makeMove_not_in_progress (g : TicTacToeGame) (now : Nat) (playerId : String)
    (position : Int) (hstate : g.state ≠ GAME_STATE.IN_PROGRESS) :
    makeMove g now playerId position = .error (.error "Game is not in progress") ∧
    (Call.makeMove now playerId position).apply g = g := by
  have h : makeMove g now playerId position = .error (.error "Game is not in progress") := by
    unfold makeMove
    rw [if_pos hstate]
  exact ⟨h, apply_of_error g now playerId position _ h⟩

/-- Witness of C3: a move on a fresh game (waiting) and on a finished one. -/
theorem makeMove_not_in_progress_witness :
    (makeMove (TicTacToeGame.new 3) 7 "alice" 4 = .error (.error "Game is not in progress") ∧
      (Call.makeMove 7 "alice" 4).apply (TicTacToeGame.new 3) = TicTacToeGame.new 3) ∧
    (makeMove { exampleGame with state := GAME_STATE.FINISHED } 7 "alice" 4
        = .error (.error "Game is not in progress") ∧
      (Call.makeMove 7 "alice" 4).apply { exampleGame with state := GAME_STATE.FINISHED }
        = { exampleGame with state := GAME_STATE.FINISHED }) :=
  ⟨makeMove_not_in_progress (TicTacToeGame.new 3) 7 "alice" 4 (by decide),
   makeMove_not_in_progress { exampleGame with state := GAME_STATE.FINISHED } 7 "alice" 4
     (by decide)⟩

/-- C4: on a game in progress, a move to a position outside [0,9) fails with
'Invalid position' and the game object is left as it was; and on no game is a
position in 0..8 answered with 'Invalid position'. -/
theorem makeMove_invalid_position (g : TicTacToeGame) (now : Nat) (playerId : String)
    (position : Int) :
    (g.state = GAME_STATE.IN_PROGRESS → (position < 0 ∨ 9 ≤ position) →
      makeMove g now playerId position = .error (.error "Invalid position") ∧
      (Call.makeMove now playerId position).apply g = g) ∧
    (0 ≤ position → position < 9 →
      makeMove g now playerId position ≠ .error (.error "Invalid position")) := by
  constructor
  · intro hstate hpos
    have h : makeMove g now playerId position = .error (.error "Invalid position") := by
      unfold makeMove
      rw [if_neg (by simp [hstate]), if_pos (by omega)]
    exact ⟨h, apply_of_error g now playerId position _ h⟩
  · intro hlo hhi
    rw [makeMove_eq, if_neg (by omega : ¬ (position < 0 ∨ position ≥ 9))]
    split_ifs with h1 h3
    · simp
    · simp
    · split
      · simp
      · split_ifs <;> simp

/-- Witness of C4: positions 9 and -1 are invalid on `exampleGame`, position 8 is not. -/
theorem makeMove_invalid_position_witness :
    (makeMove exampleGame 7 "alice" 9 = .error (.error "Invalid position") ∧
      (Call.makeMove 7 "alice" 9).apply exampleGame = exampleGame) ∧
    (makeMove exampleGame 7 "bob" (-1) = .error (.error "Invalid position") ∧
      (Call.makeMove 7 "bob" (-1)).apply exampleGame = exampleGame) ∧
    makeMove exampleGame 7 "alice" 8 ≠ .error (.error "Invalid position") :=
  ⟨(makeMove_invalid_position exampleGame 7 "alice" 9).1 rfl (Or.inr (by decide)),
   (makeMove_invalid_position exampleGame 7 "bob" (-1)).1 rfl (Or.inl (by decide)),
   (makeMove_invalid_position exampleGame 7 "alice" 8).2 (by decide) (by decide)⟩

/-! ## The local evaluator `checkWinner` -/

/-- The loop condition of `checkWinner` on a triple `[a, b, c]` says that the
three cells hold one non-empty string. -/
theorem checkWinnerTest_triple (board : List String) (a b c : Nat) :
    checkWinnerTest board [a, b, c] = true ↔ cellsWin board [a, b, c] := by
  unfold checkWinnerTest cellsWin
  simp only [List.getElem?_cons_zero, List.getElem?_cons_succ, Option.some_bind,
    Bool.and_eq_true, beq_iff_eq, List.mem_cons, List.mem_singleton, List.not_mem_nil, or_false,
    forall_eq_or_imp, forall_eq]
  constructor
  · rintro ⟨⟨h1, h2⟩, h3⟩
    cases ha : board[a]? with
    | none => rw [ha] at h1; simp [truthy] at h1
    | some m =>
      rw [ha] at h1 h2 h3
      refine ⟨m, ?_, rfl, h2.symm, h3.symm⟩
      simpa [truthy] using h1
  · rintro ⟨m, hm, ha, hb, hc⟩
    rw [ha, hb, hc]
    simp [truthy, hm]

/-- On the entries of `winPatterns`, the loop condition of `checkWinner` is `cellsWin`. -/
theorem checkWinnerTest_iff (board : List String) (p : List Nat) (hp : p ∈ winPatterns) :
    checkWinnerTest board p = true ↔ cellsWin board p := by
  obtain ⟨a, b, c, rfl, -⟩ := winPatterns_triple p hp
  exact checkWinnerTest_triple board a b c

/-- When the loop of `checkWinner` stops at a pattern, the returned cell content
is the non-empty string the three cells of that pattern hold. -/
theorem checkWinner_of_find (board : List String) (p : List Nat)
    (hf : winPatterns.find? (checkWinnerTest board) = some p) :
    p ∈ winPatterns ∧ ∃ m, m ≠ "" ∧ checkWinner board = some m ∧ ∀ i ∈ p, board[i]? = some m := by
  have hp : p ∈ winPatterns := List.mem_of_find?_eq_some hf
  have ht : checkWinnerTest board p = true := List.find?_some hf
  obtain ⟨a, b, c, rfl, -⟩ := winPatterns_triple p hp
  obtain ⟨m, hm, hall⟩ := (checkWinnerTest_triple board a b c).1 ht
  refine ⟨hp, m, hm, ?_, hall⟩
  have ha : board[a]? = some m := hall a (by simp)
  simp [checkWinner, hf, ha]

/-- The loop of `checkWinner` finds no pattern exactly when no triple wins. -/
theorem checkWinner_find_none (board : List String) :
    winPatterns.find? (checkWinnerTest board) = none ↔ ¬ ∃ p ∈ winPatterns, cellsWin board p := by
  rw [List.find?_eq_none]
  constructor
  · rintro h ⟨p, hp, hw⟩
    exact h p hp ((checkWinnerTest_iff board p hp).2 hw)
  · intro h p hp ht
    exact h ⟨p, hp, (checkWinnerTest_iff board p hp).1 ht⟩

/-- C5: on a board over the strings "", "X", "O" (in particular a 9-cell one),
`checkWinner` returns X or O exactly when one of the 8 triples holds three equal
non-empty marks, the returned mark being the mark of such a triple; it returns
'draw' exactly when no triple wins and no cell is empty, and `null` exactly when
no triple wins and some cell is empty. The two boards of the specification
evaluate to X and to 'draw'. -/
theorem checkWinner_spec (board : List String)
    (hcells : ∀ c ∈ board, c = "" ∨ c = "X" ∨ c = "O") :
    ((∃ m, (m = "X" ∨ m = "O") ∧ checkWinner board = some m) ↔
      ∃ p ∈ winPatterns, cellsWin board p) ∧
    (∀ m, (m = "X" ∨ m = "O") → checkWinner board = some m →
      ∃ p ∈ winPatterns, ∀ i ∈ p, board[i]? = some m) ∧
    (checkWinner board = some "draw" ↔
      (¬ ∃ p ∈ winPatterns, cellsWin board p) ∧ ∀ c ∈ board, c ≠ "") ∧
    (checkWinner board = none ↔
      (¬ ∃ p ∈ winPatterns, cellsWin board p) ∧ ¬ ∀ c ∈ board, c ≠ "") ∧
    checkWinner ["X", "X", "X", "", "", "", "", "", ""] = some "X" ∧
    checkWinner ["X", "O", "X", "O", "X", "O", "O", "X", "O"] = some "draw" := by
  have hmark : ∀ (p : List Nat) (m : String), p ∈ winPatterns → m ≠ "" →
      (∀ i ∈ p, board[i]? = some m) → m = "X" ∨ m = "O" := by
    intro p m hp hm hall
    obtain ⟨a, b, c, rfl, -⟩ := winPatterns_triple p hp
    have ha : board[a]? = some m := hall a (by simp)
    have hmem : m ∈ board := List.getElem?_mem ha
    rcases hcells m hmem with h | h | h
    · exact absurd h hm
    · exact Or.inl h
    · exact Or.inr h
  cases hf : winPatterns.find? (checkWinnerTest board) with
  | some p =>
    obtain ⟨hp, m, hm, hres, hall⟩ := checkWinner_of_find board p hf
    have hwin : ∃ p ∈ winPatterns, cellsWin board p := ⟨p, hp, m, hm, hall⟩
    have hxo := hmark p m hp hm hall
    refine ⟨⟨fun _ => hwin, fun _ => ⟨m, hxo, hres⟩⟩, ?_, ?_, ?_, by decide, by decide⟩
    · intro m1 _ h1
      rw [hres] at h1
      simp only [Option.some.injEq] at h1
      subst h1
      exact ⟨p, hp, hall⟩
    · constructor
      · intro h
        rw [hres] at h
        simp only [Option.some.injEq] at h
        subst h
        rcases hxo with h | h <;> exact absurd h (by decide)
      · intro h; exact absurd hwin h.1
    · constructor
      · intro h; rw [hres] at h; exact absurd h (by simp)
      · intro h; exact absurd hwin h.1
  | none =>
    have hno := (checkWinner_find_none board).1 hf
    have hres : checkWinner board =
        if board.all (fun cell => cell != "") then some "draw" else none := by
      simp only [checkWinner, hf]
    have hall : board.all (fun cell => cell != "") = true ↔ ∀ c ∈ board, c ≠ "" := by
      simp [List.all_eq_true]
    refine ⟨⟨?_, fun h => absurd h hno⟩, ?_, ?_, ?_, by decide, by decide⟩
    · rintro ⟨m, hm, h⟩
      rw [hres] at h
      split_ifs at h
      simp only [Option.some.injEq] at h
      subst h
      rcases hm with h | h <;> exact absurd h (by decide)
    · intro m hm h
      rw [hres] at h
      split_ifs at h
      simp only [Option.some.injEq] at h
      subst h
      rcases hm with h | h <;> exact absurd h (by decide)
    · rw [hres]
      constructor
      · intro h
        split_ifs at h with hfull
        exact ⟨hno, hall.1 hfull⟩
      · intro h
        rw [if_pos (hall.2 h.2)]
    · rw [hres]
      constructor
      · intro h
        split_ifs at h with hfull
        exact ⟨hno, fun hc => hfull (hall.2 hc)⟩
      · intro h
        rw [if_neg (fun hc => h.2 (hall.1 hc))]

/-- Witness of C5: the full board of the specification has no winning triple
and no empty cell, hence evaluates to 'draw'. -/
theorem checkWinner_spec_witness :
    checkWinner ["X", "O", "X", "O", "X", "O", "O", "X", "O"] = some "draw" ↔
      (¬ ∃ p ∈ winPatterns, cellsWin ["X", "O", "X", "O", "X", "O", "O", "X", "O"] p) ∧
      ∀ c ∈ ["X", "O", "X", "O", "X", "O", "O", "X", "O"], c ≠ "" :=
  (checkWinner_spec ["X", "O", "X", "O", "X", "O", "O", "X", "O"] (by decide)).2.2.1

/-- A board over "", "X", "O" with a winning triple evaluates to X or O. -/
theorem checkWinner_of_win (board : List String)
    (hcells : ∀ c ∈ board, c = "" ∨ c = "X" ∨ c = "O")
    (hwin : ∃ p ∈ winPatterns, cellsWin board p) :
    ∃ m, (m = "X" ∨ m = "O") ∧ checkWinner board = some m := by
  cases hf : winPatterns.find? (checkWinnerTest board) with
  | none => exact absurd hwin ((checkWinner_find_none board).1 hf)
  | some p =>
    obtain ⟨hp, m, hm, hres, hall⟩ := checkWinner_of_find board p hf
    obtain ⟨a, b, c, rfl, -⟩ := winPatterns_triple p hp
    have hmem : m ∈ board := List.getElem?_mem (hall a (by simp))
    rcases hcells m hmem with h | h | h
    · exact absurd h hm
    · exact ⟨m, Or.inl h, hres⟩
    · exact ⟨m, Or.inr h, hres⟩

/-! ## Winning moves -/

/-- The board after an accepted move: the played cell holds the mover's mark. -/
theorem acceptedOutcome_board (g : TicTacToeGame) (now : Nat) (cur : Player) (position : Int) :
    (acceptedOutcome g now cur position).game.board = g.board.set position.toNat cur.mark := by
  unfold acceptedOutcome
  simp only []
  split
  · rfl
  · split_ifs <;> rfl

/-- C7: an accepted move that completes a triple of the mover's mark leaves the
game FINISHED with result WIN, the mover (`players[currentPlayerIndex]` before
the move) as winner, and a `winningLine` that is one of the 8 triples, contains
the played position and holds the mover's mark in its three cells. -/
theorem makeMove_win (g : TicTacToeGame) (now : Nat) (playerId : String) (position : Int)
    (out : MoveOutcome) (mover : Player)
    (hok : makeMove g now playerId position = .ok out)
    (hmover : g.players[g.currentPlayerIndex]? = some mover)
    (hline : completesLine g.board out.game.board mover.mark) :
    out.game.state = GAME_STATE.FINISHED ∧ out.game.result = RESULT.WIN ∧
    out.game.winner = some mover ∧ out.game.winningLine ∈ winPatterns ∧
    (∃ i ∈ out.game.winningLine, (i : Int) = position) ∧
    lineOf out.game.board out.game.winningLine mover.mark := by
  obtain ⟨-, hlo, -, -, cur, hcur, -, rfl⟩ := (makeMove_eq_ok g now playerId position out).1 hok
  rw [hmover] at hcur
  simp only [Option.some.injEq] at hcur
  subst hcur
  rw [acceptedOutcome_board] at hline
  obtain ⟨q, hq, hmem, hqline, hgame⟩ :=
    acceptedOutcome_of_completes g now mover position hlo hline
  rw [hgame]
  exact ⟨rfl, rfl, rfl, hq, ⟨position.toNat, hmem, Int.toNat_of_nonneg hlo⟩, hqline⟩

/-- Witness of C7: `alice` (X) completes the top row of `[X,X,_,O,O,_,_,_,_]`. -/
theorem makeMove_win_witness :
    (acceptedOutcome { exampleGame with board := [1, 1, 0, 2, 2, 0, 0, 0, 0] } 7
      ⟨"alice", "Alice", MARKS.X⟩ 2).game.state = GAME_STATE.FINISHED ∧
    (acceptedOutcome { exampleGame with board := [1, 1, 0, 2, 2, 0, 0, 0, 0] } 7
      ⟨"alice", "Alice", MARKS.X⟩ 2).game.winner = some ⟨"alice", "Alice", MARKS.X⟩ ∧
    (acceptedOutcome { exampleGame with board := [1, 1, 0, 2, 2, 0, 0, 0, 0] } 7
      ⟨"alice", "Alice", MARKS.X⟩ 2).game.winningLine ∈ winPatterns :=
  have h := makeMove_win { exampleGame with board := [1, 1, 0, 2, 2, 0, 0, 0, 0] } 7 "alice" 2
    (acceptedOutcome { exampleGame with board := [1, 1, 0, 2, 2, 0, 0, 0, 0] } 7
      ⟨"alice", "Alice", MARKS.X⟩ 2) ⟨"alice", "Alice", MARKS.X⟩ (by decide) (by decide) (by decide)
  ⟨h.1, h.2.2.1, h.2.2.2.1⟩

/-- C6: a win is scored before a draw. An accepted move that completes a triple
of the mover's mark and leaves no cell empty gives result WIN with the mover as
winner, not DRAW; and on a board over "", "X", "O" without empty cell that has a
complete triple, `checkWinner` returns X or O, not 'draw'. -/
theorem win_before_draw (g : TicTacToeGame) (now : Nat) (playerId : String) (position : Int)
    (out : MoveOutcome) (mover : Player) (board : List String) :
    (makeMove g now playerId position = .ok out →
      g.players[g.currentPlayerIndex]? = some mover →
      completesLine g.board out.game.board mover.mark →
      (∀ c ∈ out.game.board, c ≠ MARKS.NONE) →
      out.game.result = RESULT.WIN ∧ out.game.winner = some mover ∧
      out.game.result ≠ RESULT.DRAW) ∧
    ((∀ c ∈ board, c = "" ∨ c = "X" ∨ c = "O") → (∀ c ∈ board, c ≠ "") →
      (∃ p ∈ winPatterns, cellsWin board p) →
      (∃ m, (m = "X" ∨ m = "O") ∧ checkWinner board = some m) ∧
      checkWinner board ≠ some "draw") := by
  constructor
  · intro hok hmover hline _
    obtain ⟨-, hlo, -, -, cur, hcur, -, rfl⟩ := (makeMove_eq_ok g now playerId position out).1 hok
    rw [hmover] at hcur
    simp only [Option.some.injEq] at hcur
    subst hcur
    rw [acceptedOutcome_board] at hline
    obtain ⟨q, -, -, -, hgame⟩ := acceptedOutcome_of_completes g now mover position hlo hline
    rw [hgame]
    exact ⟨rfl, rfl, by simp [RESULT.WIN, RESULT.DRAW]⟩
  · intro hcells _ hwin
    obtain ⟨m, hm, hres⟩ := checkWinner_of_win board hcells hwin
    refine ⟨⟨m, hm, hres⟩, ?_⟩
    rw [hres]
    rcases hm with h | h <;> simp [h]

/-- Witness of C6: `alice` (X) fills the last cell of `[X,O,X,O,X,O,O,X,_]` and
completes the diagonal 0-4-8; the client evaluates the same full board. -/
theorem win_before_draw_witness :
    ((acceptedOutcome { exampleGame with board := [1, 2, 1, 2, 1, 2, 2, 1, 0] } 7
        ⟨"alice", "Alice", MARKS.X⟩ 8).game.result = RESULT.WIN ∧
      (acceptedOutcome { exampleGame with board := [1, 2, 1, 2, 1, 2, 2, 1, 0] } 7
        ⟨"alice", "Alice", MARKS.X⟩ 8).game.winner = some ⟨"alice", "Alice", MARKS.X⟩ ∧
      (acceptedOutcome { exampleGame with board := [1, 2, 1, 2, 1, 2, 2, 1, 0] } 7
        ⟨"alice", "Alice", MARKS.X⟩ 8).game.result ≠ RESULT.DRAW) ∧
    ((∃ m, (m = "X" ∨ m = "O") ∧
        checkWinner ["X", "O", "X", "O", "X", "O", "O", "X", "X"] = some m) ∧
      checkWinner ["X", "O", "X", "O", "X", "O", "O", "X", "X"] ≠ some "draw") :=
  ⟨(win_before_draw { exampleGame with board := [1, 2, 1, 2, 1, 2, 2, 1, 0] } 7 "alice" 8
      (acceptedOutcome { exampleGame with board := [1, 2, 1, 2, 1, 2, 2, 1, 0] } 7
        ⟨"alice", "Alice", MARKS.X⟩ 8) ⟨"alice", "Alice", MARKS.X⟩ []).1
      (by decide) (by decide) (by decide) (by decide),
   (win_before_draw exampleGame 0 "" 0 (acceptedOutcome exampleGame 0 ⟨"", "", 0⟩ 0) ⟨"", "", 0⟩
      ["X", "O", "X", "O", "X", "O", "O", "X", "X"]).2
      (by decide) (by decide) ⟨[0, 4, 8], by decide, "X", by decide, by decide⟩⟩

/-! ## Draws -/

/-- An accepted move writes the mover's mark into an empty cell, so no triple
through that cell held three such marks before. -/
theorem not_lineOf_before (board : List Nat) (k mark : Nat) (p : List Nat)
    (hk : board[k]? = some MARKS.NONE) (hm : mark ≠ MARKS.NONE) (hmem : k ∈ p) :
    ¬ lineOf board p mark := by
  intro h
  have := h k hmem
  rw [hk] at this
  simp only [Option.some.injEq] at this
  exact hm this.symm

/-- C8: on a reachable game, an accepted move after which no cell is empty and
which completes no triple (of X or of O) leaves the game FINISHED with result
DRAW, winner still `null` and `winningLine` still empty; and result DRAW, in the
game object as in the object `makeMove` returns, is never found with an empty
cell on the board. -/
theorem makeMove_draw (g : TicTacToeGame) (hg : Reachable g) :
    (g.result = RESULT.DRAW → ∀ c ∈ g.board, c ≠ MARKS.NONE) ∧
    (∀ (now : Nat) (playerId : String) (position : Int) (out : MoveOutcome),
      makeMove g now playerId position = .ok out →
      ((∀ c ∈ out.game.board, c ≠ MARKS.NONE) →
        ¬ completesLine g.board out.game.board MARKS.X →
        ¬ completesLine g.board out.game.board MARKS.O →
        out.game.state = GAME_STATE.FINISHED ∧ out.game.result = RESULT.DRAW ∧
        out.game.winner = none ∧ out.game.winningLine = []) ∧
      (out.returned.result = RESULT.DRAW → ∀ c ∈ out.returned.board, c ≠ MARKS.NONE)) := by
  have hw := wellFormed_of_reachable g hg
  refine ⟨hw.draw, ?_⟩
  intro now playerId position out hok
  obtain ⟨hstate, hlo, -, hempty, cur, hcur, -, rfl⟩ :=
    (makeMove_eq_ok g now playerId position out).1 hok
  have hw1 := wellFormed_acceptedOutcome g now cur position hw hstate hlo hcur
  obtain ⟨-, hwin, hwl⟩ := hw.unfinished (by rw [hstate]; decide)
  constructor
  · intro hfull hnoX hnoO
    rw [acceptedOutcome_board] at hfull hnoX hnoO
    have hmark : cur.mark ≠ MARKS.NONE ∧
        ¬ completesLine g.board (g.board.set position.toNat cur.mark) cur.mark := by
      rcases hw.mark_current cur hcur with h | h
      · rw [h.2] at hnoX ⊢; exact ⟨by decide, hnoX⟩
      · rw [h.2] at hnoO ⊢; exact ⟨by decide, hnoO⟩
    rcases acceptedOutcome_cases g now cur position hlo with
      ⟨q, hq, hmem, hline, -⟩ | ⟨-, -, hgame⟩ | ⟨-, hnotfull, -⟩
    · exact absurd ⟨q, hq, hline, not_lineOf_before g.board _ _ q hempty hmark.1 hmem⟩ hmark.2
    · rw [hgame]; exact ⟨rfl, rfl, hwin, hwl⟩
    · exact absurd hfull hnotfull
  · rw [acceptedOutcome_returned]
    exact hw1.draw

/-- Witness of C8: after `drawCalls`, X at cell 8 fills the board without a line. -/
theorem makeMove_draw_witness :
    (acceptedOutcome (runCalls (TicTacToeGame.new 0) drawCalls) 9
      ⟨"alice", "Alice", MARKS.X⟩ 8).game.state = GAME_STATE.FINISHED ∧
    (acceptedOutcome (runCalls (TicTacToeGame.new 0) drawCalls) 9
      ⟨"alice", "Alice", MARKS.X⟩ 8).game.result = RESULT.DRAW ∧
    (acceptedOutcome (runCalls (TicTacToeGame.new 0) drawCalls) 9
      ⟨"alice", "Alice", MARKS.X⟩ 8).game.winner = none ∧
    (acceptedOutcome (runCalls (TicTacToeGame.new 0) drawCalls) 9
      ⟨"alice", "Alice", MARKS.X⟩ 8).game.winningLine = [] :=
  ((makeMove_draw (runCalls (TicTacToeGame.new 0) drawCalls) ⟨0, drawCalls, rfl⟩).2 9 "alice" 8
    (acceptedOutcome (runCalls (TicTacToeGame.new 0) drawCalls) 9 ⟨"alice", "Alice", MARKS.X⟩ 8)
    (by decide)).1 (by decide) (by decide) (by decide)

/-! ## Turn order -/

/-- C9: on a reachable game the turn index is 0 or 1; an accepted move that is
neither a win nor a draw changes it from `i` to `1 - i`; a rejected move leaves
it as it was; and of two moves accepted one after the other, the second is made
from the other slot of `players`, by a different player object, and, when the
two players have different ids, with a different player id. -/
theorem turn_alternates (g : TicTacToeGame) (hg : Reachable g) :
    g.currentPlayerIndex ≤ 1 ∧
    (∀ (now : Nat) (playerId : String) (position : Int) (out : MoveOutcome),
      makeMove g now playerId position = .ok out →
      out.game.result ≠ RESULT.WIN → out.game.result ≠ RESULT.DRAW →
      out.game.currentPlayerIndex = 1 - g.currentPlayerIndex) ∧
    (∀ (now : Nat) (playerId : String) (position : Int) (e : JsError),
      makeMove g now playerId position = .error e →
      ((Call.makeMove now playerId position).apply g).currentPlayerIndex =
        g.currentPlayerIndex) ∧
    (∀ (now : Nat) (playerId : String) (position : Int) (out : MoveOutcome)
      (now2 : Nat) (playerId2 : String) (position2 : Int) (out2 : MoveOutcome),
      makeMove g now playerId position = .ok out →
      makeMove out.game now2 playerId2 position2 = .ok out2 →
      out.game.currentPlayerIndex = 1 - g.currentPlayerIndex ∧
      out.game.players[out.game.currentPlayerIndex]? ≠ g.players[g.currentPlayerIndex]? ∧
      ((∀ p q, g.players[0]? = some p → g.players[1]? = some q → p.id ≠ q.id) →
        playerId2 ≠ playerId)) := by
  have hw := wellFormed_of_reachable g hg
  have hFP : GAME_STATE.FINISHED ≠ GAME_STATE.IN_PROGRESS := by decide
  refine ⟨hw.index, ?_, ?_, ?_⟩
  · intro now playerId position out hok hnw hnd
    obtain ⟨-, hlo, -, -, cur, -, -, rfl⟩ := (makeMove_eq_ok g now playerId position out).1 hok
    rcases acceptedOutcome_cases g now cur position hlo with
      ⟨q, -, -, -, hgame⟩ | ⟨-, -, hgame⟩ | ⟨-, -, hgame⟩
    · rw [hgame] at hnw; exact absurd rfl hnw
    · rw [hgame] at hnd; exact absurd rfl hnd
    · rw [hgame]
      have := hw.index
      show (g.currentPlayerIndex + 1) % 2 = 1 - g.currentPlayerIndex
      omega
  · intro now playerId position e herr
    rw [apply_of_error g now playerId position e herr]
  · intro now playerId position out now2 playerId2 position2 out2 hok hok2
    obtain ⟨-, hlo, -, -, cur, hcur, hid, rfl⟩ :=
      (makeMove_eq_ok g now playerId position out).1 hok
    obtain ⟨hstate2, -, -, -, cur2, hcur2, hid2, -⟩ :=
      (makeMove_eq_ok _ now2 playerId2 position2 out2).1 hok2
    rcases acceptedOutcome_cases g now cur position hlo with
      ⟨q, -, -, -, hgame⟩ | ⟨-, -, hgame⟩ | ⟨-, -, hgame⟩
    · rw [hgame] at hstate2; exact absurd hstate2 hFP
    · rw [hgame] at hstate2; exact absurd hstate2 hFP
    · have hplayers : (acceptedOutcome g now cur position).game.players = g.players := by
        rw [hgame]
      have hindex : (acceptedOutcome g now cur position).game.currentPlayerIndex =
          (g.currentPlayerIndex + 1) % 2 := by rw [hgame]
      rw [hplayers, hindex] at hcur2
      rw [hplayers, hindex]
      have hXO : MARKS.X ≠ MARKS.O := by decide
      rcases hw.mark_current cur hcur with ⟨h0, hm⟩ | ⟨h1, hm⟩
      · rw [h0] at hcur hcur2 ⊢
        have hm2 : cur2.mark = MARKS.O := hw.mark_one cur2 hcur2
        have hne : cur2 ≠ cur := by
          intro h; rw [h, hm] at hm2; exact hXO hm2
        refine ⟨rfl, ?_, ?_⟩
        · rw [hcur, hcur2]; simpa using hne
        · intro hdistinct h
          apply hdistinct cur cur2 hcur hcur2
          rw [hid, hid2, h]
      · rw [h1] at hcur hcur2 ⊢
        have hm2 : cur2.mark = MARKS.X := hw.mark_zero cur2 hcur2
        have hne : cur2 ≠ cur := by
          intro h; rw [h, hm] at hm2; exact hXO hm2.symm
        refine ⟨rfl, ?_, ?_⟩
        · rw [hcur, hcur2]; simpa using hne
        · intro hdistinct h
          apply hdistinct cur2 cur hcur2 hcur
          rw [hid, hid2, h]

/-- Witness of C9: on `exampleGame` (reachable by two `addPlayer` calls) the
move of `alice` to cell 4 passes the turn from index 0 to index 1. -/
theorem turn_alternates_witness :
    (acceptedOutcome exampleGame 7 ⟨"alice", "Alice", MARKS.X⟩ 4).game.currentPlayerIndex =
      1 - exampleGame.currentPlayerIndex :=
  (turn_alternates exampleGame
    ⟨0, [.addPlayer "alice" "Alice", .addPlayer "bob" "Bob"], by decide⟩).2.1 7 "alice" 4
    (acceptedOutcome exampleGame 7 ⟨"alice", "Alice", MARKS.X⟩ 4)
    (by decide) (by decide) (by decide)

/-! ## Marks on the board and accepted moves -/

/-- Method `addPlayer` does not touch the board. -/
theorem addPlayer_board (g g1 : TicTacToeGame) (userId username : String) (player : Player)
    (hadd : addPlayer g userId username = .ok (g1, player)) : g1.board = g.board := by
  unfold addPlayer at hadd
  by_cases hfull : g.players.length ≥ 2
  · rw [if_pos hfull] at hadd; exact absurd hadd (by simp)
  rw [if_neg hfull] at hadd
  simp only [Except.ok.injEq, Prod.mk.injEq] at hadd
  rw [← hadd.1]; split_ifs <;> rfl

/-- One call on a well-formed game adds one mark if it is an accepted move, none otherwise. -/
theorem markCount_apply (g : TicTacToeGame) (c : Call) (hw : WellFormed g) :
    markCount (c.apply g).board = markCount g.board + (if c.acceptedMove g then 1 else 0) := by
  cases c with
  | addPlayer userId username =>
    cases hadd : addPlayer g userId username with
    | error e => simp [Call.apply, Call.acceptedMove, hadd]
    | ok r =>
      obtain ⟨g1, player⟩ := r
      simp [Call.apply, Call.acceptedMove, hadd, addPlayer_board g g1 userId username player hadd]
  | makeMove now playerId position =>
    cases hmove : makeMove g now playerId position with
    | error e => simp [Call.apply, Call.acceptedMove, hmove]
    | ok out =>
      obtain ⟨-, -, -, hempty, cur, hcur, -, rfl⟩ :=
        (makeMove_eq_ok g now playerId position out).1 hmove
      have hmark : cur.mark ≠ MARKS.NONE := by
        rcases hw.mark_current cur hcur with h | h <;> rw [h.2] <;> decide
      simp only [Call.apply, Call.acceptedMove, hmove, acceptedOutcome_board, if_true]
      exact markCount_set g.board position.toNat cur.mark hempty hmark

/-- Along a sequence of calls on a well-formed game, the marks added are the accepted moves. -/
theorem markCount_runCalls (calls : List Call) (g : TicTacToeGame) (hw : WellFormed g) :
    markCount (runCalls g calls).board = markCount g.board + acceptedMoves g calls := by
  induction calls generalizing g with
  | nil => rfl
  | cons c cs ih =>
    have h1 := ih (c.apply g) (wellFormed_apply g c hw)
    have h2 := markCount_apply g c hw
    have h3 : runCalls g (c :: cs) = runCalls (c.apply g) cs := rfl
    rw [h3, h1, h2]
    simp only [acceptedMoves]
    omega

/-- C10: after any sequence of `addPlayer` and `makeMove` calls on a fresh game,
the number of non-empty cells equals the number of accepted `makeMove` calls,
the board has 9 cells each holding NONE, X or O, and a further accepted move
writes a cell that was empty and changes no other cell. -/
theorem marks_eq_accepted_moves (start : Nat) (calls : List Call) :
    markCount (runCalls (TicTacToeGame.new start) calls).board =
      acceptedMoves (TicTacToeGame.new start) calls ∧
    (runCalls (TicTacToeGame.new start) calls).board.length = 9 ∧
    (∀ c ∈ (runCalls (TicTacToeGame.new start) calls).board,
      c = MARKS.NONE ∨ c = MARKS.X ∨ c = MARKS.O) ∧
    (∀ (now : Nat) (playerId : String) (position : Int) (out : MoveOutcome),
      makeMove (runCalls (TicTacToeGame.new start) calls) now playerId position = .ok out →
      (runCalls (TicTacToeGame.new start) calls).board[position.toNat]? = some MARKS.NONE ∧
      ∀ i, i ≠ position.toNat →
        out.game.board[i]? = (runCalls (TicTacToeGame.new start) calls).board[i]?) := by
  have hw := wellFormed_runCalls calls _ (wellFormed_new start)
  refine ⟨?_, hw.board_length, hw.cells, ?_⟩
  · rw [markCount_runCalls calls _ (wellFormed_new start)]
    have : markCount (TicTacToeGame.new start).board = 0 := by
      simp [markCount, TicTacToeGame.new]
    omega
  · intro now playerId position out hok
    obtain ⟨-, -, -, hempty, cur, -, -, rfl⟩ := (makeMove_eq_ok _ now playerId position out).1 hok
    refine ⟨hempty, ?_⟩
    intro i hi
    rw [acceptedOutcome_board, List.getElem?_set_ne (Ne.symm hi)]

/-- Witness of C10: the 8 accepted moves of `drawCalls` leave 8 marks, and the
ninth move, to the empty cell 8, leaves cell 0 as it was. -/
theorem marks_eq_accepted_moves_witness :
    markCount (runCalls (TicTacToeGame.new 0) drawCalls).board = 8 ∧
    acceptedMoves (TicTacToeGame.new 0) drawCalls = 8 ∧
    (acceptedOutcome (runCalls (TicTacToeGame.new 0) drawCalls) 9
      ⟨"alice", "Alice", MARKS.X⟩ 8).game.board[0]? =
      (runCalls (TicTacToeGame.new 0) drawCalls).board[0]? :=
  ⟨(marks_eq_accepted_moves 0 drawCalls).1.trans (by decide), by decide,
   ((marks_eq_accepted_moves 0 drawCalls).2.2.2 9 "alice" 8
      (acceptedOutcome (runCalls (TicTacToeGame.new 0) drawCalls) 9
        ⟨"alice", "Alice", MARKS.X⟩ 8) (by decide)).2 0 (by decide)⟩

/-! ## Joining and the state machine -/

/-- What a successful `addPlayer` returns: the new player object, and the game
with that player appended, in progress once there are two players. -/
theorem addPlayer_eq_ok (g g1 : TicTacToeGame) (userId username : String) (player : Player) :
    addPlayer g userId username = .ok (g1, player) ↔
      g.players.length < 2 ∧
      player = ⟨userId, username, if g.players.length = 0 then MARKS.X else MARKS.O⟩ ∧
      g1 = { g with
        players := g.players ++ [player],
        state := if g.players.length + 1 = 2 then GAME_STATE.IN_PROGRESS else g.state } := by
  unfold addPlayer
  by_cases hfull : g.players.length ≥ 2
  · rw [if_pos hfull]
    constructor
    · intro h; exact absurd h (by simp)
    · intro h; omega
  · rw [if_neg hfull]
    simp only [Except.ok.injEq, Prod.mk.injEq, List.length_append, List.length_singleton]
    constructor
    · rintro ⟨h1, h2⟩
      subst h2
      refine ⟨by omega, rfl, ?_⟩
      rw [← h1]
      split_ifs <;> rfl
    · rintro ⟨-, h2, h3⟩
      subst h2
      refine ⟨?_, rfl⟩
      rw [h3]
      split_ifs <;> rfl

/-- Method `addPlayer` throws exactly when two players have joined. -/
theorem addPlayer_full (g : TicTacToeGame) (userId username : String)
    (hfull : 2 ≤ g.players.length) :
    addPlayer g userId username = .error (.error "Game is full") ∧
    (Call.addPlayer userId username).apply g = g := by
  have h : addPlayer g userId username = .error (.error "Game is full") := by
    unfold addPlayer; rw [if_pos hfull]
  exact ⟨h, by simp [Call.apply, h]⟩

/-- One call never lowers the state of a well-formed game. -/
theorem state_le_apply (g : TicTacToeGame) (c : Call) (hw : WellFormed g) :
    g.state ≤ (c.apply g).state := by
  cases c with
  | addPlayer userId username =>
    cases hadd : addPlayer g userId username with
    | error e => simp [Call.apply, hadd]
    | ok r =>
      obtain ⟨g1, player⟩ := r
      obtain ⟨hlen, -, hg1⟩ := (addPlayer_eq_ok g g1 userId username player).1 hadd
      have hwait : g.state = GAME_STATE.WAITING_FOR_PLAYERS := by
        by_contra h; have := hw.started h; omega
      simp only [Call.apply, hadd, hg1, hwait]
      exact Nat.zero_le _
  | makeMove now playerId position =>
    cases hmove : makeMove g now playerId position with
    | error e => simp [Call.apply, hmove]
    | ok out =>
      obtain ⟨hstate, hlo, -, -, cur, -, -, rfl⟩ :=
        (makeMove_eq_ok g now playerId position out).1 hmove
      have hPF : GAME_STATE.IN_PROGRESS ≤ GAME_STATE.FINISHED := by decide
      simp only [Call.apply, hmove, hstate]
      rcases acceptedOutcome_cases g now cur position hlo with
        ⟨q, -, -, -, hgame⟩ | ⟨-, -, hgame⟩ | ⟨-, -, hgame⟩
      · rw [hgame]; exact hPF
      · rw [hgame]; exact hPF
      · rw [hgame]; exact Nat.le_of_eq hstate.symm

/-- A sequence of calls never lowers the state of a well-formed game. -/
theorem state_le_runCalls (calls : List Call) (g : TicTacToeGame) (hw : WellFormed g) :
    g.state ≤ (runCalls g calls).state := by
  induction calls generalizing g with
  | nil => exact Nat.le_refl _
  | cons c cs ih =>
    exact Nat.le_trans (state_le_apply g c hw) (ih (c.apply g) (wellFormed_apply g c hw))

/-- C11: the state of a reachable game is WAITING_FOR_PLAYERS (0), IN_PROGRESS
(1) or FINISHED (2), and no call, accepted or rejected, and no sequence of calls
lowers it: a game in progress is never waiting again and a finished game stays
finished. -/
theorem state_monotone (g : TicTacToeGame) (hg : Reachable g) :
    (g.state = GAME_STATE.WAITING_FOR_PLAYERS ∨ g.state = GAME_STATE.IN_PROGRESS ∨
      g.state = GAME_STATE.FINISHED) ∧
    (∀ c : Call, g.state ≤ (c.apply g).state ∧
      (g.state = GAME_STATE.IN_PROGRESS → (c.apply g).state ≠ GAME_STATE.WAITING_FOR_PLAYERS) ∧
      (g.state = GAME_STATE.FINISHED → (c.apply g).state = GAME_STATE.FINISHED)) ∧
    (∀ calls : List Call, g.state ≤ (runCalls g calls).state ∧
      (g.state = GAME_STATE.IN_PROGRESS →
        (runCalls g calls).state ≠ GAME_STATE.WAITING_FOR_PLAYERS) ∧
      (g.state = GAME_STATE.FINISHED → (runCalls g calls).state = GAME_STATE.FINISHED)) := by
  have hw := wellFormed_of_reachable g hg
  have key : ∀ g1 : TicTacToeGame, WellFormed g1 → g.state ≤ g1.state →
      g.state ≤ g1.state ∧
      (g.state = GAME_STATE.IN_PROGRESS → g1.state ≠ GAME_STATE.WAITING_FOR_PLAYERS) ∧
      (g.state = GAME_STATE.FINISHED → g1.state = GAME_STATE.FINISHED) := by
    intro g1 hw1 hle
    refine ⟨hle, ?_, ?_⟩
    · intro h1 h0
      rw [h1, h0] at hle
      exact absurd hle (by decide)
    · intro h2
      rw [h2] at hle
      rcases hw1.states with h | h | h
      · rw [h] at hle; exact absurd hle (by decide)
      · rw [h] at hle; exact absurd hle (by decide)
      · exact h
  exact ⟨hw.states, fun c => key _ (wellFormed_apply g c hw) (state_le_apply g c hw),
    fun calls => key _ (wellFormed_runCalls calls g hw) (state_le_runCalls calls g hw)⟩

/-- Witness of C11: after the draw of `drawCalls` and its ninth move the game is
finished, and a late `addPlayer` leaves it finished. -/
theorem state_monotone_witness :
    ((Call.addPlayer "carol" "Carol").apply
      (runCalls (TicTacToeGame.new 0) (drawCalls ++ [.makeMove 9 "alice" 8]))).state =
      GAME_STATE.FINISHED :=
  ((state_monotone (runCalls (TicTacToeGame.new 0) (drawCalls ++ [.makeMove 9 "alice" 8]))
    ⟨0, drawCalls ++ [.makeMove 9 "alice" 8], rfl⟩).2.1 (.addPlayer "carol" "Carol")).2.2
    (by decide)

/-- As long as no move has been accepted, the turn index is the initial one. -/
theorem index_of_no_accepted (calls : List Call) (g : TicTacToeGame)
    (hnone : acceptedMoves g calls = 0) :
    (runCalls g calls).currentPlayerIndex = g.currentPlayerIndex := by
  induction calls generalizing g with
  | nil => rfl
  | cons c cs ih =>
    simp only [acceptedMoves] at hnone
    have hrest : acceptedMoves (c.apply g) cs = 0 := by omega
    have hc : c.acceptedMove g = false := by
      cases h : c.acceptedMove g with
      | false => rfl
      | true => rw [h] at hnone; simp at hnone
    have hstep : (c.apply g).currentPlayerIndex = g.currentPlayerIndex := by
      cases c with
      | addPlayer userId username =>
        cases hadd : addPlayer g userId username with
        | error e => simp [Call.apply, hadd]
        | ok r =>
          obtain ⟨g1, player⟩ := r
          obtain ⟨-, -, hg1⟩ := (addPlayer_eq_ok g g1 userId username player).1 hadd
          simp [Call.apply, hadd, hg1]
      | makeMove now playerId position =>
        cases hmove : makeMove g now playerId position with
        | error e => simp [Call.apply, hmove]
        | ok out => simp [Call.acceptedMove, hmove] at hc
    have h3 : runCalls g (c :: cs) = runCalls (c.apply g) cs := rfl
    rw [h3, ih (c.apply g) hrest, hstep]

/-- C12: on a fresh game the first `addPlayer` returns a player with mark X and
leaves the game waiting, the second returns a player with mark O and puts the
game in progress, and a third fails with 'Game is full' and changes nothing.
After any sequence of calls there are at most 2 players, X in slot 0 and O in
slot 1, the game is past WAITING_FOR_PLAYERS exactly when both slots are filled,
and a move accepted before any other is made by the X player of slot 0. -/
theorem addPlayer_fresh (start : Nat) (u1 n1 u2 n2 u3 n3 : String) (calls : List Call) :
    (∃ g1 g2 : TicTacToeGame,
      addPlayer (TicTacToeGame.new start) u1 n1 = .ok (g1, ⟨u1, n1, MARKS.X⟩) ∧
      g1.players = [⟨u1, n1, MARKS.X⟩] ∧ g1.state = GAME_STATE.WAITING_FOR_PLAYERS ∧
      addPlayer g1 u2 n2 = .ok (g2, ⟨u2, n2, MARKS.O⟩) ∧
      g2.players = [⟨u1, n1, MARKS.X⟩, ⟨u2, n2, MARKS.O⟩] ∧
      g2.state = GAME_STATE.IN_PROGRESS ∧
      addPlayer g2 u3 n3 = .error (.error "Game is full") ∧
      (Call.addPlayer u3 n3).apply g2 = g2) ∧
    (runCalls (TicTacToeGame.new start) calls).players.length ≤ 2 ∧
    (∀ p, (runCalls (TicTacToeGame.new start) calls).players[0]? = some p → p.mark = MARKS.X) ∧
    (∀ p, (runCalls (TicTacToeGame.new start) calls).players[1]? = some p → p.mark = MARKS.O) ∧
    ((runCalls (TicTacToeGame.new start) calls).state ≠ GAME_STATE.WAITING_FOR_PLAYERS ↔
      (runCalls (TicTacToeGame.new start) calls).players.length = 2) ∧
    (acceptedMoves (TicTacToeGame.new start) calls = 0 →
      ∀ (now : Nat) (playerId : String) (position : Int) (out : MoveOutcome),
        makeMove (runCalls (TicTacToeGame.new start) calls) now playerId position = .ok out →
        ∃ p, (runCalls (TicTacToeGame.new start) calls).players[0]? = some p ∧
          p.mark = MARKS.X ∧ p.id = playerId ∧
          out.game.board[position.toNat]? = some MARKS.X) := by
  have hw := wellFormed_runCalls calls _ (wellFormed_new start)
  refine ⟨?_, ?_, hw.mark_zero, hw.mark_one, ⟨hw.started, ?_⟩, ?_⟩
  · refine ⟨_, _, (addPlayer_eq_ok _ _ u1 n1 _).2 ⟨Nat.zero_lt_two, rfl, rfl⟩, rfl, rfl,
      (addPlayer_eq_ok _ _ u2 n2 _).2 ⟨Nat.one_lt_two, rfl, rfl⟩, rfl, rfl, ?_⟩
    exact addPlayer_full _ u3 n3 (Nat.le_refl 2)
  · by_cases h : (runCalls (TicTacToeGame.new start) calls).state =
        GAME_STATE.WAITING_FOR_PLAYERS
    · exact Nat.le_of_lt (hw.waiting h)
    · exact Nat.le_of_eq (hw.started h)
  · intro hlen hwait
    have := hw.waiting hwait
    omega
  · intro hnone now playerId position out hok
    obtain ⟨-, -, -, hempty, cur, hcur, hid, rfl⟩ :=
      (makeMove_eq_ok _ now playerId position out).1 hok
    have hidx : (runCalls (TicTacToeGame.new start) calls).currentPlayerIndex = 0 :=
      index_of_no_accepted calls _ hnone
    rw [hidx] at hcur
    have hmark := hw.mark_zero cur hcur
    refine ⟨cur, hcur, hmark, hid, ?_⟩
    rw [acceptedOutcome_board, ← hmark]
    have hlt : position.toNat < (runCalls (TicTacToeGame.new start) calls).board.length := by
      by_contra hge
      rw [List.getElem?_eq_none (Nat.le_of_not_lt hge)] at hempty
      exact absurd hempty (by simp)
    rw [List.getElem?_set_self hlt]

/-- Witness of C12: `alice` and `bob` join a fresh game; the first accepted move
is by `alice`, who holds X. -/
theorem addPlayer_fresh_witness :
    ∃ p, (runCalls (TicTacToeGame.new 0)
        [.addPlayer "alice" "Alice", .makeMove 1 "alice" 0, .addPlayer "bob" "Bob",
         .makeMove 2 "bob" 4]).players[0]? = some p ∧
      p.mark = MARKS.X ∧ p.id = "alice" ∧
      (acceptedOutcome (runCalls (TicTacToeGame.new 0)
        [.addPlayer "alice" "Alice", .makeMove 1 "alice" 0, .addPlayer "bob" "Bob",
         .makeMove 2 "bob" 4]) 3 ⟨"alice", "Alice", MARKS.X⟩ 4).game.board[(4 : Int).toNat]? =
        some MARKS.X :=
  (addPlayer_fresh 0 "alice" "Alice" "bob" "Bob" "carol" "Carol"
    [.addPlayer "alice" "Alice", .makeMove 1 "alice" 0, .addPlayer "bob" "Bob",
     .makeMove 2 "bob" 4]).2.2.2.2.2 (by decide) 3 "alice" 4
    (acceptedOutcome (runCalls (TicTacToeGame.new 0)
      [.addPlayer "alice" "Alice", .makeMove 1 "alice" 0, .addPlayer "bob" "Bob",
       .makeMove 2 "bob" 4]) 3 ⟨"alice", "Alice", MARKS.X⟩ 4) (by decide)

/-! ## Ratings -/

/-- The rating read by `getPlayerScore`: the 'elo' record, or 1000 without one. -/
theorem getPlayerScore_eq (nk : Leaderboards) (userId : String) :
    getPlayerScore nk userId = (nk "elo" userId).getD 1000 := by
  unfold getPlayerScore leaderboardRecordsList
  cases nk "elo" userId <;> rfl

/-- A write is read back at the record written. -/
theorem write_same (nk : Leaderboards) (id owner operator : String) (score : Int) :
    leaderboardRecordWrite nk id owner operator score id owner =
      some (if operator = "set" then score else (nk id owner).getD 0 + score) := by
  simp [leaderboardRecordWrite]

/-- A write leaves the other leaderboards as they were. -/
theorem write_other_id (nk : Leaderboards) (id owner operator : String) (score : Int)
    (i o : String) (h : i ≠ id) : leaderboardRecordWrite nk id owner operator score i o = nk i o := by
  simp [leaderboardRecordWrite, h]

/-- A write leaves the records of other owners as they were. -/
theorem write_other_owner (nk : Leaderboards) (id owner operator : String) (score : Int)
    (i o : String) (h : o ≠ owner) :
    leaderboardRecordWrite nk id owner operator score i o = nk i o := by
  simp [leaderboardRecordWrite, h]

/-- The two writes `updateLeaderboard` makes for one user: a counter is
incremented and the rating is set. The rating of every other user is kept. -/
theorem rating_step (nk : Leaderboards) (counter owner : String) (f : Int → Int)
    (hc : counter ≠ "elo") :
    (leaderboardRecordWrite (leaderboardRecordWrite nk counter owner "increment" 1) "elo" owner
      "set" (f (getPlayerScore (leaderboardRecordWrite nk counter owner "increment" 1) owner)))
      "elo" owner = some (f (getPlayerScore nk owner)) ∧
    (leaderboardRecordWrite (leaderboardRecordWrite nk counter owner "increment" 1) "elo" owner
      "set" (f (getPlayerScore (leaderboardRecordWrite nk counter owner "increment" 1) owner)))
      counter owner = some ((nk counter owner).getD 0 + 1) ∧
    ∀ i u, u ≠ owner →
      (leaderboardRecordWrite (leaderboardRecordWrite nk counter owner "increment" 1) "elo" owner
        "set" (f (getPlayerScore (leaderboardRecordWrite nk counter owner "increment" 1) owner)))
        i u = nk i u := by
  have hread : getPlayerScore (leaderboardRecordWrite nk counter owner "increment" 1) owner =
      getPlayerScore nk owner := by
    rw [getPlayerScore_eq, getPlayerScore_eq, write_other_id _ _ _ _ _ _ _ (Ne.symm hc)]
  refine ⟨?_, ?_, ?_⟩
  · rw [write_same, hread]; simp
  · rw [write_other_id _ _ _ _ _ _ _ hc, write_same]
    simp
  · intro i u hu
    rw [write_other_owner _ _ _ _ _ _ _ hu, write_other_owner _ _ _ _ _ _ _ hu]

/-- The store after `updateLeaderboard` for a win with truthy winner and loser ids. -/
theorem updateLeaderboard_win (g : TicTacToeGame) (nk : Leaderboards) (w l : String)
    (hw : w ≠ "") (hl : l ≠ "") :
    updateLeaderboard g nk (some w) (some l) false =
      leaderboardRecordWrite
        (leaderboardRecordWrite
          (leaderboardRecordWrite (leaderboardRecordWrite nk "wins" w "increment" 1) "elo" w "set"
            (getPlayerScore (leaderboardRecordWrite nk "wins" w "increment" 1) w + 10))
          "losses" l "increment" 1)
        "elo" l "set"
        (max 0 (getPlayerScore
          (leaderboardRecordWrite
            (leaderboardRecordWrite (leaderboardRecordWrite nk "wins" w "increment" 1) "elo" w "set"
              (getPlayerScore (leaderboardRecordWrite nk "wins" w "increment" 1) w + 10))
            "losses" l "increment" 1) l - 5)) := by
  simp [updateLeaderboard, hw, hl]

/-- The store after `updateLeaderboard` for a draw of a game with two players. -/
theorem updateLeaderboard_draw (g : TicTacToeGame) (nk : Leaderboards) (p q : Player)
    (hp : g.players = [p, q]) :
    updateLeaderboard g nk none none true =
      leaderboardRecordWrite
        (leaderboardRecordWrite
          (leaderboardRecordWrite (leaderboardRecordWrite nk "draws" p.id "increment" 1) "elo" p.id
            "set" (getPlayerScore (leaderboardRecordWrite nk "draws" p.id "increment" 1) p.id + 2))
          "draws" q.id "increment" 1)
        "elo" q.id "set"
        (getPlayerScore
          (leaderboardRecordWrite
            (leaderboardRecordWrite (leaderboardRecordWrite nk "draws" p.id "increment" 1) "elo"
              p.id "set"
              (getPlayerScore (leaderboardRecordWrite nk "draws" p.id "increment" 1) p.id + 2))
            "draws" q.id "increment" 1) q.id + 2) := by
  simp [updateLeaderboard, hp]

/-- The two writes for one user keep all ratings non-negative when the new
rating is computed by a function that keeps non-negative numbers non-negative. -/
theorem rating_step_nonneg (nk : Leaderboards) (counter owner : String) (f : Int → Int)
    (hc : counter ≠ "elo") (hf : ∀ x, 0 ≤ x → 0 ≤ f x) (h : ∀ u, 0 ≤ getPlayerScore nk u) :
    ∀ u, 0 ≤ getPlayerScore
      (leaderboardRecordWrite (leaderboardRecordWrite nk counter owner "increment" 1) "elo" owner
        "set" (f (getPlayerScore (leaderboardRecordWrite nk counter owner "increment" 1) owner)))
      u := by
  obtain ⟨hown, -, hother⟩ := rating_step nk counter owner f hc
  intro u
  by_cases hu : u = owner
  · rw [hu, getPlayerScore_eq, hown]
    exact hf _ (h owner)
  · rw [getPlayerScore_eq, hother "elo" u hu, ← getPlayerScore_eq]
    exact h u

/-- Method `updateLeaderboard` keeps all ratings non-negative, whatever its arguments. -/
theorem updateLeaderboard_nonneg (g : TicTacToeGame) (nk : Leaderboards)
    (winnerId loserId : Option String) (isDraw : Bool) (h : ∀ u, 0 ≤ getPlayerScore nk u) :
    ∀ u, 0 ≤ getPlayerScore (updateLeaderboard g nk winnerId loserId isDraw) u := by
  have h1 : ∀ u, 0 ≤ getPlayerScore
      (match winnerId with
        | some w =>
          if w ≠ "" ∧ isDraw = false then
            leaderboardRecordWrite (leaderboardRecordWrite nk "wins" w "increment" 1) "elo" w "set"
              (getPlayerScore (leaderboardRecordWrite nk "wins" w "increment" 1) w + 10)
          else nk
        | none => nk) u := by
    cases winnerId with
    | none => exact h
    | some w =>
      simp only []
      split_ifs
      · exact rating_step_nonneg nk "wins" w (fun x => x + 10) (by decide)
          (fun x hx => by show 0 ≤ x + 10; omega) h
      · exact h
  have h2 : ∀ nk1 : Leaderboards, (∀ u, 0 ≤ getPlayerScore nk1 u) → ∀ u, 0 ≤ getPlayerScore
      (match loserId with
        | some l =>
          if l ≠ "" ∧ isDraw = false then
            leaderboardRecordWrite (leaderboardRecordWrite nk1 "losses" l "increment" 1) "elo" l
              "set"
              (max 0 (getPlayerScore (leaderboardRecordWrite nk1 "losses" l "increment" 1) l - 5))
          else nk1
        | none => nk1) u := by
    intro nk1 hnk1
    cases loserId with
    | none => exact hnk1
    | some l =>
      simp only []
      split_ifs
      · exact rating_step_nonneg nk1 "losses" l (fun x => max 0 (x - 5)) (by decide)
          (fun x _ => le_max_left 0 _) hnk1
      · exact hnk1
  have h3 : ∀ (players : List Player) (nk2 : Leaderboards), (∀ u, 0 ≤ getPlayerScore nk2 u) →
      ∀ u, 0 ≤ getPlayerScore
        (players.foldl (fun acc player =>
          leaderboardRecordWrite (leaderboardRecordWrite acc "draws" player.id "increment" 1) "elo"
            player.id "set"
            (getPlayerScore (leaderboardRecordWrite acc "draws" player.id "increment" 1) player.id
              + 2)) nk2) u := by
    intro players
    induction players with
    | nil => intro nk2 hnk2; exact hnk2
    | cons p ps ih =>
      intro nk2 hnk2
      rw [List.foldl_cons]
      exact ih _ (rating_step_nonneg nk2 "draws" p.id (fun x => x + 2) (by decide)
        (fun x hx => by show 0 ≤ x + 2; omega) hnk2)
  unfold updateLeaderboard
  simp only []
  split_ifs
  · exact h3 _ _ (h2 _ h1)
  · exact h2 _ h1

/-- The rating read by `getPlayerScore` is the rating of the store. -/
theorem getPlayerScore_rating (nk : Leaderboards) (userId : String) :
    getPlayerScore nk userId = rating nk userId := by
  unfold getPlayerScore leaderboardRecordsList rating
  cases nk "elo" userId <;> rfl

/-- The store after `updateLeaderboard` for a win with a truthy winner id and
no loser id. -/
theorem updateLeaderboard_winner_only (g : TicTacToeGame) (nk : Leaderboards) (w : String)
    (hw : w ≠ "") :
    updateLeaderboard g nk (some w) none false =
      leaderboardRecordWrite (leaderboardRecordWrite nk "wins" w "increment" 1) "elo" w "set"
        (getPlayerScore (leaderboardRecordWrite nk "wins" w "increment" 1) w + 10) := by
  simp [updateLeaderboard, hw]

/-- C13: with the leaderboard read as a map from user id to rating (`rating`:
the stored score, 1000 for a user without a record), `getPlayerScore` reads
that rating; `updateLeaderboard` for a win sets the rating of the winner to
old + 10 and that of the loser to max(0, old - 5), and for a draw of a game of
two players sets the rating of each to old + 2, old being the rating stored
before the call; every other user keeps their records; and if no rating was
negative before, none is afterwards, whatever the arguments. The deltas are
those of two different users; the theorem also states the outcome when one id
is both winner and loser (both deltas, in order) or holds both slots of a
drawn game (+2 twice), when there is no loser id, and when a drawn game does
not have two players (no change). -/
theorem updateLeaderboard_deltas (g : TicTacToeGame) (nk : Leaderboards) :
    (∀ u, getPlayerScore nk u = rating nk u) ∧
    (∀ u, nk "elo" u = none → getPlayerScore nk u = 1000) ∧
    (∀ u r, nk "elo" u = some r → getPlayerScore nk u = r) ∧
    (∀ w l : String, w ≠ "" → l ≠ "" →
      (w ≠ l →
        updateLeaderboard g nk (some w) (some l) false "elo" w = some (rating nk w + 10) ∧
        updateLeaderboard g nk (some w) (some l) false "elo" l =
          some (max 0 (rating nk l - 5))) ∧
      (w = l →
        updateLeaderboard g nk (some w) (some l) false "elo" w =
          some (max 0 (rating nk w + 10 - 5))) ∧
      ∀ i u, u ≠ w → u ≠ l → updateLeaderboard g nk (some w) (some l) false i u = nk i u) ∧
    (∀ w : String, w ≠ "" →
      updateLeaderboard g nk (some w) none false "elo" w = some (rating nk w + 10) ∧
      ∀ i u, u ≠ w → updateLeaderboard g nk (some w) none false i u = nk i u) ∧
    (∀ p q : Player, g.players = [p, q] →
      (p.id ≠ q.id →
        updateLeaderboard g nk none none true "elo" p.id = some (rating nk p.id + 2) ∧
        updateLeaderboard g nk none none true "elo" q.id = some (rating nk q.id + 2)) ∧
      (p.id = q.id →
        updateLeaderboard g nk none none true "elo" p.id = some (rating nk p.id + 2 + 2)) ∧
      ∀ i u, u ≠ p.id → u ≠ q.id → updateLeaderboard g nk none none true i u = nk i u) ∧
    (g.players.length ≠ 2 → updateLeaderboard g nk none none true = nk) ∧
    ((∀ u, 0 ≤ rating nk u) → ∀ (winnerId loserId : Option String) (isDraw : Bool) u,
      0 ≤ rating (updateLeaderboard g nk winnerId loserId isDraw) u) := by
  refine ⟨getPlayerScore_rating nk, ?_, ?_, ?_, ?_, ?_, ?_, ?_⟩
  · intro u hu
    rw [getPlayerScore_eq, hu]; rfl
  · intro u r hu
    rw [getPlayerScore_eq, hu]; rfl
  · intro w l hw hl
    rw [updateLeaderboard_win g nk w l hw hl]
    obtain ⟨hw1, -, hw3⟩ := rating_step nk "wins" w (fun x => x + 10) (by decide)
    obtain ⟨hl1, -, hl3⟩ := rating_step
      (leaderboardRecordWrite (leaderboardRecordWrite nk "wins" w "increment" 1) "elo" w "set"
        (getPlayerScore (leaderboardRecordWrite nk "wins" w "increment" 1) w + 10))
      "losses" l (fun x => max 0 (x - 5)) (by decide)
    refine ⟨?_, ?_, ?_⟩
    · intro hwl
      refine ⟨?_, ?_⟩
      · rw [hl3 "elo" w hwl, ← getPlayerScore_rating]; exact hw1
      · rw [hl1, getPlayerScore_eq, hw3 "elo" l (Ne.symm hwl), ← getPlayerScore_eq,
          getPlayerScore_rating]
    · intro hwl
      subst hwl
      rw [hl1, getPlayerScore_eq, hw1, getPlayerScore_rating]
      rfl
    · intro i u huw hul
      rw [hl3 i u hul]; exact hw3 i u huw
  · intro w hw
    rw [updateLeaderboard_winner_only g nk w hw]
    obtain ⟨hw1, -, hw3⟩ := rating_step nk "wins" w (fun x => x + 10) (by decide)
    refine ⟨?_, ?_⟩
    · rw [← getPlayerScore_rating]; exact hw1
    · intro i u hu
      exact hw3 i u hu
  · intro p q hp
    rw [updateLeaderboard_draw g nk p q hp]
    obtain ⟨hp1, -, hp3⟩ := rating_step nk "draws" p.id (fun x => x + 2) (by decide)
    obtain ⟨hq1, -, hq3⟩ := rating_step
      (leaderboardRecordWrite (leaderboardRecordWrite nk "draws" p.id "increment" 1) "elo" p.id
        "set" (getPlayerScore (leaderboardRecordWrite nk "draws" p.id "increment" 1) p.id + 2))
      "draws" q.id (fun x => x + 2) (by decide)
    refine ⟨?_, ?_, ?_⟩
    · intro hpq
      refine ⟨?_, ?_⟩
      · rw [hq3 "elo" p.id hpq, ← getPlayerScore_rating]; exact hp1
      · rw [hq1, getPlayerScore_eq, hp3 "elo" q.id (Ne.symm hpq), ← getPlayerScore_eq,
          getPlayerScore_rating]
    · intro hpq
      rw [← hpq] at hq1
      rw [← hpq, hq1, getPlayerScore_eq, hp1, getPlayerScore_rating]
      rfl
    · intro i u hup huq
      rw [hq3 i u huq]; exact hp3 i u hup
  · intro hlen
    simp [updateLeaderboard, hlen]
  · intro h winnerId loserId isDraw u
    rw [← getPlayerScore_rating]
    exact updateLeaderboard_nonneg g nk winnerId loserId isDraw
      (fun v => by rw [getPlayerScore_rating]; exact h v) u

/-- Witness of C13: on `exampleLeaderboards`, where `alice` is rated 1500 and
`bob` 3, a win of `alice` over `bob` sets `alice` to 1510 and `bob` to 0, and a
draw of `exampleGame` sets them to 1502 and 5. -/
theorem updateLeaderboard_deltas_witness :
    (updateLeaderboard exampleGame exampleLeaderboards (some "alice") (some "bob") false "elo"
        "alice" = some (1500 + 10) ∧
      updateLeaderboard exampleGame exampleLeaderboards (some "alice") (some "bob") false "elo"
        "bob" = some (max 0 (3 - 5))) ∧
    (updateLeaderboard exampleGame exampleLeaderboards none none true "elo" "alice" =
        some (1500 + 2) ∧
      updateLeaderboard exampleGame exampleLeaderboards none none true "elo" "bob" =
        some (3 + 2)) ∧
    0 ≤ rating
      (updateLeaderboard exampleGame exampleLeaderboards (some "alice") (some "bob") false)
      "bob" :=
  ⟨((updateLeaderboard_deltas exampleGame exampleLeaderboards).2.2.2.1 "alice" "bob"
      (by decide) (by decide)).1 (by decide),
   ((updateLeaderboard_deltas exampleGame exampleLeaderboards).2.2.2.2.2.1
      ⟨"alice", "Alice", MARKS.X⟩ ⟨"bob", "Bob", MARKS.O⟩ rfl).1 (by decide),
   (updateLeaderboard_deltas exampleGame exampleLeaderboards).2.2.2.2.2.2.2
      (fun u => by unfold rating exampleLeaderboards; split_ifs <;> decide)
      (some "alice") (some "bob") false "bob"⟩

/-- The four records a win touches, after `updateLeaderboard`. -/
theorem updateLeaderboard_win_records (g : TicTacToeGame) (nk : Leaderboards) (w l : String)
    (hw : w ≠ "") (hl : l ≠ "") (hwl : w ≠ l) :
    updateLeaderboard g nk (some w) (some l) false "elo" w = some (getPlayerScore nk w + 10) ∧
    updateLeaderboard g nk (some w) (some l) false "wins" w = some ((nk "wins" w).getD 0 + 1) ∧
    updateLeaderboard g nk (some w) (some l) false "elo" l =
      some (max 0 (getPlayerScore nk l - 5)) ∧
    updateLeaderboard g nk (some w) (some l) false "losses" l =
      some ((nk "losses" l).getD 0 + 1) := by
  rw [updateLeaderboard_win g nk w l hw hl]
  obtain ⟨hw1, hw2, hw3⟩ := rating_step nk "wins" w (fun x => x + 10) (by decide)
  obtain ⟨hl1, hl2, hl3⟩ := rating_step
    (leaderboardRecordWrite (leaderboardRecordWrite nk "wins" w "increment" 1) "elo" w "set"
      (getPlayerScore (leaderboardRecordWrite nk "wins" w "increment" 1) w + 10))
    "losses" l (fun x => max 0 (x - 5)) (by decide)
  refine ⟨?_, ?_, ?_, ?_⟩
  · rw [hl3 "elo" w hwl]; exact hw1
  · rw [hl3 "wins" w hwl]; exact hw2
  · rw [hl1, getPlayerScore_eq, hw3 "elo" l (Ne.symm hwl), ← getPlayerScore_eq]
  · rw [hl2, hw3 "losses" l (Ne.symm hwl)]

/-- Counterexample to C14 as stated: on an empty store, the win of `alice` over
`bob` recorded once gives ratings 1010 and 995 and one win; recorded twice it
gives 1020 and 990 and two wins. -/
theorem updateLeaderboard_twice_counterexample :
    updateLeaderboard exampleGame emptyLeaderboards (some "alice") (some "bob") false
      "elo" "alice" = some 1010 ∧
    updateLeaderboard exampleGame
      (updateLeaderboard exampleGame emptyLeaderboards (some "alice") (some "bob") false)
      (some "alice") (some "bob") false "elo" "alice" = some 1020 ∧
    updateLeaderboard exampleGame
      (updateLeaderboard exampleGame emptyLeaderboards (some "alice") (some "bob") false)
      (some "alice") (some "bob") false "elo" "bob" = some 990 ∧
    updateLeaderboard exampleGame
      (updateLeaderboard exampleGame emptyLeaderboards (some "alice") (some "bob") false)
      (some "alice") (some "bob") false "wins" "alice" = some 2 ∧
    updateLeaderboard exampleGame
      (updateLeaderboard exampleGame emptyLeaderboards (some "alice") (some "bob") false)
      (some "alice") (some "bob") false ≠
      updateLeaderboard exampleGame emptyLeaderboards (some "alice") (some "bob") false := by
  have h1 : updateLeaderboard exampleGame emptyLeaderboards (some "alice") (some "bob") false
      "elo" "alice" = some 1010 := by decide
  have h2 : updateLeaderboard exampleGame
      (updateLeaderboard exampleGame emptyLeaderboards (some "alice") (some "bob") false)
      (some "alice") (some "bob") false "elo" "alice" = some 1020 := by decide
  refine ⟨h1, h2, by decide, by decide, ?_⟩
  intro h
  rw [h, h1] at h2
  exact absurd h2 (by decide)

/-- C14 (amended): `updateLeaderboard` has no memory of what it recorded, so
recording the same win twice, for two different non-empty ids, applies the
deltas twice: the winner ends at old + 20 with two more wins, the loser at
max(0, max(0, old - 5) - 5) with two more losses, and the store after two
applications differs from the store after one. -/
theorem updateLeaderboard_twice (g : TicTacToeGame) (nk : Leaderboards) (w l : String)
    (hw : w ≠ "") (hl : l ≠ "") (hwl : w ≠ l) :
    updateLeaderboard g (updateLeaderboard g nk (some w) (some l) false) (some w) (some l) false
      "elo" w = some (getPlayerScore nk w + 20) ∧
    updateLeaderboard g (updateLeaderboard g nk (some w) (some l) false) (some w) (some l) false
      "wins" w = some ((nk "wins" w).getD 0 + 2) ∧
    updateLeaderboard g (updateLeaderboard g nk (some w) (some l) false) (some w) (some l) false
      "elo" l = some (max 0 (max 0 (getPlayerScore nk l - 5) - 5)) ∧
    updateLeaderboard g (updateLeaderboard g nk (some w) (some l) false) (some w) (some l) false
      "losses" l = some ((nk "losses" l).getD 0 + 2) ∧
    updateLeaderboard g (updateLeaderboard g nk (some w) (some l) false) (some w) (some l) false ≠
      updateLeaderboard g nk (some w) (some l) false := by
  obtain ⟨a1, a2, a3, a4⟩ := updateLeaderboard_win_records g nk w l hw hl hwl
  obtain ⟨b1, b2, b3, b4⟩ := updateLeaderboard_win_records g
    (updateLeaderboard g nk (some w) (some l) false) w l hw hl hwl
  have c1 : updateLeaderboard g (updateLeaderboard g nk (some w) (some l) false) (some w)
      (some l) false "elo" w = some (getPlayerScore nk w + 20) := by
    rw [b1, getPlayerScore_eq, a1]
    simp only [Option.getD_some, Option.some.injEq]
    omega
  refine ⟨c1, ?_, ?_, ?_, ?_⟩
  · rw [b2, a2]
    simp only [Option.getD_some, Option.some.injEq]
    omega
  · rw [b3, getPlayerScore_eq, a3]
    simp only [Option.getD_some]
  · rw [b4, a4]
    simp only [Option.getD_some, Option.some.injEq]
    omega
  · intro h
    rw [h, a1] at c1
    simp only [Option.some.injEq] at c1
    omega

/-- Witness of C14 (amended): the win of `alice` over `bob`, recorded twice on an
empty store. -/
theorem updateLeaderboard_twice_witness :
    updateLeaderboard exampleGame
      (updateLeaderboard exampleGame emptyLeaderboards (some "alice") (some "bob") false)
      (some "alice") (some "bob") false "elo" "alice" =
      some (getPlayerScore emptyLeaderboards "alice" + 20) :=
  (updateLeaderboard_twice exampleGame emptyLeaderboards "alice" "bob"
    (by decide) (by decide) (by decide)).1

/-! ## Invocations of `updateLeaderboard` -/

/-- The `updateLeaderboard` calls of an accepted move, by the way it ends. -/
theorem acceptedOutcome_leaderboardCalls (g : TicTacToeGame) (now : Nat) (cur : Player)
    (position : Int) :
    ((acceptedOutcome g now cur position).game.state = GAME_STATE.FINISHED ∧
      (acceptedOutcome g now cur position).game.result = RESULT.WIN ∧
      (acceptedOutcome g now cur position).game.winner = some cur ∧
      (acceptedOutcome g now cur position).game.players = g.players ∧
      (acceptedOutcome g now cur position).leaderboardCalls =
        [⟨some cur.id, (g.players.find? (fun p => p.id != cur.id)).map (fun p => p.id), false⟩]) ∨
    ((acceptedOutcome g now cur position).game.state = GAME_STATE.FINISHED ∧
      (acceptedOutcome g now cur position).game.result = RESULT.DRAW ∧
      (acceptedOutcome g now cur position).leaderboardCalls = [⟨none, none, true⟩]) ∨
    ((acceptedOutcome g now cur position).game.state = g.state ∧
      (acceptedOutcome g now cur position).game.result = g.result ∧
      (acceptedOutcome g now cur position).game.winner = g.winner ∧
      (acceptedOutcome g now cur position).leaderboardCalls = []) := by
  cases hf : winPatterns.find? (checkWinTest (g.board.set position.toNat cur.mark) cur.mark
      position) with
  | some q =>
    left
    simp only [acceptedOutcome, hf, and_self]
  | none =>
    right
    by_cases hfull : (g.board.set position.toNat cur.mark).all (fun cell => cell != MARKS.NONE)
        = true
    · left
      simp only [acceptedOutcome, hf, hfull, if_true, and_self]
    · right
      simp only [acceptedOutcome, hf, hfull, if_false, Bool.false_eq_true, and_self]

/-- On a well-formed game in progress, the calls of an accepted move are those
the game accounts for afterwards. -/
theorem acceptedOutcome_recorded (g : TicTacToeGame) (now : Nat) (cur : Player) (position : Int)
    (hstate : g.state = GAME_STATE.IN_PROGRESS) :
    (acceptedOutcome g now cur position).leaderboardCalls =
      recordedCalls (acceptedOutcome g now cur position).game := by
  have hPF : GAME_STATE.IN_PROGRESS ≠ GAME_STATE.FINISHED := by decide
  have hDW : RESULT.DRAW ≠ RESULT.WIN := by decide
  rcases acceptedOutcome_leaderboardCalls g now cur position with
    ⟨h1, h2, h3, h4, h5⟩ | ⟨h1, h2, h5⟩ | ⟨h1, -, -, h5⟩
  · rw [h5, recordedCalls, if_neg (by rw [h1]; simp), if_pos h2, h3, h4]
    rfl
  · rw [h5, recordedCalls, if_neg (by rw [h1]; simp), if_neg (by rw [h2]; exact hDW)]
  · rw [h5, recordedCalls, if_pos (by rw [h1, hstate]; exact hPF)]

/-- The calls one method call starts on a well-formed unfinished game are those
the game accounts for afterwards. -/
theorem leaderboardCalls_apply (g : TicTacToeGame) (c : Call)
    (hstate : g.state ≠ GAME_STATE.FINISHED) :
    c.leaderboardCalls g = recordedCalls (c.apply g) := by
  have hPF : GAME_STATE.IN_PROGRESS ≠ GAME_STATE.FINISHED := by decide
  cases c with
  | addPlayer userId username =>
    cases hadd : addPlayer g userId username with
    | error e => simp [Call.apply, Call.leaderboardCalls, hadd, recordedCalls, hstate]
    | ok r =>
      obtain ⟨g1, player⟩ := r
      obtain ⟨-, -, hg1⟩ := (addPlayer_eq_ok g g1 userId username player).1 hadd
      have hs : g1.state ≠ GAME_STATE.FINISHED := by
        rw [hg1]
        show (if g.players.length + 1 = 2 then GAME_STATE.IN_PROGRESS else g.state) ≠
          GAME_STATE.FINISHED
        split_ifs
        · exact hPF
        · exact hstate
      simp [Call.apply, Call.leaderboardCalls, hadd, recordedCalls, hs]
  | makeMove now playerId position =>
    cases hmove : makeMove g now playerId position with
    | error e => simp [Call.apply, Call.leaderboardCalls, hmove, recordedCalls, hstate]
    | ok out =>
      obtain ⟨hs, -, -, -, cur, -, -, rfl⟩ :=
        (makeMove_eq_ok g now playerId position out).1 hmove
      simp only [Call.apply, Call.leaderboardCalls, hmove]
      exact acceptedOutcome_recorded g now cur position hs

/-- No call changes a well-formed finished game, and none starts an
`updateLeaderboard` call on it. -/
theorem finished_apply (g : TicTacToeGame) (c : Call) (hw : WellFormed g)
    (hstate : g.state = GAME_STATE.FINISHED) :
    c.apply g = g ∧ c.leaderboardCalls g = [] := by
  cases c with
  | addPlayer userId username =>
    have hlen : g.players.length = 2 := hw.started (by rw [hstate]; decide)
    have h := addPlayer_full g userId username (Nat.le_of_eq hlen.symm)
    exact ⟨h.2, rfl⟩
  | makeMove now playerId position =>
    have h := makeMove_state_guard g now playerId position
      (by rw [hstate]; decide)
    exact ⟨by simp [Call.apply, h], by simp [Call.leaderboardCalls, h]⟩

/-- No sequence of calls changes a well-formed finished game or starts a call on it. -/
theorem finished_runCalls (calls : List Call) (g : TicTacToeGame) (hw : WellFormed g)
    (hstate : g.state = GAME_STATE.FINISHED) :
    runCalls g calls = g ∧ leaderboardCalls g calls = [] := by
  induction calls with
  | nil => exact ⟨rfl, rfl⟩
  | cons c cs ih =>
    obtain ⟨h1, h2⟩ := finished_apply g c hw hstate
    have h3 : runCalls g (c :: cs) = runCalls (c.apply g) cs := rfl
    rw [h3, leaderboardCalls, h1, h2, ih.1, ih.2]
    exact ⟨rfl, rfl⟩

/-- Along a sequence of calls on a well-formed unfinished game, the
`updateLeaderboard` calls started are those the final game accounts for. -/
theorem leaderboardCalls_runCalls (calls : List Call) (g : TicTacToeGame) (hw : WellFormed g)
    (hstate : g.state ≠ GAME_STATE.FINISHED) :
    leaderboardCalls g calls = recordedCalls (runCalls g calls) := by
  induction calls generalizing g with
  | nil => simp [leaderboardCalls, runCalls, recordedCalls, hstate]
  | cons c cs ih =>
    have hstep := leaderboardCalls_apply g c hstate
    have hw1 := wellFormed_apply g c hw
    have h3 : runCalls g (c :: cs) = runCalls (c.apply g) cs := rfl
    rw [h3, leaderboardCalls]
    by_cases hfin : (c.apply g).state = GAME_STATE.FINISHED
    · obtain ⟨h1, h2⟩ := finished_runCalls cs (c.apply g) hw1 hfin
      rw [h1, h2, hstep, List.append_nil]
    · rw [ih (c.apply g) hw1 hfin, hstep, recordedCalls, if_pos hfin, List.nil_append]

/-- The player of the other slot is the first player whose id differs from the
mover's, when the two ids differ. -/
theorem find_other (a b : Player) (hab : a.id ≠ b.id) :
    ([a, b].find? (fun p => p.id != a.id)).map (fun p => p.id) = some b.id ∧
    ([a, b].find? (fun p => p.id != b.id)).map (fun p => p.id) = some a.id := by
  constructor
  · simp [List.find?_cons, Ne.symm hab]
  · simp [List.find?_cons, hab]

/-- C15: along every sequence of calls on a fresh game `updateLeaderboard` is
invoked at most once, and once exactly when the game is FINISHED; a rejected
move invokes nothing; an accepted move invokes nothing unless it finishes the
game, invokes it with `isDraw = true` and no ids on a draw, and on a win with
the id of the mover as winner and, as loser, the id of the first player whose
id differs from the mover's: the player of the other slot when the two players
have different ids. -/
theorem leaderboard_once (start : Nat) (calls : List Call) :
    (leaderboardCalls (TicTacToeGame.new start) calls).length ≤ 1 ∧
    ((runCalls (TicTacToeGame.new start) calls).state = GAME_STATE.FINISHED ↔
      (leaderboardCalls (TicTacToeGame.new start) calls).length = 1) ∧
    (∀ (now : Nat) (playerId : String) (position : Int) (e : JsError),
      makeMove (runCalls (TicTacToeGame.new start) calls) now playerId position = .error e →
      (Call.makeMove now playerId position).leaderboardCalls
        (runCalls (TicTacToeGame.new start) calls) = []) ∧
    (∀ (now : Nat) (playerId : String) (position : Int) (out : MoveOutcome) (mover : Player),
      makeMove (runCalls (TicTacToeGame.new start) calls) now playerId position = .ok out →
      (runCalls (TicTacToeGame.new start) calls).players[
        (runCalls (TicTacToeGame.new start) calls).currentPlayerIndex]? = some mover →
      (out.game.state ≠ GAME_STATE.FINISHED → out.leaderboardCalls = []) ∧
      (out.game.result = RESULT.DRAW →
        out.game.state = GAME_STATE.FINISHED ∧ out.leaderboardCalls = [⟨none, none, true⟩]) ∧
      (out.game.result = RESULT.WIN →
        out.game.state = GAME_STATE.FINISHED ∧ out.game.winner = some mover ∧
        out.leaderboardCalls =
          [⟨some mover.id,
            ((runCalls (TicTacToeGame.new start) calls).players.find?
              (fun p => p.id != mover.id)).map (fun p => p.id), false⟩] ∧
        ∀ other : Player,
          (runCalls (TicTacToeGame.new start) calls).players[
            1 - (runCalls (TicTacToeGame.new start) calls).currentPlayerIndex]? = some other →
          other.id ≠ mover.id →
          out.leaderboardCalls = [⟨some mover.id, some other.id, false⟩])) := by
  have hw := wellFormed_runCalls calls _ (wellFormed_new start)
  have hWF : GAME_STATE.WAITING_FOR_PLAYERS ≠ GAME_STATE.FINISHED := by decide
  have hcalls := leaderboardCalls_runCalls calls _ (wellFormed_new start) hWF
  have hFP : GAME_STATE.FINISHED ≠ GAME_STATE.IN_PROGRESS := by decide
  have hND : RESULT.NONE ≠ RESULT.DRAW := by decide
  have hNW : RESULT.NONE ≠ RESULT.WIN := by decide
  have hWD : RESULT.WIN ≠ RESULT.DRAW := by decide
  refine ⟨?_, ?_, ?_, ?_⟩
  · rw [hcalls, recordedCalls]
    split_ifs <;> simp
  · rw [hcalls, recordedCalls]
    split_ifs with h1 h2
    · simp [h1]
    · simp only [List.length_singleton, iff_true]; exact not_not.1 h1
    · simp only [List.length_singleton, iff_true]; exact not_not.1 h1
  · intro now playerId position e herr
    simp [Call.leaderboardCalls, herr]
  · intro now playerId position out mover hok hmover
    obtain ⟨hstate, -, -, -, cur, hcur, -, rfl⟩ :=
      (makeMove_eq_ok _ now playerId position out).1 hok
    rw [hmover] at hcur
    simp only [Option.some.injEq] at hcur
    subst hcur
    obtain ⟨hres, -, -⟩ := hw.unfinished (by rw [hstate]; decide)
    have hlen : (runCalls (TicTacToeGame.new start) calls).players.length = 2 :=
      hw.started (by rw [hstate]; decide)
    rcases acceptedOutcome_leaderboardCalls (runCalls (TicTacToeGame.new start) calls) now mover
        position with ⟨h1, h2, h3, -, h5⟩ | ⟨h1, h2, h5⟩ | ⟨h1, h2, -, h5⟩
    · refine ⟨fun h => absurd h1 h, fun h => ?_, fun _ => ⟨h1, h3, h5, ?_⟩⟩
      · rw [h2] at h; exact absurd h hWD
      · intro other hother hne
        rw [h5]
        obtain ⟨a, b, hab⟩ := List.length_eq_two.1 hlen
        rw [hab] at hmover hother ⊢
        rcases Nat.le_one_iff_eq_zero_or_eq_one.1 hw.index with hi | hi
        · rw [hi] at hmover hother
          simp only [List.getElem?_cons_zero, List.getElem?_cons_succ, Option.some.injEq,
            Nat.sub_zero] at hmover hother
          subst hmover hother
          rw [(find_other a b (Ne.symm hne)).1]
        · rw [hi] at hmover hother
          simp only [List.getElem?_cons_zero, List.getElem?_cons_succ, Option.some.injEq,
            Nat.sub_self] at hmover hother
          subst hmover hother
          rw [(find_other a b hne).2]
    · refine ⟨fun h => absurd h1 h, fun _ => ⟨h1, h5⟩, fun h => ?_⟩
      rw [h2] at h; exact absurd h.symm hWD
    · refine ⟨fun _ => h5, fun h => ?_, fun h => ?_⟩
      · rw [h2, hres] at h; exact absurd h hND
      · rw [h2, hres] at h; exact absurd h hNW

/-- Witness of C15: the ninth move after `drawCalls` is the only one that
invokes `updateLeaderboard`, for a draw. -/
theorem leaderboard_once_witness :
    leaderboardCalls (TicTacToeGame.new 0) drawCalls = [] ∧
    (acceptedOutcome (runCalls (TicTacToeGame.new 0) drawCalls) 9
      ⟨"alice", "Alice", MARKS.X⟩ 8).leaderboardCalls = [⟨none, none, true⟩] :=
  ⟨List.eq_nil_of_length_eq_zero (by
      have h := (leaderboard_once 0 drawCalls).2.1
      have hle := (leaderboard_once 0 drawCalls).1
      have hs : (runCalls (TicTacToeGame.new 0) drawCalls).state ≠ GAME_STATE.FINISHED := by
        decide
      have : (leaderboardCalls (TicTacToeGame.new 0) drawCalls).length ≠ 1 :=
        fun h1 => hs (h.2 h1)
      omega),
   (((leaderboard_once 0 drawCalls).2.2.2 9 "alice" 8
      (acceptedOutcome (runCalls (TicTacToeGame.new 0) drawCalls) 9
        ⟨"alice", "Alice", MARKS.X⟩ 8) ⟨"alice", "Alice", MARKS.X⟩
      (by decide) (by decide)).2.1 (by decide)).2⟩

/-! ## A move delivered twice -/

/-- Counterexample to C17 as stated: `alice` moves to cell 4 of `exampleGame`;
the same move delivered again is answered with the error 'Position already
taken', not with the last known state. -/
theorem makeMove_retry_counterexample :
    makeMove exampleGame 7 "alice" 4 =
      .ok (acceptedOutcome exampleGame 7 ⟨"alice", "Alice", MARKS.X⟩ 4) ∧
    makeMove (acceptedOutcome exampleGame 7 ⟨"alice", "Alice", MARKS.X⟩ 4).game 8 "alice" 4 =
      .error (.error "Position already taken") := by
  decide

/-- C17 (amended): on a reachable game, a move that was accepted and is
delivered again (same player id and position) is rejected, with 'Position
already taken' while the game is in progress and with 'Game is not in progress'
once it is finished; the second delivery leaves the whole game object, hence
board, turn, state, result and winner, as the first left it, so the mark is
not applied twice. -/
theorem makeMove_retry (g : TicTacToeGame) (hg : Reachable g) (now : Nat) (playerId : String)
    (position : Int) (out : MoveOutcome) (hok : makeMove g now playerId position = .ok out)
    (now2 : Nat) :
    (out.game.state = GAME_STATE.IN_PROGRESS →
      makeMove out.game now2 playerId position = .error (.error "Position already taken")) ∧
    (out.game.state ≠ GAME_STATE.IN_PROGRESS →
      makeMove out.game now2 playerId position = .error (.error "Game is not in progress")) ∧
    (∃ e, makeMove out.game now2 playerId position = .error e) ∧
    (Call.makeMove now2 playerId position).apply out.game = out.game ∧
    markCount ((Call.makeMove now2 playerId position).apply out.game).board =
      markCount g.board + 1 := by
  have hw := wellFormed_of_reachable g hg
  obtain ⟨-, hlo, hhi, hempty, cur, hcur, -, rfl⟩ :=
    (makeMove_eq_ok g now playerId position out).1 hok
  have hmark : cur.mark ≠ MARKS.NONE := by
    rcases hw.mark_current cur hcur with h | h <;> rw [h.2] <;> decide
  have hlt : position.toNat < g.board.length := by
    by_contra hge
    rw [List.getElem?_eq_none (Nat.le_of_not_lt hge)] at hempty
    exact absurd hempty (by simp)
  have hcell : (acceptedOutcome g now cur position).game.board[position.toNat]? ≠
      some MARKS.NONE := by
    rw [acceptedOutcome_board, List.getElem?_set_self hlt]
    simpa using hmark
  have h1 : (acceptedOutcome g now cur position).game.state = GAME_STATE.IN_PROGRESS →
      makeMove (acceptedOutcome g now cur position).game now2 playerId position =
        .error (.error "Position already taken") := by
    intro hs
    unfold makeMove
    rw [if_neg (by simp [hs]), if_neg (by omega), if_pos hcell]
  have h2 : (acceptedOutcome g now cur position).game.state ≠ GAME_STATE.IN_PROGRESS →
      makeMove (acceptedOutcome g now cur position).game now2 playerId position =
        .error (.error "Game is not in progress") :=
    makeMove_state_guard _ now2 playerId position
  have h3 : ∃ e, makeMove (acceptedOutcome g now cur position).game now2 playerId position =
      .error e := by
    by_cases hs : (acceptedOutcome g now cur position).game.state = GAME_STATE.IN_PROGRESS
    · exact ⟨_, h1 hs⟩
    · exact ⟨_, h2 hs⟩
  obtain ⟨e, he⟩ := h3
  have h4 := apply_of_error _ now2 playerId position e he
  refine ⟨h1, h2, ⟨e, he⟩, h4, ?_⟩
  rw [h4, acceptedOutcome_board]
  exact markCount_set g.board position.toNat cur.mark hempty hmark

/-- Witness of C17 (amended): the move of `alice` to cell 4 of `exampleGame`,
delivered a second time. -/
theorem makeMove_retry_witness :
    (Call.makeMove 8 "alice" 4).apply
      (acceptedOutcome exampleGame 7 ⟨"alice", "Alice", MARKS.X⟩ 4).game =
      (acceptedOutcome exampleGame 7 ⟨"alice", "Alice", MARKS.X⟩ 4).game :=
  (makeMove_retry exampleGame
    ⟨0, [.addPlayer "alice" "Alice", .addPlayer "bob" "Bob"], by decide⟩ 7 "alice" 4
    (acceptedOutcome exampleGame 7 ⟨"alice", "Alice", MARKS.X⟩ 4) (by decide) 8).2.2.2.1

/-! ## The leaderboard of the web client -/

/-- C16 (the code does otherwise): the 'move' message with which X wins on
`exampleClient` raises the wins of the entry of `Alice` from 0 to 2, because
`updateGameStatus` runs in the branch and again at the end of `handleMatchData`;
the same message of type 'move_made' raises them to 1, and any later message
for the match, here of a type without branch, raises them once more. -/
theorem leaderboard_counted_twice :
    exampleClient.gameState.leaderboard = [⟨"Alice", 0, 0, 0⟩] ∧
    (handleMatchData exampleClient (.move (some 3) "X")).gameState.isGameOver = true ∧
    (handleMatchData exampleClient (.move (some 3) "X")).gameState.winner = some "X" ∧
    (handleMatchData exampleClient (.move (some 3) "X")).gameState.leaderboard =
      [⟨"Alice", 2, 0, 20⟩] ∧
    (handleMatchData exampleClient (.moveMade (some 3) "X")).gameState.leaderboard =
      [⟨"Alice", 1, 0, 10⟩] ∧
    (handleMatchData (handleMatchData exampleClient (.moveMade (some 3) "X"))
      (.other "ping")).gameState.leaderboard = [⟨"Alice", 2, 0, 20⟩] := by
  decide

/-! ## Rematch votes in the web client -/

/-- Function `updateLeaderboardWithResult` changes the leaderboard only. -/
theorem updateLeaderboardWithResult_eq (c : Client) (youWon : Bool) :
    ∃ lb, updateLeaderboardWithResult c youWon =
      { c with gameState := { c.gameState with leaderboard := lb } } := by
  unfold updateLeaderboardWithResult
  by_cases h : c.username = ""
  · rw [if_pos h]; exact ⟨c.gameState.leaderboard, rfl⟩
  · rw [if_neg h]; exact ⟨_, rfl⟩

/-- Function `updateGameStatus` changes the leaderboard only, and nothing while
the game is not over. -/
theorem updateGameStatus_eq (c : Client) :
    (∃ lb, updateGameStatus c = { c with gameState := { c.gameState with leaderboard := lb } }) ∧
    (c.gameState.isGameOver = false → updateGameStatus c = c) := by
  unfold updateGameStatus
  by_cases h : c.gameState.isGameOver = true
  · rw [if_pos h]
    exact ⟨updateLeaderboardWithResult_eq c _, fun h2 => by rw [h2] at h; exact absurd h (by simp)⟩
  · rw [if_neg h]
    exact ⟨⟨c.gameState.leaderboard, rfl⟩, fun _ => rfl⟩

/-- Function `startTimer` changes the variable `timerInterval` only. -/
theorem startTimer_eq (c : Client) : ∃ handle, startTimer c = { c with timerInterval := handle } := by
  unfold startTimer
  simp only []
  split_ifs
  · exact ⟨_, rfl⟩
  · exact ⟨_, rfl⟩

/-- What `restartGame` leaves: a fresh board, the game not over, no winning
line, no winner, the turn with the X player, no votes, one more restart; of the
rest only the timers and the variable `timerInterval` can differ. -/
theorem restartGame_eq (c : Client) :
    ∃ timers handle, restartGame c =
      { c with
        gameState := { c.gameState with
          board := List.replicate 9 ""
          isGameOver := false
          winningLine := []
          winner := none
          myTurn := c.gameState.mySymbol == "X"
          rematchRequested := []
          timers := timers }
        timerInterval := handle
        restarts := c.restarts + 1 } := by
  unfold restartGame
  simp only []
  cases ht : c.gameState.timers with
  | none =>
    simp only []
    refine ⟨none, c.timerInterval, ?_⟩
    rw [(updateGameStatus_eq _).2 rfl]
  | some t =>
    simp only []
    by_cases hm : c.gameState.gameMode = "timed"
    · rw [if_pos hm]
      obtain ⟨handle, hh⟩ := startTimer_eq
        { c with
          gameState := { c.gameState with
            board := List.replicate 9 ""
            isGameOver := false
            winningLine := []
            winner := none
            myTurn := c.gameState.mySymbol == "X"
            rematchRequested := []
            timers := some { t with
              remaining := setKey (setKey t.remaining c.gameState.session t.perMoveMs)
                c.gameState.opponent.id t.perMoveMs } }
          restarts := c.restarts + 1 }
      rw [hh, (updateGameStatus_eq _).2 rfl]
      exact ⟨_, handle, rfl⟩
    · rw [if_neg hm]
      refine ⟨some t, c.timerInterval, ?_⟩
      rw [(updateGameStatus_eq _).2 rfl]

/-- The 'rematch_request' branch: the vote is added, and `restartGame` runs when
the list then has two entries. -/
theorem handleMatchData_rematch (c : Client) (userId : Option String) :
    handleMatchData c (.rematchRequest userId) =
      if (addVote c.gameState.rematchRequested userId).length ≥ 2 then
        updateGameStatus (restartGame { c with gameState := { c.gameState with
          rematchRequested := addVote c.gameState.rematchRequested userId } })
      else
        updateGameStatus { c with gameState := { c.gameState with
          rematchRequested := addVote c.gameState.rematchRequested userId } } := by
  unfold handleMatchData addVote
  simp only []
  split_ifs <;> rfl

/-- The timer block changes the timers and the variable `timerInterval` only. -/
theorem switchTimers_eq (c : Client) :
    ∃ timers handle, switchTimers c =
      { c with gameState := { c.gameState with timers := timers }, timerInterval := handle } := by
  unfold switchTimers
  cases ht : c.gameState.timers with
  | none => exact ⟨none, c.timerInterval, by simp only []; rw [← ht]⟩
  | some t =>
    simp only []
    by_cases hm : c.gameState.gameMode = "timed"
    · rw [if_pos hm]
      by_cases hturn : c.gameState.myTurn = true
      · rw [if_pos hturn]
        obtain ⟨handle, hh⟩ := startTimer_eq
          { c with gameState := { c.gameState with
            timers := some { t with remaining := (setKey t.remaining
              (if (if c.gameState.myTurn = true then c.gameState.session
                  else c.gameState.opponent.id) = c.gameState.session
                then c.gameState.opponent.id else c.gameState.session) t.perMoveMs) } } }
        rw [hh]
        exact ⟨_, handle, rfl⟩
      · rw [if_neg hturn]
        exact ⟨_, c.timerInterval, rfl⟩
    · rw [if_neg hm]
      exact ⟨some t, c.timerInterval, by rw [← ht]⟩

/-- The end-of-game block changes `isGameOver`, `winner`, `winningLine` and the
variable `timerInterval` only. -/
theorem checkGameOver_eq (c : Client) :
    ∃ over winner line handle, checkGameOver c =
      { c with
        gameState := { c.gameState with isGameOver := over, winner := winner, winningLine := line }
        timerInterval := handle } := by
  unfold checkGameOver stopTimer
  simp only []
  split_ifs
  · exact ⟨_, _, _, _, rfl⟩
  · exact ⟨_, _, _, _, rfl⟩
  · exact ⟨c.gameState.isGameOver, c.gameState.winner, c.gameState.winningLine, c.timerInterval,
      rfl⟩

/-- A 'move' or 'move_made' body leaves the votes, the restarts, the messages
sent, the session, the match id, the username and the leaderboard alone. -/
theorem applyMoveMessage_keeps (c c1 : Client) (position : Option Int) (player : String)
    (h : applyMoveMessage c position player = some c1) :
    c1.restarts = c.restarts ∧ c1.sent = c.sent ∧ c1.username = c.username ∧
    c1.socket = c.socket ∧
    c1.gameState.rematchRequested = c.gameState.rematchRequested ∧
    c1.gameState.session = c.gameState.session ∧
    c1.gameState.matchId = c.gameState.matchId ∧
    c1.gameState.leaderboard = c.gameState.leaderboard := by
  unfold applyMoveMessage at h
  cases position with
  | none => simp at h
  | some pos =>
    simp only [] at h
    by_cases hr : 1 ≤ pos ∧ pos ≤ 9
    · rw [if_pos hr] at h
      simp only [Option.some.injEq] at h
      obtain ⟨timers, handle, hs⟩ := switchTimers_eq
        { c with gameState := { c.gameState with
          board := c.gameState.board.set (pos - 1).toNat player
          currentPlayer := if player = "X" then "O" else "X"
          myTurn := (if player = "X" then "O" else "X") == c.gameState.mySymbol } }
      rw [hs] at h
      obtain ⟨over, winner, line, handle2, hg⟩ := checkGameOver_eq
        { c with
          gameState := { c.gameState with
            board := c.gameState.board.set (pos - 1).toNat player
            currentPlayer := if player = "X" then "O" else "X"
            myTurn := (if player = "X" then "O" else "X") == c.gameState.mySymbol
            timers := timers }
          timerInterval := handle }
      rw [hg] at h
      subst h
      exact ⟨rfl, rfl, rfl, rfl, rfl, rfl, rfl, rfl⟩
    · rw [if_neg hr] at h
      exact absurd h (by simp)

/-- Membership in the vote list, as `includes` tests it. -/
theorem contains_vote (votes : List (Option String)) (userId : Option String) :
    votes.contains userId = true ↔ userId ∈ votes := by
  simp

/-- The fields `updateGameStatus` keeps. -/
theorem updateGameStatus_keeps (c : Client) :
    (updateGameStatus c).restarts = c.restarts ∧ (updateGameStatus c).sent = c.sent ∧
    (updateGameStatus c).username = c.username ∧ (updateGameStatus c).socket = c.socket ∧
    (updateGameStatus c).gameState.rematchRequested = c.gameState.rematchRequested ∧
    (updateGameStatus c).gameState.session = c.gameState.session ∧
    (updateGameStatus c).gameState.matchId = c.gameState.matchId := by
  obtain ⟨lb, h⟩ := (updateGameStatus_eq c).1
  rw [h]
  exact ⟨rfl, rfl, rfl, rfl, rfl, rfl, rfl⟩

/-- The two ways the 'rematch_request' branch ends: with two votes in the list
`restartGame` runs, with fewer the vote is only recorded. -/
theorem rematch_message_cases (c : Client) (userId : Option String) :
    (2 ≤ (addVote c.gameState.rematchRequested userId).length ∧
      ∃ timers handle, handleMatchData c (.rematchRequest userId) =
        { c with
          gameState := { c.gameState with
            board := List.replicate 9 ""
            isGameOver := false
            winningLine := []
            winner := none
            myTurn := c.gameState.mySymbol == "X"
            rematchRequested := []
            timers := timers }
          timerInterval := handle
          restarts := c.restarts + 1 }) ∨
    ((addVote c.gameState.rematchRequested userId).length < 2 ∧
      ∃ lb, handleMatchData c (.rematchRequest userId) =
        { c with gameState := { c.gameState with
            rematchRequested := addVote c.gameState.rematchRequested userId
            leaderboard := lb } }) := by
  rw [handleMatchData_rematch]
  by_cases h : (addVote c.gameState.rematchRequested userId).length ≥ 2
  · left
    rw [if_pos h]
    obtain ⟨timers, handle, hr⟩ := restartGame_eq
      { c with gameState := { c.gameState with
        rematchRequested := addVote c.gameState.rematchRequested userId } }
    rw [hr, (updateGameStatus_eq _).2 rfl]
    exact ⟨h, timers, handle, rfl⟩
  · right
    rw [if_neg h]
    obtain ⟨lb, hl⟩ := (updateGameStatus_eq
      { c with gameState := { c.gameState with
        rematchRequested := addVote c.gameState.rematchRequested userId } }).1
    rw [hl]
    exact ⟨Nat.lt_of_not_le h, lb, rfl⟩

/-- The two ways `requestRematch` ends: nothing happens without a match or when
the vote is in the list already; otherwise the vote is pushed and, with a
socket, one message is sent. -/
theorem requestRematch_cases (c : Client) :
    ((truthy c.gameState.matchId = false ∨
        some c.gameState.session ∈ c.gameState.rematchRequested) ∧
      requestRematch c = c) ∨
    (truthy c.gameState.matchId = true ∧
      some c.gameState.session ∉ c.gameState.rematchRequested ∧
      ∃ lb, requestRematch c =
        { c with
          gameState := { c.gameState with
            rematchRequested := c.gameState.rematchRequested ++ [some c.gameState.session]
            leaderboard := lb }
          sent := if c.socket then
              c.sent ++ [⟨c.gameState.matchId.getD "", 1, .rematchRequest c.gameState.session⟩]
            else c.sent }) := by
  unfold requestRematch
  by_cases h : ¬ truthy c.gameState.matchId = true ∨
      c.gameState.rematchRequested.contains (some c.gameState.session) = true
  · left
    rw [if_pos h]
    refine ⟨?_, rfl⟩
    rcases h with h | h
    · left; simpa using h
    · right; exact (contains_vote _ _).1 h
  · right
    rw [if_neg h]
    push_neg at h
    refine ⟨h.1, fun hm => h.2 ((contains_vote _ _).2 hm), ?_⟩
    simp only []
    by_cases hs : c.socket = true
    · obtain ⟨lb, hl⟩ := (updateGameStatus_eq
        { c with
          gameState := { c.gameState with
            rematchRequested := c.gameState.rematchRequested ++ [some c.gameState.session] }
          sent := c.sent ++
            [⟨c.gameState.matchId.getD "", 1, .rematchRequest c.gameState.session⟩] }).1
      rw [if_pos hs, hl, if_pos hs]
      exact ⟨lb, rfl⟩
    · obtain ⟨lb, hl⟩ := (updateGameStatus_eq
        { c with gameState := { c.gameState with
            rematchRequested := c.gameState.rematchRequested ++ [some c.gameState.session] } }).1
      rw [if_neg hs, hl, if_neg hs]
      exact ⟨lb, rfl⟩

/-- A message of another type than 'rematch_request' leaves the votes, the
restarts, the messages sent and the session alone. -/
theorem handleMatchData_keeps (c : Client) (m : Message)
    (hm : ∀ userId, m ≠ .rematchRequest userId) :
    (handleMatchData c m).restarts = c.restarts ∧ (handleMatchData c m).sent = c.sent ∧
    (handleMatchData c m).gameState.rematchRequested = c.gameState.rematchRequested ∧
    (handleMatchData c m).gameState.session = c.gameState.session := by
  have key : ∀ c1 : Client, c1.restarts = c.restarts → c1.sent = c.sent →
      c1.gameState.rematchRequested = c.gameState.rematchRequested →
      c1.gameState.session = c.gameState.session →
      (updateGameStatus c1).restarts = c.restarts ∧ (updateGameStatus c1).sent = c.sent ∧
      (updateGameStatus c1).gameState.rematchRequested = c.gameState.rematchRequested ∧
      (updateGameStatus c1).gameState.session = c.gameState.session := by
    intro c1 h1 h2 h3 h4
    obtain ⟨k1, k2, -, -, k3, k4, -⟩ := updateGameStatus_keeps c1
    exact ⟨k1.trans h1, k2.trans h2, k3.trans h3, k4.trans h4⟩
  cases m with
  | move position player =>
    unfold handleMatchData
    simp only []
    cases ha : applyMoveMessage c position player with
    | none => exact key c rfl rfl rfl rfl
    | some c0 =>
      obtain ⟨a1, a2, -, -, a3, a4, -, -⟩ := applyMoveMessage_keeps c c0 position player ha
      obtain ⟨b1, b2, b3, b4⟩ := key c0 a1 a2 a3 a4
      exact key _ b1 b2 b3 b4
  | moveMade position player =>
    unfold handleMatchData
    simp only []
    cases ha : applyMoveMessage c position player with
    | none => exact key c rfl rfl rfl rfl
    | some c0 =>
      obtain ⟨a1, a2, -, -, a3, a4, -, -⟩ := applyMoveMessage_keeps c c0 position player ha
      exact key c0 a1 a2 a3 a4
  | gameOver winner winningLine => exact key _ rfl rfl rfl rfl
  | rematchRequest userId => exact absurd rfl (hm userId)
  | other kind => exact key c rfl rfl rfl rfl

/-- Adding a vote keeps a list without duplicates free of duplicates. -/
theorem addVote_nodup (votes : List (Option String)) (userId : Option String)
    (h : votes.Nodup) : (addVote votes userId).Nodup := by
  unfold addVote
  by_cases hc : votes.contains userId = true
  · rw [if_pos hc]; exact h
  · rw [if_neg hc]
    have hn : userId ∉ votes := fun hm => hc ((contains_vote _ _).2 hm)
    rw [List.nodup_append]
    refine ⟨h, List.nodup_singleton _, ?_⟩
    intro a ha hb
    rw [List.mem_singleton] at hb
    subst hb
    exact hn ha

/-- No event changes the session, and no event puts an id twice into the vote list. -/
theorem apply_votes (c : Client) (ev : ClientEvent) :
    (ev.apply c).gameState.session = c.gameState.session ∧
    (c.gameState.rematchRequested.Nodup → (ev.apply c).gameState.rematchRequested.Nodup) := by
  cases ev with
  | requestRematch =>
    simp only [ClientEvent.apply]
    rcases requestRematch_cases c with ⟨-, h⟩ | ⟨-, hn, lb, h⟩
    · rw [h]; exact ⟨rfl, fun hd => hd⟩
    · rw [h]
      refine ⟨rfl, fun hd => ?_⟩
      show (c.gameState.rematchRequested ++ [some c.gameState.session]).Nodup
      rw [List.nodup_append]
      refine ⟨hd, List.nodup_singleton _, ?_⟩
      intro a ha hb
      rw [List.mem_singleton] at hb
      subst hb
      exact hn ha
  | message m =>
    simp only [ClientEvent.apply]
    by_cases hm : ∃ userId, m = .rematchRequest userId
    · obtain ⟨userId, rfl⟩ := hm
      rcases rematch_message_cases c userId with ⟨-, timers, handle, h⟩ | ⟨-, lb, h⟩
      · rw [h]; exact ⟨rfl, fun _ => List.nodup_nil⟩
      · rw [h]; exact ⟨rfl, fun hd => addVote_nodup _ userId hd⟩
    · push_neg at hm
      obtain ⟨-, -, h3, h4⟩ := handleMatchData_keeps c m hm
      rw [h3]
      exact ⟨h4, fun hd => hd⟩

/-- No sequence of events changes the session or puts an id twice into the vote list. -/
theorem runEvents_votes (events : List ClientEvent) (c : Client) :
    (runEvents c events).gameState.session = c.gameState.session ∧
    (c.gameState.rematchRequested.Nodup →
      (runEvents c events).gameState.rematchRequested.Nodup) := by
  induction events generalizing c with
  | nil => exact ⟨rfl, fun h => h⟩
  | cons ev evs ih =>
    have h3 : runEvents c (ev :: evs) = runEvents (ev.apply c) evs := rfl
    obtain ⟨a1, a2⟩ := apply_votes c ev
    obtain ⟨b1, b2⟩ := ih (ev.apply c)
    rw [h3]
    exact ⟨b1.trans a1, fun h => b2 (a2 h)⟩

/-- Votes that all carry one id never bring the list to two entries, so they never
start `restartGame`. -/
theorem single_voter (v : Option String) (events : List ClientEvent) (c : Client)
    (hlen : c.gameState.rematchRequested.length ≤ 1)
    (hall : ∀ x ∈ c.gameState.rematchRequested, x = v)
    (hev : ∀ e ∈ events, e = .message (.rematchRequest v) ∨
      (e = .requestRematch ∧ some c.gameState.session = v)) :
    (runEvents c events).restarts = c.restarts := by
  induction events generalizing c with
  | nil => rfl
  | cons ev evs ih =>
    have h3 : runEvents c (ev :: evs) = runEvents (ev.apply c) evs := rfl
    have hstep : (ev.apply c).restarts = c.restarts ∧
        (ev.apply c).gameState.rematchRequested.length ≤ 1 ∧
        ∀ x ∈ (ev.apply c).gameState.rematchRequested, x = v := by
      have hadd : (addVote c.gameState.rematchRequested v).length ≤ 1 ∧
          ∀ x ∈ addVote c.gameState.rematchRequested v, x = v := by
        unfold addVote
        by_cases hc : c.gameState.rematchRequested.contains v = true
        · rw [if_pos hc]; exact ⟨hlen, hall⟩
        · rw [if_neg hc]
          have hn : v ∉ c.gameState.rematchRequested := fun hm => hc ((contains_vote _ _).2 hm)
          have hnil : c.gameState.rematchRequested = [] := by
            cases hv : c.gameState.rematchRequested with
            | nil => rfl
            | cons a as =>
              rw [hv] at hall hn
              exact absurd (hall a (List.mem_cons_self a as) ▸ List.mem_cons_self a as) hn
          rw [hnil]
          exact ⟨by simp, by simp⟩
      rcases hev ev (List.mem_cons_self ev evs) with rfl | ⟨rfl, hs⟩
      · simp only [ClientEvent.apply]
        rcases rematch_message_cases c v with ⟨h2, -⟩ | ⟨-, lb, h⟩
        · exact absurd h2 (by have := hadd.1; omega)
        · rw [h]; exact ⟨rfl, hadd.1, hadd.2⟩
      · simp only [ClientEvent.apply]
        rcases requestRematch_cases c with ⟨-, h⟩ | ⟨-, hn, lb, h⟩
        · rw [h]; exact ⟨rfl, hlen, hall⟩
        · rw [h]
          have hc : ¬ c.gameState.rematchRequested.contains v = true :=
            fun hm => hn (hs ▸ (contains_vote _ _).1 hm)
          have hadd2 := hadd
          unfold addVote at hadd2
          rw [if_neg hc, ← hs] at hadd2
          exact ⟨rfl, hadd2.1, fun x hx => hs ▸ hadd2.2 x hx⟩
    obtain ⟨s1, s2, s3⟩ := hstep
    have hsess := (apply_votes c ev).1
    rw [h3, ih (ev.apply c) s2 s3 (fun e he => by
      rcases hev e (List.mem_cons_of_mem ev he) with h | ⟨h, hs⟩
      · exact Or.inl h
      · exact Or.inr ⟨h, by rw [hsess]; exact hs⟩), s1]

/-- In a list without duplicates every id occurs at most once. -/
theorem count_le_one_of_nodup (votes : List (Option String)) (a : Option String)
    (h : votes.Nodup) : votes.count a ≤ 1 := by
  induction votes with
  | nil => simp
  | cons x xs ih =>
    obtain ⟨hx, hxs⟩ := List.nodup_cons.1 h
    rw [List.count_cons]
    by_cases hxa : (x == a) = true
    · have hxa2 : x = a := by simpa using hxa
      subst hxa2
      rw [List.count_eq_zero_of_not_mem hx]
      simp
    · rw [if_neg hxa]
      exact ih hxs

/-- A list with two different members has at least two entries. -/
theorem two_le_length_of_mem (votes : List (Option String)) (a b : Option String)
    (ha : a ∈ votes) (hb : b ∈ votes) (hab : a ≠ b) : 2 ≤ votes.length := by
  match votes, ha, hb with
  | [], ha, _ => simp at ha
  | [x], ha, hb =>
    rw [List.mem_singleton] at ha hb
    exact absurd (ha.trans hb.symm) hab
  | _ :: _ :: _, _, _ => simp

/-- Counterexample to C18 as stated: on `exampleClient` the game is not over,
yet a local vote followed by the vote of the opponent runs `restartGame`; and
so do two votes carrying ids that belong to neither player. -/
theorem rematch_start_counterexample :
    exampleClient.gameState.isGameOver = false ∧
    (runEvents exampleClient
      [.requestRematch, .message (.rematchRequest (some "bob-id"))]).restarts = 1 ∧
    (runEvents exampleClient
      [.message (.rematchRequest (some "mallory")),
       .message (.rematchRequest (some "eve"))]).restarts = 1 := by
  decide

/-- C18 (amended): `restartGame` never runs in a local `requestRematch`; it runs
in `handleMatchData` only for a 'rematch_request' message, and only when the
vote list, with the id of the message added, has two entries, so that an id
other than that of the message had voted when the list is free of duplicates,
as it stays from an empty list on. Votes that all carry one id, local calls
and messages together, never run it. -/
theorem rematch_start (c : Client) :
    (requestRematch c).restarts = c.restarts ∧
    (∀ m : Message, (handleMatchData c m).restarts = c.restarts ∨
      ∃ userId, m = .rematchRequest userId ∧
        (handleMatchData c m).restarts = c.restarts + 1 ∧
        2 ≤ (addVote c.gameState.rematchRequested userId).length ∧
        (c.gameState.rematchRequested.Nodup →
          ∃ a ∈ c.gameState.rematchRequested, a ≠ userId)) ∧
    (∀ events : List ClientEvent, c.gameState.rematchRequested.Nodup →
      (runEvents c events).gameState.rematchRequested.Nodup) ∧
    (∀ (v : Option String) (events : List ClientEvent),
      c.gameState.rematchRequested.length ≤ 1 →
      (∀ x ∈ c.gameState.rematchRequested, x = v) →
      (∀ e ∈ events, e = .message (.rematchRequest v) ∨
        (e = .requestRematch ∧ some c.gameState.session = v)) →
      (runEvents c events).restarts = c.restarts) := by
  refine ⟨?_, ?_, fun events => (runEvents_votes events c).2,
    fun v events hlen hall hev => single_voter v events c hlen hall hev⟩
  · rcases requestRematch_cases c with ⟨-, h⟩ | ⟨-, -, lb, h⟩ <;> rw [h]
  · intro m
    by_cases hm : ∃ userId, m = .rematchRequest userId
    · obtain ⟨userId, rfl⟩ := hm
      rcases rematch_message_cases c userId with ⟨h2, timers, handle, h⟩ | ⟨-, lb, h⟩
      · right
        refine ⟨userId, rfl, by rw [h], h2, fun hd => ?_⟩
        unfold addVote at h2
        by_cases hc : c.gameState.rematchRequested.contains userId = true
        · rw [if_pos hc] at h2
          match hv : c.gameState.rematchRequested, h2 with
          | a :: b :: rest, _ =>
            rw [hv] at hd
            have hab : a ≠ b := by
              intro e
              rw [e] at hd
              exact (List.nodup_cons.1 hd).1 (List.mem_cons_self b rest)
            by_cases ha : a = userId
            · exact ⟨b, by simp, fun hb => hab (ha.trans hb.symm)⟩
            · exact ⟨a, by simp, ha⟩
        · rw [if_neg hc] at h2
          have hn : userId ∉ c.gameState.rematchRequested :=
            fun hm => hc ((contains_vote _ _).2 hm)
          match hv : c.gameState.rematchRequested, h2 with
          | a :: rest, _ =>
            rw [hv] at hn
            exact ⟨a, by simp, fun ha => hn (ha ▸ List.mem_cons_self a rest)⟩
      · left; rw [h]
    · push_neg at hm
      exact Or.inl (handleMatchData_keeps c m hm).1

/-- Witness of C18 (amended): three votes of the local player of `exampleClient`,
two by the button and one by a message carrying the same id, start nothing. -/
theorem rematch_start_witness :
    (runEvents exampleClient
      [.requestRematch, .requestRematch,
       .message (.rematchRequest (some "alice-id"))]).restarts = exampleClient.restarts :=
  (rematch_start exampleClient).2.2.2 (some "alice-id")
    [.requestRematch, .requestRematch, .message (.rematchRequest (some "alice-id"))]
    (by decide) (by decide) (by decide)

/-- C19: `requestRematch` is idempotent. When the id of the local player is in
the vote list, a call changes nothing: not the list, not the messages sent, no
other part of the client; calling it twice is calling it once; and along any
sequence of events on a vote list without duplicates the id is in the list at
most once. -/
theorem requestRematch_idempotent (c : Client) :
    (some c.gameState.session ∈ c.gameState.rematchRequested → requestRematch c = c) ∧
    requestRematch (requestRematch c) = requestRematch c ∧
    (∀ events : List ClientEvent, c.gameState.rematchRequested.Nodup →
      (runEvents c events).gameState.rematchRequested.count (some c.gameState.session) ≤ 1) := by
  have h1 : ∀ c0 : Client, some c0.gameState.session ∈ c0.gameState.rematchRequested →
      requestRematch c0 = c0 := by
    intro c0 hm
    rcases requestRematch_cases c0 with ⟨-, h⟩ | ⟨-, hn, -⟩
    · exact h
    · exact absurd hm hn
  refine ⟨h1 c, ?_, ?_⟩
  · rcases requestRematch_cases c with ⟨-, h⟩ | ⟨-, -, lb, h⟩
    · rw [h, h]
    · rw [h]
      apply h1
      show some c.gameState.session ∈ c.gameState.rematchRequested ++ [some c.gameState.session]
      simp
  · intro events hd
    exact count_le_one_of_nodup _ _ ((runEvents_votes events c).2 hd)

/-- Witness of C19: on the finished match of `wonClient`, a second call of
`requestRematch` changes nothing. -/
theorem requestRematch_idempotent_witness :
    requestRematch (requestRematch wonClient) = requestRematch wonClient :=
  (requestRematch_idempotent (requestRematch wonClient)).1 (by decide)

/-- Counterexample to C20 as stated: on the finished match of `wonClient`, won
by the last move of X, the vote of the opponent followed by the local vote
leaves both ids in the list and starts nothing; and when the local vote is
followed by that of the opponent, the restarted game has `currentPlayer` O. -/
theorem rematch_successor_counterexample :
    wonClient.gameState.isGameOver = true ∧
    (runEvents wonClient
      [.message (.rematchRequest (some "bob-id")), .requestRematch]).restarts = 0 ∧
    (runEvents wonClient
      [.message (.rematchRequest (some "bob-id")), .requestRematch]).gameState.rematchRequested =
      [some "bob-id", some "alice-id"] ∧
    (runEvents wonClient
      [.message (.rematchRequest (some "bob-id")), .requestRematch]).gameState.isGameOver =
      true ∧
    (runEvents wonClient
      [.requestRematch, .message (.rematchRequest (some "bob-id"))]).restarts = 1 ∧
    (runEvents wonClient
      [.requestRematch, .message (.rematchRequest (some "bob-id"))]).gameState.currentPlayer =
      "O" := by
  decide

/-- C20 (amended): when the local player has voted and the vote of another id
arrives as a 'rematch_request' message, the client starts the successor game:
9 empty cells, an empty vote list, no winner, no winning line, the game not
over, and `myTurn` true exactly when the symbol of the client is X. A local
`requestRematch` starts nothing, whatever the list holds: it leaves board and
`isGameOver` as they are. -/
theorem rematch_successor (c : Client) (userId : Option String) :
    (some c.gameState.session ∈ c.gameState.rematchRequested →
      userId ≠ some c.gameState.session →
      (handleMatchData c (.rematchRequest userId)).gameState.board = List.replicate 9 "" ∧
      (handleMatchData c (.rematchRequest userId)).gameState.rematchRequested = [] ∧
      (handleMatchData c (.rematchRequest userId)).gameState.winner = none ∧
      (handleMatchData c (.rematchRequest userId)).gameState.winningLine = [] ∧
      (handleMatchData c (.rematchRequest userId)).gameState.isGameOver = false ∧
      (handleMatchData c (.rematchRequest userId)).gameState.myTurn =
        (c.gameState.mySymbol == "X") ∧
      (handleMatchData c (.rematchRequest userId)).restarts = c.restarts + 1) ∧
    ((requestRematch c).restarts = c.restarts ∧
      (requestRematch c).gameState.board = c.gameState.board ∧
      (requestRematch c).gameState.isGameOver = c.gameState.isGameOver) := by
  constructor
  · intro hlocal hu
    have h2 : 2 ≤ (addVote c.gameState.rematchRequested userId).length := by
      unfold addVote
      by_cases hc : c.gameState.rematchRequested.contains userId = true
      · rw [if_pos hc]
        exact two_le_length_of_mem _ _ _ ((contains_vote _ _).1 hc) hlocal hu
      · rw [if_neg hc, List.length_append, List.length_singleton]
        have := List.length_pos_of_mem hlocal
        omega
    rcases rematch_message_cases c userId with ⟨-, timers, handle, h⟩ | ⟨hlt, -⟩
    · rw [h]
      exact ⟨rfl, rfl, rfl, rfl, rfl, rfl, rfl⟩
    · omega
  · rcases requestRematch_cases c with ⟨-, h⟩ | ⟨-, -, lb, h⟩
    · rw [h]; exact ⟨rfl, rfl, rfl⟩
    · rw [h]; exact ⟨rfl, rfl, rfl⟩

/-- Witness of C20 (amended): on `wonClient` the local player has voted and the
vote of `bob-id` arrives; the board of the successor is empty. -/
theorem rematch_successor_witness :
    (handleMatchData (requestRematch wonClient)
      (.rematchRequest (some "bob-id"))).gameState.board = List.replicate 9 "" :=
  ((rematch_successor (requestRematch wonClient) (some "bob-id")).1
    (by decide) (by decide)).1

/-! ## The winning line of the web client -/

/-- C27: on a board over "", "X", "O" (in particular a 9-cell one),
`getWinningLine` returns a non-empty line exactly when `checkWinner` returns X
or O; the line is then one of the 8 triples and its three cells hold the mark
`checkWinner` returns; on a draw and on an ongoing board it returns `[]`. The
board `[X,X,X,"","","","","",""]` gives the line `[0,1,2]` and the mark X. -/
theorem getWinningLine_spec (board : List String)
    (hcells : ∀ c ∈ board, c = "" ∨ c = "X" ∨ c = "O") :
    (getWinningLine board ≠ [] ↔
      ∃ m, (m = "X" ∨ m = "O") ∧ checkWinner board = some m) ∧
    (getWinningLine board ≠ [] →
      getWinningLine board ∈ winPatterns ∧
      ∃ m, checkWinner board = some m ∧ ∀ i ∈ getWinningLine board, board[i]? = some m) ∧
    (checkWinner board = some "draw" → getWinningLine board = []) ∧
    (checkWinner board = none → getWinningLine board = []) ∧
    getWinningLine ["X", "X", "X", "", "", "", "", "", ""] = [0, 1, 2] ∧
    checkWinner ["X", "X", "X", "", "", "", "", "", ""] = some "X" := by
  cases hf : winPatterns.find? (checkWinnerTest board) with
  | some p =>
    obtain ⟨hp, m, hm, hres, hall⟩ := checkWinner_of_find board p hf
    have hline : getWinningLine board = p := by simp only [getWinningLine, hf]
    obtain ⟨a, b, c, hp3, -⟩ := winPatterns_triple p hp
    have hne : p ≠ [] := by rw [hp3]; simp
    have hmem : m ∈ board := by
      rw [hp3] at hall
      exact List.getElem?_mem (hall a (by simp))
    have hxo : m = "X" ∨ m = "O" := by
      rcases hcells m hmem with h | h | h
      · exact absurd h hm
      · exact Or.inl h
      · exact Or.inr h
    rw [hline]
    refine ⟨⟨fun _ => ⟨m, hxo, hres⟩, fun _ => hne⟩, fun _ => ⟨hp, m, hres, hall⟩, ?_, ?_,
      by decide, by decide⟩
    · intro h
      rw [hres] at h
      simp only [Option.some.injEq] at h
      subst h
      rcases hxo with h | h <;> exact absurd h (by decide)
    · intro h
      rw [hres] at h
      exact absurd h (by simp)
  | none =>
    have hline : getWinningLine board = [] := by simp only [getWinningLine, hf]
    have hres : checkWinner board =
        if board.all (fun cell => cell != "") then some "draw" else none := by
      simp only [checkWinner, hf]
    rw [hline]
    refine ⟨⟨fun h => absurd rfl h, ?_⟩, fun h => absurd rfl h, fun _ => rfl, fun _ => rfl,
      by decide, by decide⟩
    rintro ⟨m, hm, h⟩
    rw [hres] at h
    split_ifs at h
    simp only [Option.some.injEq] at h
    subst h
    rcases hm with h | h <;> exact absurd h (by decide)

/-- Witness of C27: the winning line of a board won by O on the diagonal 2-4-6. -/
theorem getWinningLine_spec_witness :
    getWinningLine ["X", "X", "O", "X", "O", "", "O", "", ""] ∈ winPatterns ∧
    ∃ m, checkWinner ["X", "X", "O", "X", "O", "", "O", "", ""] = some m ∧
      ∀ i ∈ getWinningLine ["X", "X", "O", "X", "O", "", "O", "", ""],
        ["X", "X", "O", "X", "O", "", "O", "", ""][i]? = some m :=
  (getWinningLine_spec ["X", "X", "O", "X", "O", "", "O", "", ""] (by decide)).2.1 (by decide)

/-! ## Votes on an unfinished match -/

/-- Counterexample to C21 as stated: on `exampleClient` the game is not over;
a local `requestRematch` nevertheless records the vote and sends the rematch
message, and a 'rematch_request' message records its id; the two together
restart the game and empty the board. -/
theorem unfinished_vote_counterexample :
    exampleClient.gameState.isGameOver = false ∧
    (requestRematch exampleClient).gameState.rematchRequested = [some "alice-id"] ∧
    (requestRematch exampleClient).sent = [⟨"match-1", 1, .rematchRequest "alice-id"⟩] ∧
    (handleMatchData exampleClient (.rematchRequest (some "bob-id"))).gameState.rematchRequested =
      [some "bob-id"] ∧
    (handleMatchData (requestRematch exampleClient)
      (.rematchRequest (some "bob-id"))).gameState.board = List.replicate 9 "" := by
  decide

/-- C21 (amended): the votes on a match that is not over are handled like any
other. With `isGameOver` false, a local `requestRematch` with a match id and no
vote of its own in the list appends the session user id and, with a socket,
sends one rematch message, changing nothing else; a 'rematch_request' message
that leaves fewer than two votes only adds its id to the list; and one that
brings the list to two votes runs `restartGame`, which empties the board. -/
theorem unfinished_vote (c : Client) (hnot : c.gameState.isGameOver = false) :
    (truthy c.gameState.matchId = true →
      some c.gameState.session ∉ c.gameState.rematchRequested →
      requestRematch c =
        { c with
          gameState := { c.gameState with
            rematchRequested := c.gameState.rematchRequested ++ [some c.gameState.session] }
          sent := if c.socket then
              c.sent ++ [⟨c.gameState.matchId.getD "", 1, .rematchRequest c.gameState.session⟩]
            else c.sent }) ∧
    (∀ userId, (addVote c.gameState.rematchRequested userId).length < 2 →
      handleMatchData c (.rematchRequest userId) =
        { c with gameState := { c.gameState with
            rematchRequested := addVote c.gameState.rematchRequested userId } }) ∧
    (∀ userId, 2 ≤ (addVote c.gameState.rematchRequested userId).length →
      (handleMatchData c (.rematchRequest userId)).restarts = c.restarts + 1 ∧
      (handleMatchData c (.rematchRequest userId)).gameState.board = List.replicate 9 "" ∧
      (handleMatchData c (.rematchRequest userId)).gameState.rematchRequested = []) := by
  refine ⟨?_, ?_, ?_⟩
  · intro hm hn
    unfold requestRematch
    rw [if_neg (by
      intro h
      rcases h with h | h
      · exact h hm
      · exact hn ((contains_vote _ _).1 h))]
    simp only []
    by_cases hs : c.socket = true
    · rw [if_pos hs, if_pos hs]
      exact (updateGameStatus_eq _).2 hnot
    · rw [if_neg hs, if_neg hs]
      exact (updateGameStatus_eq _).2 hnot
  · intro userId hlt
    rw [handleMatchData_rematch, if_neg (by omega)]
    exact (updateGameStatus_eq _).2 hnot
  · intro userId h2
    rcases rematch_message_cases c userId with ⟨-, timers, handle, h⟩ | ⟨hlt, -⟩
    · rw [h]; exact ⟨rfl, rfl, rfl⟩
    · omega

/-- Witness of C21 (amended): the local vote on the unfinished `exampleClient`. -/
theorem unfinished_vote_witness :
    requestRematch exampleClient =
      { exampleClient with
        gameState := { exampleClient.gameState with
          rematchRequested :=
            exampleClient.gameState.rematchRequested ++ [some exampleClient.gameState.session] }
        sent := if exampleClient.socket then
            exampleClient.sent ++
              [⟨exampleClient.gameState.matchId.getD "", 1,
                .rematchRequest exampleClient.gameState.session⟩]
          else exampleClient.sent } :=
  (unfinished_vote exampleClient rfl).1 (by decide) (by decide)

/-! ## The clocks of the timed mode -/

/-- Reading a key after rewriting every entry of that key. -/
theorem getKey_map_same (entries : List (String × Int)) (key : String) (value : Int)
    (h : entries.any (fun e => e.1 == key) = true) :
    getKey (entries.map (fun e => if e.1 == key then (key, value) else e)) key = some value := by
  induction entries with
  | nil => simp at h
  | cons e es ih =>
    by_cases he : (e.1 == key) = true
    · have hek : e.1 = key := by simpa using he
      simp [getKey, List.find?_cons, hek]
    · have hes : es.any (fun e => e.1 == key) = true := by
        simpa [List.any_cons, he] using h
      have := ih hes
      simp only [getKey, List.map_cons, if_neg he, List.find?_cons] at this ⊢
      rw [show (e.1 == key) = false from by simpa using he]
      exact this

/-- Reading another key after rewriting every entry of a key. -/
theorem getKey_map_other (entries : List (String × Int)) (key other : String) (value : Int)
    (h : other ≠ key) :
    getKey (entries.map (fun e => if e.1 == key then (key, value) else e)) other =
      getKey entries other := by
  induction entries with
  | nil => rfl
  | cons e es ih =>
    simp only [getKey, List.map_cons, List.find?_cons] at ih ⊢
    by_cases he : (e.1 == key) = true
    · have hek : e.1 = key := by simpa using he
      have h1 : (key == other) = false := by simpa using (Ne.symm h)
      have h2 : (e.1 == other) = false := by rw [hek]; exact h1
      rw [if_pos he]
      simp only [h1, h2]
      exact ih
    · rw [if_neg he]
      cases h3 : (e.1 == other) with
      | true => rfl
      | false => exact ih

/-- An assignment `object[key] = value` is read back, and leaves the other keys alone. -/
theorem getKey_setKey (entries : List (String × Int)) (key : String) (value : Int) :
    getKey (setKey entries key value) key = some value ∧
    ∀ other, other ≠ key → getKey (setKey entries key value) other = getKey entries other := by
  unfold setKey
  by_cases h : entries.any (fun e => e.1 == key) = true
  · rw [if_pos h]
    exact ⟨getKey_map_same entries key value h, fun other ho =>
      getKey_map_other entries key other value ho⟩
  · rw [if_neg h]
    have hfind : entries.find? (fun e => e.1 == key) = none := by
      rw [List.find?_eq_none]
      intro e he hk
      exact h (List.any_eq_true.2 ⟨e, he, hk⟩)
    constructor
    · simp only [getKey, List.find?_append, hfind, Option.none_or]
      simp
    · intro other ho
      have hlast : [(key, value)].find? (fun e => e.1 == other) = none := by
        simp [Ne.symm ho]
      simp only [getKey, List.find?_append, hlast, Option.or_none]

/-- In timed mode the timer block sets the clock of the player who is not to
move to the budget. -/
theorem switchTimers_timed (c : Client) (t : Timers) (hmode : c.gameState.gameMode = "timed")
    (ht : c.gameState.timers = some t) :
    (switchTimers c).gameState.timers = some { t with
      remaining := (setKey t.remaining
        (if (if c.gameState.myTurn = true then c.gameState.session else c.gameState.opponent.id) =
            c.gameState.session then c.gameState.opponent.id else c.gameState.session)
        t.perMoveMs) } := by
  unfold switchTimers
  rw [ht]
  simp only []
  rw [if_pos hmode]
  by_cases hturn : c.gameState.myTurn = true
  · rw [if_pos hturn]
    obtain ⟨handle, hh⟩ := startTimer_eq
      { c with gameState := { c.gameState with
        timers := some { t with remaining := (setKey t.remaining
          (if (if c.gameState.myTurn = true then c.gameState.session
              else c.gameState.opponent.id) = c.gameState.session
            then c.gameState.opponent.id else c.gameState.session) t.perMoveMs) } } }
    rw [hh]
  · rw [if_neg hturn]

/-- The timers after a 'move' or 'move_made' message with a position in 1..9 are
those the timer block leaves. -/
theorem handleMatchData_move_timers (c : Client) (position : Int) (player : String)
    (hpos : 1 ≤ position ∧ position ≤ 9) (m : Message)
    (hm : m = .move (some position) player ∨ m = .moveMade (some position) player) :
    (handleMatchData c m).gameState.timers =
      (switchTimers { c with gameState := { c.gameState with
        board := c.gameState.board.set (position - 1).toNat player
        currentPlayer := if player = "X" then "O" else "X"
        myTurn := (if player = "X" then "O" else "X") == c.gameState.mySymbol } }).gameState.timers
    := by
  have happly : applyMoveMessage c (some position) player =
      some (checkGameOver (switchTimers { c with gameState := { c.gameState with
        board := c.gameState.board.set (position - 1).toNat player
        currentPlayer := if player = "X" then "O" else "X"
        myTurn := (if player = "X" then "O" else "X") == c.gameState.mySymbol } })) := by
    unfold applyMoveMessage
    simp only []
    rw [if_pos hpos]
  have hcheck : ∀ c0 : Client, (checkGameOver c0).gameState.timers = c0.gameState.timers := by
    intro c0
    obtain ⟨over, winner, line, handle, h⟩ := checkGameOver_eq c0
    rw [h]
  have hstatus : ∀ c0 : Client, (updateGameStatus c0).gameState.timers = c0.gameState.timers := by
    intro c0
    obtain ⟨lb, h⟩ := (updateGameStatus_eq c0).1
    rw [h]
  rcases hm with rfl | rfl
  · unfold handleMatchData
    simp only [happly]
    rw [hstatus, hstatus, hcheck]
  · unfold handleMatchData
    simp only [happly]
    rw [hstatus, hcheck]

/-- C22: in timed mode, with the client playing X or O against an opponent of
another id, a 'move' or 'move_made' message with a position in 1..9 for a move
of player X or O leaves the clock of the player who moved (the client when the
mark of the message is its own, the opponent otherwise) at the budget
`perMoveMs`, whatever it was, and the clock of the other player, like the
budget itself, as it was. -/
theorem move_replenishes (c : Client) (t : Timers) (position : Int) (player : String)
    (hmode : c.gameState.gameMode = "timed") (ht : c.gameState.timers = some t)
    (hpos : 1 ≤ position ∧ position ≤ 9) (hplayer : player = "X" ∨ player = "O")
    (hsym : c.gameState.mySymbol = "X" ∨ c.gameState.mySymbol = "O")
    (hids : c.gameState.session ≠ c.gameState.opponent.id) (m : Message)
    (hm : m = .move (some position) player ∨ m = .moveMade (some position) player) :
    ∃ t1, (handleMatchData c m).gameState.timers = some t1 ∧ t1.perMoveMs = t.perMoveMs ∧
      getKey t1.remaining
        (if player = c.gameState.mySymbol then c.gameState.session
          else c.gameState.opponent.id) = some t.perMoveMs ∧
      getKey t1.remaining
        (if player = c.gameState.mySymbol then c.gameState.opponent.id
          else c.gameState.session) =
        getKey t.remaining
          (if player = c.gameState.mySymbol then c.gameState.opponent.id
            else c.gameState.session) := by
  have hsw := switchTimers_timed
    { c with gameState := { c.gameState with
      board := c.gameState.board.set (position - 1).toNat player
      currentPlayer := if player = "X" then "O" else "X"
      myTurn := (if player = "X" then "O" else "X") == c.gameState.mySymbol } } t hmode ht
  rw [handleMatchData_move_timers c position player hpos m hm, hsw]
  refine ⟨_, rfl, rfl, ?_⟩
  simp only []
  have hXO : ("X" : String) ≠ "O" := by decide
  have hturn : ((if player = "X" then "O" else "X") == c.gameState.mySymbol) =
      !decide (player = c.gameState.mySymbol) := by
    rcases hplayer with hp | hp <;> rcases hsym with hs | hs <;> rw [hp, hs] <;> decide
  simp only [hturn]
  by_cases hmine : player = c.gameState.mySymbol
  · simp only [hmine, decide_True, Bool.not_true, Bool.false_eq_true, if_false, if_true,
      if_neg (Ne.symm hids)]
    obtain ⟨h1, h2⟩ := getKey_setKey t.remaining c.gameState.session t.perMoveMs
    exact ⟨h1, h2 _ (Ne.symm hids)⟩
  · simp only [hmine, decide_False, Bool.not_false, if_true, if_false]
    obtain ⟨h1, h2⟩ := getKey_setKey t.remaining c.gameState.opponent.id t.perMoveMs
    exact ⟨h1, h2 _ hids⟩

/-- Witness of C22: on `timedClient` the opponent, O, moves to cell 6; their
clock goes from 0 back to 30000 and the clock of the client stays at 12000. -/
theorem move_replenishes_witness :
    ∃ t1, (handleMatchData timedClient (.move (some 6) "O")).gameState.timers = some t1 ∧
      t1.perMoveMs = 30000 ∧
      getKey t1.remaining
        (if "O" = timedClient.gameState.mySymbol then timedClient.gameState.session
          else timedClient.gameState.opponent.id) = some 30000 ∧
      getKey t1.remaining
        (if "O" = timedClient.gameState.mySymbol then timedClient.gameState.opponent.id
          else timedClient.gameState.session) =
        getKey [("alice-id", 12000), ("bob-id", 0)]
          (if "O" = timedClient.gameState.mySymbol then timedClient.gameState.opponent.id
            else timedClient.gameState.session) :=
  move_replenishes timedClient ⟨30000, [("alice-id", 12000), ("bob-id", 0)]⟩ 6 "O" rfl rfl
    (by decide) (by decide) (by decide) (by decide) (.move (some 6) "O") (Or.inl rfl)

/-- C23 (the code does otherwise): on `timedClient` it is the turn of the
opponent, whose clock is at 0; the tick ends the game and records the user id
of the client as winner, which `updateGameStatus` compares with the symbol X of
the client, so the client of the player who did not run out of time is given
a loss. Before expiry a tick lowers the clock of the player to move by 100, or
to 0, and leaves the other clock alone. -/
theorem timer_expiry_scored_as_loss :
    timedClient.gameState.myTurn = false ∧
    timedClient.gameState.mySymbol = "X" ∧
    timedClient.gameState.timers = some ⟨30000, [("alice-id", 12000), ("bob-id", 0)]⟩ ∧
    (timerTick timedClient).gameState.isGameOver = true ∧
    (timerTick timedClient).gameState.winner = some "alice-id" ∧
    timedClient.gameState.leaderboard = [⟨"Alice", 0, 0, 0⟩] ∧
    (timerTick timedClient).gameState.leaderboard = [⟨"Alice", 0, 1, -5⟩] ∧
    (timerTick { timedClient with gameState := { timedClient.gameState with
        timers := some ⟨30000, [("alice-id", 12000), ("bob-id", 250)]⟩ } }).gameState.timers =
      some ⟨30000, [("alice-id", 12000), ("bob-id", 150)]⟩ ∧
    (timerTick { timedClient with gameState := { timedClient.gameState with
        timers := some ⟨30000, [("alice-id", 12000), ("bob-id", 40)]⟩ } }).gameState.timers =
      some ⟨30000, [("alice-id", 12000), ("bob-id", 0)]⟩ := by
  decide

/-! ## The position of a move request -/

/-- The board after the body of a 'move' or 'move_made' message with a position
in 1..9: the cell `position - 1` holds the mark of the message. -/
theorem applyMoveMessage_board (c : Client) (position : Int) (player : String)
    (hpos : 1 ≤ position ∧ position ≤ 9) :
    ∃ c1, applyMoveMessage c (some position) player = some c1 ∧
      c1.gameState.board = c.gameState.board.set (position - 1).toNat player := by
  unfold applyMoveMessage
  simp only []
  rw [if_pos hpos]
  refine ⟨_, rfl, ?_⟩
  obtain ⟨timers, handle, hs⟩ := switchTimers_eq
    { c with gameState := { c.gameState with
      board := c.gameState.board.set (position - 1).toNat player
      currentPlayer := if player = "X" then "O" else "X"
      myTurn := (if player = "X" then "O" else "X") == c.gameState.mySymbol } }
  rw [hs]
  obtain ⟨over, winner, line, handle2, hg⟩ := checkGameOver_eq
    { c with
      gameState := { c.gameState with
        board := c.gameState.board.set (position - 1).toNat player
        currentPlayer := if player = "X" then "O" else "X"
        myTurn := (if player = "X" then "O" else "X") == c.gameState.mySymbol
        timers := timers }
      timerInterval := handle }
  rw [hg]

/-- Counterexample to C26 as stated: a click on the empty cell 2 of
`exampleClient` sends position 3, not 2; the server class, given that position
on the same board, finds cell 3 taken, and given the position 9 sent for a
click on cell 8 it answers 'Invalid position'. -/
theorem click_position_counterexample :
    (exampleClient.makeMove 2).sent = [⟨"match-1", 1, .move 3 "X"⟩] ∧
    makeMove { exampleGame with board := [1, 1, 0, 2, 2, 0, 0, 0, 0] } 7 "alice" 3 =
      .error (.error "Position already taken") ∧
    (exampleClient.makeMove 8).sent = [⟨"match-1", 1, .move 9 "X"⟩] ∧
    makeMove { exampleGame with board := [1, 1, 0, 2, 2, 0, 0, 0, 0] } 7 "alice" 9 =
      .error (.error "Invalid position") := by
  decide

/-- C26 (amended): a legal click on cell `i` in 0..8 (own turn, game not over,
cell empty, a socket and a match that is not the bot game) makes the web
client send one request, with position `i + 1`, in 1..9. The 'move' handler of
the web client writes a message with that position into cell `i`. The server
class marks the cell whose index is the position it is given: cell `i` when
given `i + 1 - 1`, cell `i + 1` when given `i + 1` unchanged, and for `i = 8`
it then answers 'Invalid position'. -/
theorem click_position (c : Client) (i : Nat) (hi : i < 9)
    (hturn : c.gameState.myTurn = true) (hover : c.gameState.isGameOver = false)
    (hcell : c.gameState.board[i]? = some "") (hbot : c.gameState.matchId ≠ some "bot-game")
    (hsocket : c.socket = true) (hmatch : truthy c.gameState.matchId = true) :
    c.makeMove i =
      { c with sent := c.sent ++
          [⟨c.gameState.matchId.getD "", 1, .move ((i : Int) + 1) c.gameState.mySymbol⟩] } ∧
    (1 ≤ (i : Int) + 1 ∧ (i : Int) + 1 ≤ 9) ∧
    (∀ (c0 : Client) (player : String),
      ∃ c1, applyMoveMessage c0 (some ((i : Int) + 1)) player = some c1 ∧
        c1.gameState.board = c0.gameState.board.set i player) ∧
    (∀ (g : TicTacToeGame) (now : Nat) (playerId : String) (out : MoveOutcome),
      makeMove g now playerId ((i : Int) + 1 - 1) = .ok out →
      ∃ mover, g.players[g.currentPlayerIndex]? = some mover ∧
        out.game.board = g.board.set i mover.mark) ∧
    (∀ (g : TicTacToeGame) (now : Nat) (playerId : String) (out : MoveOutcome),
      makeMove g now playerId ((i : Int) + 1) = .ok out →
      ∃ mover, g.players[g.currentPlayerIndex]? = some mover ∧
        out.game.board = g.board.set (i + 1) mover.mark) ∧
    (i = 8 → ∀ (g : TicTacToeGame) (now : Nat) (playerId : String),
      g.state = GAME_STATE.IN_PROGRESS →
      makeMove g now playerId ((i : Int) + 1) = .error (.error "Invalid position")) := by
  refine ⟨?_, ⟨by omega, by omega⟩, ?_, ?_, ?_, ?_⟩
  · unfold Client.makeMove
    rw [if_neg (by simp [hturn, hover]), if_neg (by simp [hcell]), if_neg hbot,
      if_neg (by simp [hsocket, hmatch])]
  · intro c0 player
    obtain ⟨c1, h1, h2⟩ := applyMoveMessage_board c0 ((i : Int) + 1) player ⟨by omega, by omega⟩
    refine ⟨c1, h1, ?_⟩
    rw [h2]
    congr 1
    omega
  · intro g now playerId out hok
    obtain ⟨-, -, -, -, cur, hcur, -, rfl⟩ := (makeMove_eq_ok g now playerId _ out).1 hok
    refine ⟨cur, hcur, ?_⟩
    rw [acceptedOutcome_board]
    congr 1
    omega
  · intro g now playerId out hok
    obtain ⟨-, -, -, -, cur, hcur, -, rfl⟩ := (makeMove_eq_ok g now playerId _ out).1 hok
    refine ⟨cur, hcur, ?_⟩
    rw [acceptedOutcome_board]
    congr 1
  · intro h8 g now playerId hstate
    unfold makeMove
    rw [if_neg (by simp [hstate]), if_pos (by omega)]

/-- Witness of C26 (amended): the click on cell 2 of `exampleClient`. -/
theorem click_position_witness :
    exampleClient.makeMove 2 =
      { exampleClient with sent := exampleClient.sent ++
          [⟨exampleClient.gameState.matchId.getD "", 1,
            .move ((2 : Nat) + 1 : Int) exampleClient.gameState.mySymbol⟩] } :=
  (click_position exampleClient 2 (by decide) rfl rfl (by decide) (by decide) rfl
    (by decide)).1

/-! ## The dispatcher of the mobile client -/

/-- Counterexample to C24 as stated: with a handler registered under every
event name, a message of type 'error', 'rematch_request' or 'rematch_ready'
invokes no handler; the dispatcher only warns. -/
theorem handleMatchMessage_dispatch_counterexample :
    (handleMatchMessage (fun event => some event) ⟨"error", "code"⟩).invoked = [] ∧
    (handleMatchMessage (fun event => some event) ⟨"error", "code"⟩).warned = ["error"] ∧
    (handleMatchMessage (fun event => some event) ⟨"rematch_request", "playerId"⟩).invoked = [] ∧
    (handleMatchMessage (fun event => some event) ⟨"rematch_ready", "newMatchId"⟩).invoked = [] := by
  decide

/-- C24 (amended): with a handler registered under every event name, a message
whose type is match_joined, game_update, game_over, opponent_disconnected or
player_reconnected invokes exactly one handler with that message, the one
registered as matchJoined, gameUpdate, gameOver, opponentDisconnected or
playerReconnected, and warns of nothing; a message of any other type, such as
rematch_request, rematch_ready or error, invokes no handler and is only
reported by a warning. -/
theorem handleMatchMessage_dispatch {H : Type} (eventHandlers : EventHandlers H)
    (data : MatchMessage) (hall : ∀ event, ∃ handler, eventHandlers event = some handler) :
    (∀ pair ∈ [("match_joined", "matchJoined"), ("game_update", "gameUpdate"),
        ("game_over", "gameOver"), ("opponent_disconnected", "opponentDisconnected"),
        ("player_reconnected", "playerReconnected")],
      data.type = pair.1 →
      ∃ handler, eventHandlers pair.2 = some handler ∧
        (handleMatchMessage eventHandlers data).invoked = [(handler, data)] ∧
        (handleMatchMessage eventHandlers data).warned = []) ∧
    (data.type ∉ ["match_joined", "game_update", "game_over", "opponent_disconnected",
        "player_reconnected"] →
      (handleMatchMessage eventHandlers data).invoked = [] ∧
      (handleMatchMessage eventHandlers data).warned = [data.type]) := by
  constructor
  · intro pair hpair htype
    obtain ⟨handler, hh⟩ := hall pair.2
    refine ⟨handler, hh, ?_⟩
    simp only [List.mem_cons, List.mem_singleton, List.not_mem_nil, or_false] at hpair
    rcases hpair with rfl | rfl | rfl | rfl | rfl <;>
      simp only [] at htype hh <;>
      simp [handleMatchMessage, invokeHandler, htype, hh]
  · intro hnot
    simp only [List.mem_cons, List.mem_singleton, List.not_mem_nil, or_false, not_or] at hnot
    obtain ⟨h1, h2, h3, h4, h5⟩ := hnot
    simp [handleMatchMessage, h1, h2, h3, h4, h5]

/-- Witness of C24 (amended): every event name registered, a message of type
'match_joined'. -/
theorem handleMatchMessage_dispatch_witness :
    ∃ handler, (fun event => some event : EventHandlers String) "matchJoined" = some handler ∧
      (handleMatchMessage (fun event => some event) ⟨"match_joined", "state"⟩).invoked =
        [(handler, ⟨"match_joined", "state"⟩)] ∧
      (handleMatchMessage (fun event => some event : EventHandlers String)
        ⟨"match_joined", "state"⟩).warned = [] :=
  (handleMatchMessage_dispatch (fun event => some event) ⟨"match_joined", "state"⟩
    (fun event => ⟨event, rfl⟩)).1 ("match_joined", "matchJoined") (by simp) rfl

/-! ## A disconnected opponent on the mobile screen -/

/-- The effect sets nothing but `isMyTurn`. -/
theorem turnEffect_eq (s : GameScreen) : ∃ turn, turnEffect s = { s with isMyTurn := turn } := by
  obtain ⟨matchId, gameState, mySymbol, isMyTurn, isLoading, disconnected, requests, results⟩ := s
  unfold turnEffect
  cases gameState with
  | none => exact ⟨isMyTurn, rfl⟩
  | some gs =>
    simp only []
    by_cases h : truthy mySymbol = true
    · rw [if_pos h]
      exact ⟨_, rfl⟩
    · rw [if_neg h]
      exact ⟨isMyTurn, rfl⟩

/-- While the opponent is disconnected every cell is disabled and a press
leaves the screen as it is. -/
theorem pressCell_disconnected (s : GameScreen) (index : Nat)
    (h : s.opponentDisconnected = true) :
    cellDisabled s index = true ∧ pressCell s index = s := by
  have hd : cellDisabled s index = true := by simp [cellDisabled, h]
  refine ⟨hd, ?_⟩
  unfold pressCell
  rw [if_pos (Or.inr hd)]

/-- An event other than `playerReconnected` on a screen with a disconnected
opponent leaves the opponent disconnected and sends no request. -/
theorem apply_disconnected (s : GameScreen) (event : ScreenEvent)
    (h : s.opponentDisconnected = true) (hevent : event ≠ .playerReconnected) :
    (event.apply s).opponentDisconnected = true ∧ (event.apply s).requests = s.requests := by
  cases event with
  | matchJoined state your_symbol =>
    obtain ⟨turn, ht⟩ := turnEffect_eq
      { s with gameState := state, mySymbol := your_symbol, isLoading := false }
    simp only [ScreenEvent.apply]
    rw [ht]
    exact ⟨h, rfl⟩
  | gameUpdate state game_status =>
    obtain ⟨turn, ht⟩ := turnEffect_eq
      { s with
        gameState := state
        results := if game_status = "win" ∨ game_status = "draw" then s.results ++ [state]
          else s.results }
    simp only [ScreenEvent.apply]
    rw [ht]
    exact ⟨h, rfl⟩
  | gameOver state =>
    obtain ⟨turn, ht⟩ := turnEffect_eq
      { s with gameState := state, results := s.results ++ [state] }
    simp only [ScreenEvent.apply]
    rw [ht]
    exact ⟨h, rfl⟩
  | opponentDisconnected => exact ⟨rfl, rfl⟩
  | playerReconnected => exact absurd rfl hevent
  | press cellIndex =>
    simp only [ScreenEvent.apply]
    rw [(pressCell_disconnected s cellIndex h).2]
    exact ⟨h, rfl⟩
  | moveFailed previous =>
    obtain ⟨turn, ht⟩ := turnEffect_eq { s with gameState := some previous, isMyTurn := true }
    simp only [ScreenEvent.apply]
    rw [ht]
    exact ⟨h, rfl⟩

/-- Events without a `playerReconnected` on a screen with a disconnected
opponent leave the opponent disconnected and send no request. -/
theorem runScreen_disconnected (events : List ScreenEvent) (s : GameScreen)
    (h : s.opponentDisconnected = true) (hevents : ScreenEvent.playerReconnected ∉ events) :
    (runScreen s events).opponentDisconnected = true ∧
      (runScreen s events).requests = s.requests := by
  induction events generalizing s with
  | nil => exact ⟨h, rfl⟩
  | cons event rest ih =>
    have hevent : event ≠ .playerReconnected := fun he => hevents (he ▸ List.mem_cons_self _ _)
    have hrest : ScreenEvent.playerReconnected ∉ rest :=
      fun hr => hevents (List.mem_cons_of_mem _ hr)
    obtain ⟨h1, h2⟩ := apply_disconnected s event h hevent
    obtain ⟨h3, h4⟩ := ih (event.apply s) h1 hrest
    exact ⟨h3, h4.trans h2⟩

/-- C25: the events `opponentDisconnected` and `playerReconnected` set only the
flag `opponentDisconnected` of the mobile screen, leaving the board, the turn,
the requests and the scheduled results as they are. After an
`opponentDisconnected`, through any events without a `playerReconnected`, every
cell is disabled, a press changes nothing and no move request is sent. After a
`playerReconnected` on a loaded screen, a press on an empty cell on the turn of
the local player sends the request for that cell. -/
theorem disconnect_pauses_moves (s : GameScreen) :
    ScreenEvent.apply s .opponentDisconnected = { s with opponentDisconnected := true } ∧
    ScreenEvent.apply s .playerReconnected = { s with opponentDisconnected := false } ∧
    (∀ (events : List ScreenEvent) (index : Nat), ScreenEvent.playerReconnected ∉ events →
      cellDisabled (runScreen (ScreenEvent.apply s .opponentDisconnected) events) index = true ∧
      pressCell (runScreen (ScreenEvent.apply s .opponentDisconnected) events) index =
        runScreen (ScreenEvent.apply s .opponentDisconnected) events ∧
      (runScreen (ScreenEvent.apply s .opponentDisconnected) events).requests = s.requests ∧
      (runScreen s (.opponentDisconnected :: events ++ [.press index])).requests =
        s.requests) ∧
    (∀ (gs : MatchState) (index : Nat), s.isLoading = false → s.isMyTurn = true →
      s.gameState = some gs → gs.board[index]? = some (some "") →
      cellDisabled (ScreenEvent.apply s .playerReconnected) index = false ∧
      (pressCell (ScreenEvent.apply s .playerReconnected) index).requests =
        s.requests ++ [(s.matchId, index)]) := by
  refine ⟨rfl, rfl, ?_, ?_⟩
  · intro events index hevents
    obtain ⟨h1, h2⟩ := runScreen_disconnected events (ScreenEvent.apply s .opponentDisconnected)
      rfl hevents
    obtain ⟨h3, h4⟩ := pressCell_disconnected _ index h1
    refine ⟨h3, h4, h2, ?_⟩
    show (runScreen (ScreenEvent.apply s .opponentDisconnected) (events ++ [.press index])).requests
      = s.requests
    rw [runScreen, List.foldl_append]
    show (pressCell (runScreen (ScreenEvent.apply s .opponentDisconnected) events) index).requests
      = s.requests
    rw [h4]
    exact h2
  · intro gs index hload hturn hstate hcell
    have hd : cellDisabled (ScreenEvent.apply s .playerReconnected) index = false := by
      simp [cellDisabled, ScreenEvent.apply, hturn, hstate, hcell]
    refine ⟨hd, ?_⟩
    unfold pressCell
    rw [if_neg (by rw [hd]; simp [ScreenEvent.apply, hload])]
    obtain ⟨turn, ht⟩ := turnEffect_eq
      (handleCellPress (ScreenEvent.apply s .playerReconnected) index)
    rw [ht]
    simp [handleCellPress, ScreenEvent.apply, hstate, hturn]

/-- Witness of C25: on `exampleScreen` a press on cell 1 after a disconnect and
a game update sends nothing, and after a reconnection it sends the request for
cell 1. -/
theorem disconnect_pauses_moves_witness :
    (runScreen exampleScreen (.opponentDisconnected ::
      [.gameUpdate exampleScreen.gameState "", .press 4] ++ [.press 1])).requests =
        exampleScreen.requests ∧
    (pressCell (ScreenEvent.apply exampleScreen .playerReconnected) 1).requests =
      exampleScreen.requests ++ [(exampleScreen.matchId, 1)] :=
  ⟨((disconnect_pauses_moves exampleScreen).2.2.1
      [.gameUpdate exampleScreen.gameState "", .press 4] 1 (by decide)).2.2.2,
    ((disconnect_pauses_moves exampleScreen).2.2.2 _ 1 rfl rfl rfl (by decide)).2⟩

/-! ## The static file server -/

/-- C28 (the code does otherwise): with the server in `/srv/app`, the request
URL `/../public_backup/secret.txt` passes the test `startsWith(PUBLIC_DIR)`,
which compares characters, and the handler reads
`/srv/app/public_backup/secret.txt`, a file of a sibling directory outside
`/srv/app/public`. A URL that leaves through another name is answered 403, and
a URL without `..` is read inside the directory. -/
theorem requestHandler_reads_sibling_directory :
    PUBLIC_DIR "/srv/app" = "/srv/app/public" ∧
    requestHandler "/srv/app" "/../public_backup/secret.txt" =
      .readFile "/srv/app/public_backup/secret.txt" ∧
    insideDirectory (PUBLIC_DIR "/srv/app") "/srv/app/public_backup/secret.txt" = false ∧
    requestHandler "/srv/app" "/../server.js" = .forbidden ∧
    requestHandler "/srv/app" "/" = .readFile "/srv/app/public/index.html" ∧
    requestHandler "/srv/app" "/css/../game.js" = .readFile "/srv/app/public/game.js" ∧
    insideDirectory (PUBLIC_DIR "/srv/app") "/srv/app/public/game.js" = true := by
  decide

/-! ## The marks of reachable games -/

/-- Writing `new` over a cell that does not hold `target` adds one to the
count of `target` exactly when `new` is `target`. -/
theorem count_set_of_ne (board : List Nat) (k old new target : Nat)
    (hk : board[k]? = some old) (hold : old ≠ target) :
    (board.set k new).count target = board.count target + (if new = target then 1 else 0) := by
  induction board generalizing k with
  | nil => simp at hk
  | cons a rest ih =>
    cases k with
    | zero =>
      simp only [List.getElem?_cons_zero, Option.some.injEq] at hk
      subst hk
      have h1 : (a == target) = false := by simpa using hold
      by_cases h2 : new = target
      · subst h2
        simp [List.count_cons, h1]
      · have h3 : (new == target) = false := by simpa using h2
        simp [List.count_cons, h1, h2, h3]
    | succ k =>
      simp only [List.getElem?_cons_succ] at hk
      simp only [List.set_cons_succ, List.count_cons]
      rw [ih k hk]
      omega

/-- A board of 9 cells with a complete triple of `m` holds at least three `m`. -/
theorem three_le_count_of_line (board : List Nat) (p : List Nat) (m : Nat)
    (hlen : board.length = 9) (hp : p ∈ winPatterns) (hline : lineOf board p m) :
    3 ≤ board.count m := by
  match board, hlen with
  | [a, b, c, d, e, f, g, h, i], _ =>
    simp only [winPatterns, List.mem_cons, List.mem_singleton, List.not_mem_nil, or_false] at hp
    rcases hp with rfl | rfl | rfl | rfl | rfl | rfl | rfl | rfl <;>
      simp [lineOf] at hline <;>
      obtain ⟨h1, h2, h3⟩ := hline <;>
      subst h1 h2 h3 <;>
      simp [List.count_cons] <;>
      omega

/-- On a board of NONE, X and O the non-empty cells are the X and the O. -/
theorem markCount_eq_counts (board : List Nat)
    (hcells : ∀ c ∈ board, c = MARKS.NONE ∨ c = MARKS.X ∨ c = MARKS.O) :
    markCount board = board.count MARKS.X + board.count MARKS.O := by
  induction board with
  | nil => rfl
  | cons a rest ih =>
    have hrest := ih (fun c hc => hcells c (List.mem_cons_of_mem _ hc))
    unfold markCount at hrest ⊢
    rw [List.countP_cons, hrest, List.count_cons, List.count_cons]
    rcases hcells a (List.mem_cons_self _ _) with h | h | h <;>
      subst h <;> simp [MARKS.NONE, MARKS.X, MARKS.O] <;> omega

/-- A fresh game is balanced. -/
theorem balanced_new (now : Nat) : Balanced (TicTacToeGame.new now) where
  no_line := by
    intro _ p hp m hm hline
    obtain ⟨a, b, c, rfl, ha, -, -⟩ := winPatterns_triple p hp
    have h := hline a (List.mem_cons_self _ _)
    have hget : (TicTacToeGame.new now).board[a]? = some MARKS.NONE := by
      interval_cases a <;> rfl
    rw [hget] at h
    exact hm (Option.some.inj h).symm
  not_full := by
    intro _ h
    exact h MARKS.NONE (by simp [TicTacToeGame.new]) rfl
  turn := by
    intro _
    simp [TicTacToeGame.new, MARKS.X, MARKS.O, MARKS.NONE]
  balance := Or.inl (by simp [TicTacToeGame.new, MARKS.X, MARKS.O, MARKS.NONE])
  finished := by
    intro h
    simp [TicTacToeGame.new, GAME_STATE.WAITING_FOR_PLAYERS, GAME_STATE.FINISHED] at h

/-- Method `addPlayer` keeps a well-formed game balanced. -/
theorem balanced_addPlayer (g g1 : TicTacToeGame) (userId username : String) (player : Player)
    (hw : WellFormed g) (hb : Balanced g) (hadd : addPlayer g userId username = .ok (g1, player)) :
    Balanced g1 := by
  obtain ⟨hlt, -, rfl⟩ := (addPlayer_eq_ok g g1 userId username player).1 hadd
  have hnf : g.state ≠ GAME_STATE.FINISHED := by
    intro h
    have hne : g.state ≠ GAME_STATE.WAITING_FOR_PLAYERS := by
      rw [h]
      decide
    have := hw.started hne
    omega
  exact
    { no_line := fun _ => hb.no_line hnf
      not_full := fun _ => hb.not_full hnf
      turn := fun _ => hb.turn hnf
      balance := hb.balance
      finished := by
        intro h
        simp only [] at h
        by_cases h2 : g.players.length + 1 = 2
        · rw [if_pos h2] at h
          exact absurd h (by decide)
        · rw [if_neg h2] at h
          exact absurd h hnf }

/-- An accepted move keeps a well-formed game balanced. -/
theorem balanced_acceptedOutcome (g : TicTacToeGame) (now : Nat) (cur : Player)
    (position : Int) (hw : WellFormed g) (hb : Balanced g)
    (hstate : g.state = GAME_STATE.IN_PROGRESS) (hpos : 0 ≤ position)
    (hcell : g.board[position.toNat]? = some MARKS.NONE)
    (hcur : g.players[g.currentPlayerIndex]? = some cur) :
    Balanced (acceptedOutcome g now cur position).game := by
  have hnf : g.state ≠ GAME_STATE.FINISHED := by
    rw [hstate]
    decide
  have hturn := hb.turn hnf
  have hmark := hw.mark_current cur hcur
  have hX : MARKS.NONE ≠ MARKS.X := by decide
  have hO : MARKS.NONE ≠ MARKS.O := by decide
  have hXO : MARKS.X ≠ MARKS.O := by decide
  have cX := count_set_of_ne g.board position.toNat MARKS.NONE cur.mark MARKS.X hcell hX
  have cO := count_set_of_ne g.board position.toNat MARKS.NONE cur.mark MARKS.O hcell hO
  have hbalance : (g.board.set position.toNat cur.mark).count MARKS.X =
        (g.board.set position.toNat cur.mark).count MARKS.O ∨
      (g.board.set position.toNat cur.mark).count MARKS.X =
        (g.board.set position.toNat cur.mark).count MARKS.O + 1 := by
    rw [cX, cO]
    rcases hmark with ⟨h0, hm⟩ | ⟨h1, hm⟩
    · rw [hm, if_pos rfl, if_neg hXO]
      right
      omega
    · rw [hm, if_neg (Ne.symm hXO), if_pos rfl]
      left
      omega
  have hfin : GAME_STATE.FINISHED ≠ GAME_STATE.FINISHED → False := fun h => h rfl
  rcases acceptedOutcome_cases g now cur position hpos with
    ⟨q, hq, -, hline, hgame⟩ | ⟨-, hfull, hgame⟩ | ⟨hno, hnfull, hgame⟩
  · rw [hgame]
    have hne : cur.mark ≠ MARKS.NONE := by
      rcases hmark with ⟨-, hm⟩ | ⟨-, hm⟩ <;> rw [hm] <;> decide
    exact
      { no_line := fun h => absurd rfl h
        not_full := fun h => absurd rfl h
        turn := fun h => absurd rfl h
        balance := hbalance
        finished := fun _ => Or.inr ⟨q, hq, cur.mark, hne, hline⟩ }
  · rw [hgame]
    exact
      { no_line := fun h => absurd rfl h
        not_full := fun h => absurd rfl h
        turn := fun h => absurd rfl h
        balance := hbalance
        finished := fun _ => Or.inl hfull }
  · rw [hgame]
    exact
      { no_line := by
          intro _ p hp m hm hline
          by_cases hk : position.toNat ∈ p
          · by_cases hmm : m = cur.mark
            · subst hmm
              exact hno p hp hk hline
            · have h1 := hline position.toNat hk
              have hlt : position.toNat < g.board.length := by
                rcases Nat.lt_or_ge position.toNat g.board.length with h | h
                · exact h
                · rw [List.getElem?_eq_none h] at hcell
                  exact absurd hcell (by simp)
              simp only [] at h1
              rw [List.getElem?_set_self hlt] at h1
              exact hmm (Option.some.inj h1).symm
          · exact hb.no_line hnf p hp m hm
              ((lineOf_set_of_not_mem g.board position.toNat cur.mark p m hk).1 hline)
        not_full := fun _ => hnfull
        turn := by
          intro _
          show (g.board.set position.toNat cur.mark).count MARKS.X =
            (g.board.set position.toNat cur.mark).count MARKS.O + (g.currentPlayerIndex + 1) % 2
          rw [cX, cO]
          rcases hmark with ⟨h0, hm⟩ | ⟨h1, hm⟩
          · rw [hm, if_pos rfl, if_neg hXO, h0]
            omega
          · rw [hm, if_neg (Ne.symm hXO), if_pos rfl, h1]
            omega
        balance := hbalance
        finished := by
          intro h
          simp only [] at h
          exact absurd h hnf }

/-- Every call keeps a well-formed game balanced. -/
theorem balanced_apply (g : TicTacToeGame) (c : Call) (hw : WellFormed g) (hb : Balanced g) :
    Balanced (c.apply g) := by
  cases c with
  | addPlayer userId username =>
    simp only [Call.apply]
    cases hadd : addPlayer g userId username with
    | error e => exact hb
    | ok r =>
      obtain ⟨g1, player⟩ := r
      exact balanced_addPlayer g g1 userId username player hw hb hadd
  | makeMove now playerId position =>
    simp only [Call.apply]
    cases hmove : makeMove g now playerId position with
    | error e => exact hb
    | ok out =>
      obtain ⟨hstate, hlo, -, hcell, cur, hcur, -, rfl⟩ :=
        (makeMove_eq_ok g now playerId position out).1 hmove
      exact balanced_acceptedOutcome g now cur position hw hb hstate hlo hcell hcur

/-- Every sequence of calls keeps a well-formed game balanced. -/
theorem balanced_runCalls (calls : List Call) (g : TicTacToeGame) (hw : WellFormed g)
    (hb : Balanced g) : Balanced (runCalls g calls) := by
  induction calls generalizing g with
  | nil => exact hb
  | cons c cs ih => exact ih (c.apply g) (wellFormed_apply g c hw) (balanced_apply g c hw hb)

/-- Every reachable game is balanced. -/
theorem balanced_of_reachable (g : TicTacToeGame) (hg : Reachable g) : Balanced g := by
  obtain ⟨now, calls, rfl⟩ := hg
  exact balanced_runCalls calls _ (wellFormed_new now) (balanced_new now)

/-! ## Termination -/

/-- C30: along any calls on a fresh game at most 9 moves are accepted; after 9
accepted moves the game is FINISHED; a FINISHED game has at least 5 accepted
moves; and the board always holds as many X as O, or one X more. -/
theorem terminates_within_nine (start : Nat) (calls : List Call) :
    acceptedMoves (TicTacToeGame.new start) calls ≤ 9 ∧
    (acceptedMoves (TicTacToeGame.new start) calls = 9 →
      (runCalls (TicTacToeGame.new start) calls).state = GAME_STATE.FINISHED) ∧
    ((runCalls (TicTacToeGame.new start) calls).state = GAME_STATE.FINISHED →
      5 ≤ acceptedMoves (TicTacToeGame.new start) calls) ∧
    ((runCalls (TicTacToeGame.new start) calls).board.count MARKS.X =
        (runCalls (TicTacToeGame.new start) calls).board.count MARKS.O ∨
      (runCalls (TicTacToeGame.new start) calls).board.count MARKS.X =
        (runCalls (TicTacToeGame.new start) calls).board.count MARKS.O + 1) := by
  have hw := wellFormed_runCalls calls _ (wellFormed_new start)
  have hb := balanced_runCalls calls _ (wellFormed_new start) (balanced_new start)
  have hcount := markCount_runCalls calls _ (wellFormed_new start)
  have h0 : markCount (TicTacToeGame.new start).board = 0 := by
    simp [markCount, TicTacToeGame.new]
  rw [h0, Nat.zero_add] at hcount
  have hlen := hw.board_length
  have hle : markCount (runCalls (TicTacToeGame.new start) calls).board ≤ 9 := by
    have h := List.countP_le_length (fun cell => cell != MARKS.NONE)
      (l := (runCalls (TicTacToeGame.new start) calls).board)
    rw [hlen] at h
    exact h
  refine ⟨by omega, ?_, ?_, hb.balance⟩
  · intro h9
    by_contra hnf
    apply hb.not_full hnf
    have hall : List.countP (fun cell => cell != MARKS.NONE)
        (runCalls (TicTacToeGame.new start) calls).board =
        (runCalls (TicTacToeGame.new start) calls).board.length := by
      rw [hlen, ← h9, ← hcount]
      rfl
    intro c hc
    simpa using List.countP_eq_length.1 hall c hc
  · intro hfin
    have hsum := markCount_eq_counts _ hw.cells
    rcases hb.finished hfin with hfull | ⟨p, hp, m, hm, hline⟩
    · have hall : markCount (runCalls (TicTacToeGame.new start) calls).board =
          (runCalls (TicTacToeGame.new start) calls).board.length := by
        unfold markCount
        rw [List.countP_eq_length]
        intro c hc
        simpa using hfull c hc
      omega
    · have h3 := three_le_count_of_line _ p m hlen hp hline
      obtain ⟨a, b, c, rfl, -, -, -⟩ := winPatterns_triple p hp
      have hmem := List.getElem?_mem (hline a (List.mem_cons_self _ _))
      have hbal := hb.balance
      rcases hw.cells m hmem with h | h | h
      · exact absurd h hm
      · rw [h] at h3
        omega
      · rw [h] at h3
        omega

/-- Witness of C30: the nine accepted moves of a drawn game leave it FINISHED. -/
theorem terminates_within_nine_witness :
    (runCalls (TicTacToeGame.new 0) (drawCalls ++ [.makeMove 9 "alice" 8])).state =
      GAME_STATE.FINISHED :=
  (terminates_within_nine 0 (drawCalls ++ [.makeMove 9 "alice" 8])).2.1 (by decide)

/-! ## The incremental win check and the full-board evaluation -/

/-- After a mark on an empty cell of an unfinished balanced game, every
complete triple goes through that cell and holds that mark. -/
theorem line_after_move (g : TicTacToeGame) (hb : Balanced g)
    (hnf : g.state ≠ GAME_STATE.FINISHED) (k mark : Nat)
    (hcell : g.board[k]? = some MARKS.NONE) (p : List Nat) (hp : p ∈ winPatterns) (m : Nat)
    (hm : m ≠ MARKS.NONE) (hline : lineOf (g.board.set k mark) p m) : k ∈ p ∧ m = mark := by
  by_cases hk : k ∈ p
  · refine ⟨hk, ?_⟩
    have hlt : k < g.board.length := by
      rcases Nat.lt_or_ge k g.board.length with h | h
      · exact h
      · rw [List.getElem?_eq_none h] at hcell
        exact absurd hcell (by simp)
    have h1 := hline k hk
    rw [List.getElem?_set_self hlt] at h1
    exact (Option.some.inj h1).symm
  · exact absurd ((lineOf_set_of_not_mem g.board k mark p m hk).1 hline)
      (hb.no_line hnf p hp m hm)

/-- A cell of the mapped board that is not empty comes from an X or an O. -/
theorem cell_of_symbol (board : List Nat)
    (hcells : ∀ c ∈ board, c = MARKS.NONE ∨ c = MARKS.X ∨ c = MARKS.O) (i : Nat) (s : String)
    (hs : s ≠ "") (h : (board.map markSymbol)[i]? = some s) :
    ∃ c, (c = MARKS.X ∨ c = MARKS.O) ∧ board[i]? = some c ∧ markSymbol c = s := by
  rw [List.getElem?_map] at h
  cases hc : board[i]? with
  | none => rw [hc] at h; exact absurd h (by simp)
  | some c =>
    rw [hc] at h
    have hsym : markSymbol c = s := Option.some.inj h
    rcases hcells c (List.getElem?_mem hc) with h0 | h1 | h2
    · subst h0
      exact absurd hsym.symm hs
    · exact ⟨c, Or.inl h1, rfl, hsym⟩
    · exact ⟨c, Or.inr h2, rfl, hsym⟩

/-- A complete triple of X or O is a winning triple of the mapped board. -/
theorem cellsWin_of_lineOf (board : List Nat) (p : List Nat) (m : Nat)
    (hm : m = MARKS.X ∨ m = MARKS.O) (hline : lineOf board p m) :
    cellsWin (board.map markSymbol) p := by
  refine ⟨markSymbol m, ?_, ?_⟩
  · rcases hm with h | h <;> subst h <;> decide
  · intro i hi
    rw [List.getElem?_map, hline i hi]
    rfl

/-- A triple of the mapped board filled with one non-empty string is a complete
triple of X or O, and the string is the symbol of that mark. -/
theorem lineOf_of_cells (board : List Nat)
    (hcells : ∀ c ∈ board, c = MARKS.NONE ∨ c = MARKS.X ∨ c = MARKS.O) (p : List Nat)
    (hp : p ∈ winPatterns) (s : String) (hs : s ≠ "")
    (hall : ∀ i ∈ p, (board.map markSymbol)[i]? = some s) :
    ∃ m, (m = MARKS.X ∨ m = MARKS.O) ∧ lineOf board p m ∧ s = markSymbol m := by
  obtain ⟨a, b, c, rfl, -, -, -⟩ := winPatterns_triple p hp
  obtain ⟨m, hm, -, hsym⟩ := cell_of_symbol board hcells a s hs (hall a (List.mem_cons_self _ _))
  refine ⟨m, hm, ?_, hsym.symm⟩
  intro i hi
  obtain ⟨ci, hci, hget, hsymi⟩ := cell_of_symbol board hcells i s hs (hall i hi)
  rw [hget]
  have hinj : markSymbol ci = markSymbol m := hsymi.trans hsym.symm
  rcases hci with h1 | h1 <;> rcases hm with h2 | h2 <;> subst h1 h2
  · rfl
  · exact absurd hinj (by decide)
  · exact absurd hinj (by decide)
  · rfl

/-- The local evaluator on a board without a winning triple: `'draw'` when the
board is full, `null` otherwise. -/
theorem checkWinner_of_no_win (board : List String)
    (hno : ¬ ∃ p ∈ winPatterns, cellsWin board p) :
    checkWinner board = if board.all (fun cell => cell != "") then some "draw" else none := by
  unfold checkWinner
  rw [(checkWinner_find_none board).2 hno]

/-- C29: for an accepted move on a reachable game, the board afterwards is the
board with the cell marked; `checkWin` for the mover and the position is true
exactly when that board holds a complete triple of X or of O; the result is
WIN exactly when `checkWin` is true, with the mover as winner; and `checkWinner`
on the board mapped to the cells of the web client returns the symbol of the
mover on WIN, `'draw'` on DRAW and `null` when the game goes on. -/
theorem checkWin_agrees (g : TicTacToeGame) (hg : Reachable g) (now : Nat)
    (playerId : String) (position : Int) (out : MoveOutcome) (mover : Player)
    (hok : makeMove g now playerId position = .ok out)
    (hmover : g.players[g.currentPlayerIndex]? = some mover) :
    out.game.board = g.board.set position.toNat mover.mark ∧
    ((checkWin { g with board := g.board.set position.toNat mover.mark, updatedAt := now }
        mover.mark position).1 = true ↔
      ∃ p ∈ winPatterns, ∃ m, (m = MARKS.X ∨ m = MARKS.O) ∧ lineOf out.game.board p m) ∧
    (out.game.result = RESULT.WIN ↔
      (checkWin { g with board := g.board.set position.toNat mover.mark, updatedAt := now }
        mover.mark position).1 = true) ∧
    (out.game.result = RESULT.WIN ∨ out.game.result = RESULT.DRAW ∨
      out.game.result = RESULT.NONE) ∧
    (out.game.result = RESULT.WIN →
      out.game.winner = some mover ∧ (markSymbol mover.mark = "X" ∨ markSymbol mover.mark = "O") ∧
      checkWinner (out.game.board.map markSymbol) = some (markSymbol mover.mark)) ∧
    (out.game.result = RESULT.DRAW →
      checkWinner (out.game.board.map markSymbol) = some "draw") ∧
    (out.game.result = RESULT.NONE → checkWinner (out.game.board.map markSymbol) = none) := by
  obtain ⟨hstate, hpos, -, hcell, cur, hcur, -, rfl⟩ :=
    (makeMove_eq_ok g now playerId position out).1 hok
  rw [hmover] at hcur
  obtain rfl := Option.some.inj hcur
  have hw := wellFormed_of_reachable g hg
  have hb := balanced_of_reachable g hg
  have hnf : g.state ≠ GAME_STATE.FINISHED := by
    rw [hstate]
    decide
  have hwout := wellFormed_acceptedOutcome g now mover position hw hstate hpos hmover
  have hboard := acceptedOutcome_board g now mover position
  have hcells : ∀ c ∈ g.board.set position.toNat mover.mark,
      c = MARKS.NONE ∨ c = MARKS.X ∨ c = MARKS.O := by
    rw [← hboard]
    exact hwout.cells
  have hmark : mover.mark = MARKS.X ∨ mover.mark = MARKS.O := by
    rcases hw.mark_current mover hmover with ⟨-, h⟩ | ⟨-, h⟩
    · exact Or.inl h
    · exact Or.inr h
  have hmarkne : mover.mark ≠ MARKS.NONE := by
    rcases hmark with h | h <;> rw [h] <;> decide
  have hsym : markSymbol mover.mark = "X" ∨ markSymbol mover.mark = "O" := by
    rcases hmark with h | h <;> rw [h]
    · exact Or.inl (by decide)
    · exact Or.inr (by decide)
  have hne : ∀ m, m = MARKS.X ∨ m = MARKS.O → m ≠ MARKS.NONE := by
    intro m hm
    rcases hm with h | h <;> rw [h] <;> decide
  have hres := hw.unfinished hnf
  have hWD : RESULT.WIN ≠ RESULT.DRAW := by decide
  have hWN : RESULT.WIN ≠ RESULT.NONE := by decide
  have hDN : RESULT.DRAW ≠ RESULT.NONE := by decide
  have hcheck : (checkWin { g with board := g.board.set position.toNat mover.mark, updatedAt := now }
        mover.mark position).1 = true ↔
      ∃ p ∈ winPatterns, ∃ m, (m = MARKS.X ∨ m = MARKS.O) ∧
        lineOf (g.board.set position.toNat mover.mark) p m := by
    unfold checkWin
    cases hf : winPatterns.find? (checkWinTest (g.board.set position.toNat mover.mark)
        mover.mark position) with
    | some q =>
      simp only [hf, true_iff]
      obtain ⟨hq, -, hline⟩ := checkWin_find_some _ mover.mark position q hpos hf
      exact ⟨q, hq, mover.mark, hmark, hline⟩
    | none =>
      simp only [hf, Bool.false_eq_true, false_iff]
      rintro ⟨p, hp, m, hm, hline⟩
      obtain ⟨hk, rfl⟩ := line_after_move g hb hnf position.toNat mover.mark hcell p hp m
        (hne m hm) hline
      exact (checkWin_find_none _ mover.mark position hpos).1 hf p hp hk hline
  rw [hboard]
  refine ⟨rfl, hcheck, ?_⟩
  rcases acceptedOutcome_cases g now mover position hpos with
    ⟨q, hq, hkq, hline, hgame⟩ | ⟨hno, hfull, hgame⟩ | ⟨hno, hnfull, hgame⟩
  · rw [hgame]
    have htrue := hcheck.2 ⟨q, hq, mover.mark, hmark, hline⟩
    refine ⟨⟨fun _ => htrue, fun _ => rfl⟩, Or.inl rfl, ?_, fun h => absurd h hWD,
      fun h => absurd h hWN⟩
    intro _
    refine ⟨rfl, hsym, ?_⟩
    have hwin : ∃ p ∈ winPatterns, cellsWin ((g.board.set position.toNat mover.mark).map
        markSymbol) p := ⟨q, hq, cellsWin_of_lineOf _ q mover.mark hmark hline⟩
    cases hf : winPatterns.find? (checkWinnerTest ((g.board.set position.toNat mover.mark).map
        markSymbol)) with
    | none => exact absurd hwin ((checkWinner_find_none _).1 hf)
    | some p =>
      obtain ⟨hp, s, hs, hcw, hall⟩ := checkWinner_of_find _ p hf
      obtain ⟨m, hm, hlinem, hsm⟩ := lineOf_of_cells _ hcells p hp s hs hall
      obtain ⟨-, rfl⟩ := line_after_move g hb hnf position.toNat mover.mark hcell p hp m
        (hne m hm) hlinem
      rw [hcw, hsm]
  · rw [hgame]
    have hnowin : ¬ ∃ p ∈ winPatterns, cellsWin ((g.board.set position.toNat mover.mark).map
        markSymbol) p := by
      rintro ⟨p, hp, s, hs, hall⟩
      obtain ⟨m, hm, hlinem, -⟩ := lineOf_of_cells _ hcells p hp s hs hall
      obtain ⟨hk, rfl⟩ := line_after_move g hb hnf position.toNat mover.mark hcell p hp m
        (hne m hm) hlinem
      exact hno p hp hk hlinem
    have hfalse : ¬ ∃ p ∈ winPatterns, ∃ m, (m = MARKS.X ∨ m = MARKS.O) ∧
        lineOf (g.board.set position.toNat mover.mark) p m := by
      rintro ⟨p, hp, m, hm, hlinem⟩
      obtain ⟨hk, rfl⟩ := line_after_move g hb hnf position.toNat mover.mark hcell p hp m
        (hne m hm) hlinem
      exact hno p hp hk hlinem
    refine ⟨⟨fun h => absurd h (Ne.symm hWD), fun h => absurd (hcheck.1 h) hfalse⟩, Or.inr (Or.inl rfl),
      fun h => absurd h (Ne.symm hWD), ?_, fun h => absurd h hDN⟩
    intro _
    rw [checkWinner_of_no_win _ hnowin, if_pos]
    rw [List.all_eq_true]
    intro cell hcell2
    obtain ⟨c, hc, rfl⟩ := List.mem_map.1 hcell2
    rcases hcells c hc with h | h | h
    · exact absurd h (hfull c hc)
    · subst h; decide
    · subst h; decide
  · rw [hgame]
    have hnowin : ¬ ∃ p ∈ winPatterns, cellsWin ((g.board.set position.toNat mover.mark).map
        markSymbol) p := by
      rintro ⟨p, hp, s, hs, hall⟩
      obtain ⟨m, hm, hlinem, -⟩ := lineOf_of_cells _ hcells p hp s hs hall
      obtain ⟨hk, rfl⟩ := line_after_move g hb hnf position.toNat mover.mark hcell p hp m
        (hne m hm) hlinem
      exact hno p hp hk hlinem
    have hfalse : ¬ ∃ p ∈ winPatterns, ∃ m, (m = MARKS.X ∨ m = MARKS.O) ∧
        lineOf (g.board.set position.toNat mover.mark) p m := by
      rintro ⟨p, hp, m, hm, hlinem⟩
      obtain ⟨hk, rfl⟩ := line_after_move g hb hnf position.toNat mover.mark hcell p hp m
        (hne m hm) hlinem
      exact hno p hp hk hlinem
    have hr : g.result = RESULT.NONE := hres.1
    refine ⟨⟨fun h => ?_, fun h => absurd (hcheck.1 h) hfalse⟩, Or.inr (Or.inr hr), fun h => ?_,
      fun h => ?_, ?_⟩
    · exact absurd (h.symm.trans hr) hWN
    · exact absurd (h.symm.trans hr) hWN
    · exact absurd (h.symm.trans hr) hDN
    intro _
    rw [checkWinner_of_no_win _ hnowin, if_neg]
    intro hall
    apply hnfull
    intro c hc h0
    rw [List.all_eq_true] at hall
    have := hall (markSymbol c) (List.mem_map.2 ⟨c, hc, rfl⟩)
    subst h0
    exact absurd this (by decide)

/-- Witness of C29: the ninth move of a drawn game, by `alice` to cell 8. -/
theorem checkWin_agrees_witness :
    checkWinner ((acceptedOutcome (runCalls (TicTacToeGame.new 0) drawCalls) 9
      ⟨"alice", "Alice", MARKS.X⟩ 8).game.board.map markSymbol) = some "draw" :=
  (checkWin_agrees (runCalls (TicTacToeGame.new 0) drawCalls) ⟨0, drawCalls, rfl⟩ 9 "alice" 8
    (acceptedOutcome (runCalls (TicTacToeGame.new 0) drawCalls) 9 ⟨"alice", "Alice", MARKS.X⟩ 8)
    ⟨"alice", "Alice", MARKS.X⟩ (by decide) (by decide)).2.2.2.2.2.1 (by decide)

end TicTacToe
